import Mathlib

/-!
# The delta/rate engine of the `system` collectors

A shallow embedding of the Go package `system` (files `var.go`, `iostat.go`,
`net.go`, `cpu.go`, `disk.go`) together with the properties of its rate computation.

Modelling conventions.

* `int64` values are integers; every `int64` operation of the source is followed by
  `wrapInt64`.  `uint64` values are naturals; every `uint64` operation is taken
  modulo `2 ^ 64`.
* `float64` values are rationals: conversions and the four operations are exact, and
  infinities and NaN are outside the model.  Rounding is modelled where a property
  depends on it: `cpuSampleF64` is `cpuSample` with every `float64` conversion and
  operation followed by the rounding `roundFloat64` to the nearest `float64`.
  Every quotient of the source whose denominator is a variable is recorded in a ghost
  list `divisors`, so that "no division by a non-positive number" is a statement about
  the model.
* A Go string is a `String`; `strings.Fields`, `strings.Split`, `strconv.ParseInt`,
  `strconv.ParseUint` and `strconv.Atoi` are transcribed from the Go standard library;
  only the value is kept where the source discards the error (`x, _ := ...`).
* A file is the string of its content; `bufio.Reader.ReadString` yields the
  newline-terminated lines, and the source drops a last line without newline.
* `time.Now().Unix()` is a parameter: the clock reading taken while a line is handled.
  The theorems take clock readings in the range `0 ≤ t < 2 ^ 63` of a Unix time held in
  an `int64`; the value 0 is not excluded.
* `map[string]*T` is an association list with distinct keys.
-/

namespace Sysmon

/-! ## Machine integers -/

/-- The `int64` value with the same residue modulo `2 ^ 64` as `x`. -/
def wrapInt64 (x : Int) : Int := (x + 2 ^ 63) % 2 ^ 64 - 2 ^ 63

/-- Go `a - b` on `int64`. -/
def subInt64 (a b : Int) : Int := wrapInt64 (a - b)

/-- Go `a + b` on `int64`. -/
def addInt64 (a b : Int) : Int := wrapInt64 (a + b)

/-- Go `a - b` on `uint64`. -/
def subUint64 (a b : Nat) : Nat := (((a : Int) - (b : Int)) % 2 ^ 64).toNat

/-- Go `a + b` on `uint64`. -/
def addUint64 (a b : Nat) : Nat := (a + b) % 2 ^ 64

/-- The largest `uint64`. -/
def maxUint64 : Nat := 2 ^ 64 - 1

/-! ## Strings, lines and numbers -/

/-- Go `unicode.IsSpace`. -/
def isSpace (c : Char) : Bool :=
  let n := c.toNat
  (9 ≤ n && n ≤ 13) || n = 32 || n = 133 || n = 160 || n = 5760 ||
    (8192 ≤ n && n ≤ 8202) || n = 8232 || n = 8233 || n = 8239 || n = 8287 || n = 12288

/-- Worker of `Fields`: `cur` is the field being read, reversed. -/
def fieldsGo : List Char → List Char → List String
  | [], cur => if cur.isEmpty then [] else [String.mk cur.reverse]
  | c :: cs, cur =>
    if isSpace c then
      if cur.isEmpty then fieldsGo cs [] else String.mk cur.reverse :: fieldsGo cs []
    else fieldsGo cs (c :: cur)

/-- Go `strings.Fields`: the maximal runs of non-space characters. -/
def Fields (s : String) : List String := fieldsGo s.toList []

/-- Worker of `readLines`: `cur` is the line being read, reversed. -/
def readLinesGo : List Char → List Char → List String
  | [], _ => []
  | c :: cs, cur =>
    if c = '\n' then String.mk (c :: cur).reverse :: readLinesGo cs []
    else readLinesGo cs (c :: cur)

/-- The lines a `for { line, err := reader.ReadString('\n'); if err == io.EOF { break } ... }`
loop handles: each ends with its newline; what follows the last newline comes with
`io.EOF` and is dropped by the `break`. -/
def readLines (content : String) : List String := readLinesGo content.toList []

/-- Worker of `ParseUint` in base 10 on 64 bits, from digit to digit; `n` is the value
so far.  A character that is not a decimal digit is a syntax error (value `0`), an
overflow is a range error (value `maxUint64`). -/
def parseUintGo : List Char → Nat → Nat
  | [], n => n
  | c :: cs, n =>
    if c.isDigit then
      if n ≥ maxUint64 / 10 + 1 then maxUint64
      else
        let n1 := n * 10 + (c.toNat - 48)
        if n1 > maxUint64 then maxUint64 else parseUintGo cs n1
    else 0

/-- The value of `v, _ := strconv.ParseUint(s, 10, 64)`. -/
def ParseUint (s : String) : Nat :=
  match s.toList with
  | [] => 0
  | cs => parseUintGo cs 0

/-- Whether `ParseUint(s, 10, 64)` reports a syntax error. -/
def parseUintSyntaxErr : List Char → Nat → Bool
  | [], _ => false
  | c :: cs, n =>
    if c.isDigit then
      if n ≥ maxUint64 / 10 + 1 then false
      else
        let n1 := n * 10 + (c.toNat - 48)
        if n1 > maxUint64 then false else parseUintSyntaxErr cs n1
    else true

/-- The value of `v, _ := strconv.ParseInt(s, 10, 64)`: an optional sign, then
`ParseUint`; `0` on a syntax error, the nearest bound on a range error. -/
def ParseInt (s : String) : Int :=
  match s.toList with
  | [] => 0
  | c :: cs =>
    let neg := c = '-'
    let ds := if c = '+' ∨ c = '-' then cs else c :: cs
    if ds.isEmpty ∨ parseUintSyntaxErr ds 0 then 0
    else
      let un := parseUintGo ds 0
      if ¬ neg ∧ un ≥ 2 ^ 63 then 2 ^ 63 - 1
      else if neg ∧ un > 2 ^ 63 then -(2 ^ 63)
      else if neg then -(un : Int) else (un : Int)

/-- Worker of the fast path of `Atoi`: the digits from left to right, `n` being the
value so far; `none` is the syntax error of a byte that is not a decimal digit. -/
def atoiFast : List Char → Int → Option Int
  | [], n => some n
  | c :: cs, n =>
    if c.isDigit then atoiFast cs (n * 10 + ((c.toNat - 48 : Nat) : Int)) else none

/-- Whether `strconv.ParseInt(s, 10, 0)` reports an error: a syntax error (empty string,
no digit after the sign, a character that is not a digit) or a range error. -/
def parseIntErr (s : String) : Bool :=
  match s.toList with
  | [] => true
  | c :: cs =>
    let neg := c = '-'
    let ds := if c = '+' ∨ c = '-' then cs else c :: cs
    if ds.isEmpty ∨ parseUintSyntaxErr ds 0 then true
    else
      let un := parseUintGo ds 0
      decide ((¬ neg ∧ un ≥ 2 ^ 63) ∨ (neg ∧ un > 2 ^ 63))

/-- Go `strconv.Atoi` on a 64-bit platform, `none` standing for an error: the fast
path for strings of 1 to 18 bytes (too short to overflow an `int`), and
`ParseInt(s, 10, 0)` for the others. -/
def Atoi (s : String) : Option Int :=
  let sLen := s.utf8ByteSize
  if 0 < sLen ∧ sLen < 19 then
    match s.toList with
    | [] => none
    | c :: cs =>
      let signed := c = '-' ∨ c = '+'
      let ds := if signed then cs else c :: cs
      if signed ∧ ds.length < 1 then none
      else
        match atoiFast ds 0 with
        | none => none
        | some n => some (if c = '-' then -n else n)
  else if parseIntErr s then none
  else some (ParseInt s)

/-- Worker of `Contains`: whether `sub` starts at some position of the list. -/
def containsGo : List Char → List Char → Bool
  | [], sub => sub.isEmpty
  | c :: cs, sub => sub.isPrefixOf (c :: cs) || containsGo cs sub

/-- Go `strings.Contains`. -/
def Contains (s substr : String) : Bool := containsGo s.toList substr.toList

/-- Worker of `Split`: `cur` is the piece being read, reversed. -/
def splitGo (sep : Char) : List Char → List Char → List String
  | [], cur => [String.mk cur.reverse]
  | c :: cs, cur =>
    if c = sep then String.mk cur.reverse :: splitGo sep cs [] else splitGo sep cs (c :: cur)

/-- Go `strings.Split(s, sep)` for a separator of one character (the source splits on
`":"`, `"."` and `"\n"`). -/
def Split (s : String) (sep : Char) : List String := splitGo sep s.toList []

/-- Go `strings.TrimSpace`. -/
def TrimSpace (s : String) : String :=
  String.mk ((s.toList.dropWhile isSpace).reverse.dropWhile isSpace).reverse

/-- Worker of `Replace`: every occurrence of the non-empty `old`, from the left and
without overlap, becomes `new`; `fuel` bounds the length of the rest. -/
def replaceGo (old new : List Char) : Nat → List Char → List Char
  | 0, s => s
  | _ + 1, [] => []
  | fuel + 1, c :: cs =>
    if old.isPrefixOf (c :: cs) ∧ old ≠ [] then
      new ++ replaceGo old new fuel ((c :: cs).drop old.length)
    else c :: replaceGo old new fuel cs

/-- Go `strings.Replace(s, old, new, -1)` for a non-empty `old`. -/
def Replace (s old new : String) : String :=
  String.mk (replaceGo old.toList new.toList s.length s.toList)

/-- The function `Trim` of `var.go`, as a function of the string it rewrites. -/
def Trim (str : String) : String := Replace (TrimSpace str) "\n" ""

/-- The decimal digits of `n`, at least `width` of them. -/
def padDigits (width n : Nat) : String :=
  let ds := Nat.toDigits 10 n
  String.mk (List.replicate (width - ds.length) '0' ++ ds)

/-- Rounding of a non-negative rational to the nearest integer, ties to even. -/
def roundHalfEven (q : ℚ) : Nat :=
  let fl := q.floor.toNat
  let rest := q - (fl : ℚ)
  if rest < 1 / 2 then fl
  else if rest > 1 / 2 then fl + 1
  else if fl % 2 = 0 then fl else fl + 1

/-- Go `strconv.FormatFloat(f, 'f', prec, 64)` on a finite value: sign, integer part
and `prec` decimals of `f` rounded at that place. -/
def FormatFloat (f : ℚ) (prec : Nat) : String :=
  let n := roundHalfEven (|f| * (10 : ℚ) ^ prec)
  let sign := if f < 0 then "-" else ""
  let whole := padDigits 1 (n / 10 ^ prec)
  if prec = 0 then sign ++ whole else sign ++ whole ++ "." ++ padDigits prec (n % 10 ^ prec)

/-- The function `FloatToString` of `var.go`. -/
def FloatToString (f : ℚ) : String :=
  if f = 0 then "0" else FormatFloat f 2

/-- Worker of `log2Nat`: halving until the number is below 2, at most `fuel` times. -/
def log2Fuel : Nat → Nat → Nat
  | 0, _ => 0
  | fuel + 1, n => if n < 2 then 0 else log2Fuel fuel (n / 2) + 1

/-- The position of the leading bit of a positive natural number: the `k` with
`2 ^ k ≤ n < 2 ^ (k + 1)`. -/
def log2Nat (n : Nat) : Nat := log2Fuel n n

/-- The exponent of the binade of a positive rational: the integer `e` with
`2 ^ e ≤ x < 2 ^ (e + 1)`. -/
def float64Exp (x : ℚ) : Int :=
  let e0 : Int := (log2Nat x.num.toNat : Int) - (log2Nat x.den : Int)
  if x < (2 : ℚ) ^ e0 then e0 - 1 else e0

/-- The `float64` nearest to `x`, ties to the even significand: `x` is rounded to a
multiple of `2 ^ (e - 52)`, `e` being the exponent of its binade.  The exponent is not
bounded: this is IEEE 754 binary64 rounding for magnitudes between `2 ^ (-1022)` and
`2 ^ 1024`, where there is neither overflow nor a subnormal result. -/
def roundFloat64 (x : ℚ) : ℚ :=
  if x = 0 then 0
  else
    let ulp : ℚ := (2 : ℚ) ^ (float64Exp |x| - 52)
    let m : ℚ := ((roundHalfEven (|x| / ulp) : Nat) : ℚ)
    if x < 0 then -(m * ulp) else m * ulp

/-! ## Maps of the source -/

/-- A Go `map[string]*T`: an association list. -/
abbrev GoMap (β : Type) := List (String × β)

/-- Go `v, exists := m[k]`. -/
def GoMap.get? {β : Type} (m : GoMap β) (k : String) : Option β :=
  match m with
  | [] => none
  | (k', v) :: rest => if k' = k then some v else GoMap.get? rest k

/-- Go `m[k] = v`, and also a write through the pointer stored under `k`. -/
def GoMap.set {β : Type} (m : GoMap β) (k : String) (v : β) : GoMap β :=
  match m with
  | [] => [(k, v)]
  | (k', v') :: rest => if k' = k then (k, v) :: rest else (k', v') :: GoMap.set rest k v

/-- The keys of a map. -/
def GoMap.keys {β : Type} (m : GoMap β) : List String := m.map Prod.fst

/-! ## `iostat.go`: disk partitions -/

/-- The struct `Partition` of `iostat.go`. -/
structure Partition where
  Name : String
  Rio : Int
  Rmerge : Int
  Rsect : Int
  Relapsed : Int
  Wio : Int
  Wmerge : Int
  Wsect : Int
  Welapsed : Int
  Elapsed : Int
  Aveq : Int
  RmergePerSecond : ℚ
  WmergePerSecond : ℚ
  RioPerSecond : ℚ
  WioPerSecond : ℚ
  RsectPerSecond : ℚ
  WsectPerSecond : ℚ
  ReqSz : ℚ
  ServeElapsed : ℚ
  AwaitElapsed : ℚ
  QueueSz : ℚ
  ReqRate : ℚ
  RkbPerSecond : ℚ
  WkbPerSecond : ℚ
  Last : Int

/-- Go `&Partition{Name: name}`: every other field has its zero value. -/
def Partition.new (name : String) : Partition :=
  { Name := name, Rio := 0, Rmerge := 0, Rsect := 0, Relapsed := 0, Wio := 0, Wmerge := 0,
    Wsect := 0, Welapsed := 0, Elapsed := 0, Aveq := 0, RmergePerSecond := 0,
    WmergePerSecond := 0, RioPerSecond := 0, WioPerSecond := 0, RsectPerSecond := 0,
    WsectPerSecond := 0, ReqSz := 0, ServeElapsed := 0, AwaitElapsed := 0, QueueSz := 0,
    ReqRate := 0, RkbPerSecond := 0, WkbPerSecond := 0, Last := 0 }

/-- The thirteen derived metrics of a partition, in the order of the struct. -/
def Partition.derived (p : Partition) : List ℚ :=
  [p.RmergePerSecond, p.WmergePerSecond, p.RioPerSecond, p.WioPerSecond, p.RsectPerSecond,
    p.WsectPerSecond, p.ReqSz, p.ServeElapsed, p.AwaitElapsed, p.QueueSz, p.ReqRate,
    p.RkbPerSecond, p.WkbPerSecond]

/-- The struct `DiskIO` of `iostat.go`. -/
structure DiskIO where
  PartiMap : GoMap Partition
  PartiNames : List String
  QueueSzAvg : ℚ
  ReqSzAvg : ℚ
  ServeAvg : ℚ
  AwaitAvg : ℚ
  RkbAvg : ℚ
  WkbAvg : ℚ
  RmergeAvg : ℚ
  WmergeAvg : ℚ
  RioAvg : ℚ
  WioAvg : ℚ
  RsectAvg : ℚ
  WsectAvg : ℚ
  ReqRateAvg : ℚ
  MaxReqRate : ℚ
  MaxReqRateParti : String

/-- One handled line of `/proc/partitions` (the loop body of `InitPartitions`, lines
105-114): a line of four fields registers its fourth field when it is a new name. -/
def initPartitionsLine (d : DiskIO) (line : String) : DiskIO :=
  let fileds := Fields line
  if fileds.length ≠ 4 then d
  else
    let name := fileds.getD 3 ""
    match d.PartiMap.get? name with
    | some _ => d
    | none =>
      { d with PartiMap := d.PartiMap.set name (Partition.new name),
               PartiNames := d.PartiNames ++ [name] }

/-- The method `InitPartitions` on the content of `/proc/partitions`: the first line
read is skipped (`row == 1`). -/
def DiskIO.InitPartitions (d : DiskIO) (content : String) : DiskIO :=
  ((readLines content).drop 1).foldl initPartitionsLine d

/-- The invariant of the history store of `DiskIO`: `PartiNames` has no duplicates and
its elements are exactly the keys of `PartiMap`. -/
def DiskIO.HistoryInv (d : DiskIO) : Prop :=
  d.PartiNames.Nodup ∧ ∀ k, k ∈ d.PartiNames ↔ k ∈ d.PartiMap.keys

/-- The names a `/proc/partitions` content shows to `InitPartitions`: the fourth field
of the lines of four fields, the first line of the file being skipped. -/
def partitionNames (content : String) : List String :=
  (((readLines content).drop 1).filter fun line => (Fields line).length = 4).map
    fun line => (Fields line).getD 3 ""

/-- The ten counters `InitIoStat` parses from one line of `/proc/diskstats`. -/
structure DiskReading where
  rio : Int
  rmerge : Int
  rsect : Int
  relapsed : Int
  wio : Int
  wmerge : Int
  wsect : Int
  welapsed : Int
  elapsed : Int
  aveq : Int
  deriving DecidableEq

/-- Lines 159-178 of `InitIoStat`: a line of fourteen fields gives the partition name
(third field) and the counters (fields 3-10, 12, 13, counted from 0). -/
def parseDiskstatsLine (line : String) : Option (String × DiskReading) :=
  let fields := Fields line
  if fields.length ≠ 14 then none
  else
    some (fields.getD 2 "",
      { rio := ParseInt (fields.getD 3 ""), rmerge := ParseInt (fields.getD 4 ""),
        rsect := ParseInt (fields.getD 5 ""), relapsed := ParseInt (fields.getD 6 ""),
        wio := ParseInt (fields.getD 7 ""), wmerge := ParseInt (fields.getD 8 ""),
        wsect := ParseInt (fields.getD 9 ""), welapsed := ParseInt (fields.getD 10 ""),
        elapsed := ParseInt (fields.getD 12 ""), aveq := ParseInt (fields.getD 13 "") })

/-- The local variables of `InitIoStat` (lines 129-149), and the ghost list of the
variable denominators the pass has divided by. -/
structure IoStatLocals where
  QueueSzSum : ℚ
  ReqSzSum : ℚ
  ServeSum : ℚ
  AwaitSum : ℚ
  RkbSum : ℚ
  WkbSum : ℚ
  RmergeSum : ℚ
  WmergeSum : ℚ
  RioSum : ℚ
  WioSum : ℚ
  RsectSum : ℚ
  WsectSum : ℚ
  ReqRateSum : ℚ
  maxReqRate : ℚ
  maxReqRateParti : String
  divisors : List ℚ

/-- The locals of `InitIoStat` when the loop starts: zero values. -/
def IoStatLocals.init : IoStatLocals :=
  { QueueSzSum := 0, ReqSzSum := 0, ServeSum := 0, AwaitSum := 0, RkbSum := 0, WkbSum := 0,
    RmergeSum := 0, WmergeSum := 0, RioSum := 0, WioSum := 0, RsectSum := 0, WsectSum := 0,
    ReqRateSum := 0, maxReqRate := 0, maxReqRateParti := "", divisors := [] }

/-- Lines 184-230 of `InitIoStat`: the per-second rates of a partition that has a
baseline, from the reading `r` taken at `now`. -/
def ioStatRates (parti : Partition) (acc : IoStatLocals) (partiName : String)
    (r : DiskReading) (now : Int) : Partition × IoStatLocals :=
  let difftime : ℚ := ((subInt64 now parti.Last : Int) : ℚ)
  if difftime > 0 then
    let rmergePerSecond : ℚ := ((subInt64 r.rmerge parti.Rmerge : Int) : ℚ) / difftime
    let wmergePerSecond : ℚ := ((subInt64 r.wmerge parti.Wmerge : Int) : ℚ) / difftime
    let rioPerSecond : ℚ := ((subInt64 r.rio parti.Rio : Int) : ℚ) / difftime
    let wioPerSecond : ℚ := ((subInt64 r.wio parti.Wio : Int) : ℚ) / difftime
    let rsectPerSecond : ℚ := ((subInt64 r.rsect parti.Rsect : Int) : ℚ) / difftime
    let wsectPerSecond : ℚ := ((subInt64 r.wsect parti.Wsect : Int) : ℚ) / difftime
    let rkbPerSecond : ℚ := rsectPerSecond / 2
    let wkbPerSecond : ℚ := wsectPerSecond / 2
    let queueSz : ℚ := ((subInt64 r.aveq parti.Aveq : Int) : ℚ) / difftime / 1000
    let reqRate : ℚ := ((subInt64 r.elapsed parti.Elapsed : Int) : ℚ) * 100 / difftime / 1000
    let hit : Bool := decide (reqRate ≥ acc.maxReqRate)
    ({ parti with RmergePerSecond := rmergePerSecond, WmergePerSecond := wmergePerSecond,
                  RioPerSecond := rioPerSecond, WioPerSecond := wioPerSecond,
                  RsectPerSecond := rsectPerSecond, WsectPerSecond := wsectPerSecond,
                  RkbPerSecond := rkbPerSecond, WkbPerSecond := wkbPerSecond,
                  QueueSz := queueSz, ReqRate := reqRate },
     { acc with RkbSum := acc.RkbSum + rkbPerSecond, WkbSum := acc.WkbSum + wkbPerSecond,
                QueueSzSum := acc.QueueSzSum + queueSz,
                RmergeSum := acc.RmergeSum + rmergePerSecond,
                WmergeSum := acc.WmergeSum + wmergePerSecond,
                RioSum := acc.RioSum + rioPerSecond, WioSum := acc.WioSum + wioPerSecond,
                RsectSum := acc.RsectSum + rsectPerSecond,
                WsectSum := acc.WsectSum + wsectPerSecond,
                ReqRateSum := acc.ReqRateSum + reqRate,
                maxReqRate := if hit then reqRate else acc.maxReqRate,
                maxReqRateParti := if hit then partiName else acc.maxReqRateParti,
                divisors := acc.divisors ++ [difftime] })
  else
    let hit : Bool := decide ((0 : ℚ) ≥ acc.maxReqRate)
    ({ parti with RmergePerSecond := 0, WmergePerSecond := 0, RioPerSecond := 0,
                  WioPerSecond := 0, RsectPerSecond := 0, RkbPerSecond := 0,
                  WsectPerSecond := 0, QueueSz := 0, ReqRate := 0 },
     { acc with maxReqRate := if hit then 0 else acc.maxReqRate,
                maxReqRateParti := if hit then partiName else acc.maxReqRateParti })

/-- Lines 231-243 of `InitIoStat`: the three per-request metrics; `parti` still holds
the stored counters. -/
def ioStatComposite (parti : Partition) (acc : IoStatLocals) (r : DiskReading) :
    Partition × IoStatLocals :=
  let diffio : ℚ :=
    ((subInt64 (addInt64 (subInt64 r.rio parti.Rio) r.wio) parti.Wio : Int) : ℚ)
  if diffio > 0 then
    let reqSz : ℚ :=
      ((subInt64 (subInt64 (addInt64 r.rsect r.wsect) parti.Rsect) parti.Wsect : Int) : ℚ)
        / diffio
    let awaitElapsed : ℚ :=
      ((subInt64 (subInt64 (addInt64 r.relapsed r.welapsed) parti.Relapsed) parti.Welapsed
        : Int) : ℚ) / diffio
    let serveElapsed : ℚ := ((subInt64 r.elapsed parti.Elapsed : Int) : ℚ) / diffio
    ({ parti with ReqSz := reqSz, AwaitElapsed := awaitElapsed, ServeElapsed := serveElapsed },
     { acc with ReqSzSum := acc.ReqSzSum + reqSz, ServeSum := acc.ServeSum + serveElapsed,
                AwaitSum := acc.AwaitSum + awaitElapsed,
                divisors := acc.divisors ++ [diffio] })
  else
    ({ parti with ReqSz := 0, AwaitElapsed := 0, ServeElapsed := 0 }, acc)

/-- Lines 246-256 of `InitIoStat`: the reading becomes the stored baseline. -/
def ioStatStore (parti : Partition) (r : DiskReading) (now : Int) : Partition :=
  { parti with Last := now, Rio := r.rio, Rmerge := r.rmerge, Rsect := r.rsect,
               Relapsed := r.relapsed, Wio := r.wio, Wmerge := r.wmerge, Wsect := r.wsect,
               Welapsed := r.welapsed, Aveq := r.aveq, Elapsed := r.elapsed }

/-- Lines 181-256 of `InitIoStat`: what one reading does to its partition and to the
locals of the pass. -/
def ioStatEntry (parti : Partition) (acc : IoStatLocals) (partiName : String)
    (r : DiskReading) (now : Int) : Partition × IoStatLocals :=
  if parti.Last ≤ 0 then (ioStatStore parti r now, acc)
  else
    let s1 := ioStatRates parti acc partiName r now
    let s2 := ioStatComposite s1.1 s1.2 r
    (ioStatStore s2.1 r now, s2.2)

/-- The loop body of `InitIoStat` (lines 159-256) on one line read at clock `now`. -/
def ioStatLine (st : GoMap Partition × IoStatLocals) (line : String) (now : Int) :
    GoMap Partition × IoStatLocals :=
  match parseDiskstatsLine line with
  | none => st
  | some (partiName, r) =>
    match st.1.get? partiName with
    | none => st
    | some parti =>
      let s := ioStatEntry parti st.2 partiName r now
      (st.1.set partiName s.1, s.2)

/-- The loop of `InitIoStat` over the lines, the first of which has index `i`;
`clock k` is `time.Now().Unix()` while the line of index `k` is handled. -/
def ioStatLoop (clock : Nat → Int) :
    List String → Nat → GoMap Partition × IoStatLocals → GoMap Partition × IoStatLocals
  | [], _, st => st
  | line :: rest, i, st => ioStatLoop clock rest (i + 1) (ioStatLine st line (clock i))

/-- The method `InitIoStat` on the content of `/proc/diskstats`. -/
def DiskIO.InitIoStat (d : DiskIO) (content : String) (clock : Nat → Int) : DiskIO :=
  let st := ioStatLoop clock (readLines content) 0 (d.PartiMap, IoStatLocals.init)
  let acc := st.2
  let partiLen : ℚ := ((st.1.length : Nat) : ℚ)
  let d1 : DiskIO := { d with PartiMap := st.1 }
  let d2 : DiskIO :=
    if partiLen > 0 then
      { d1 with QueueSzAvg := acc.QueueSzSum / partiLen, ReqSzAvg := acc.ReqSzSum / partiLen,
                ServeAvg := acc.ServeSum / partiLen, AwaitAvg := acc.AwaitSum / partiLen,
                RkbAvg := acc.RkbSum / partiLen, WkbAvg := acc.WkbSum / partiLen,
                RmergeAvg := acc.RmergeSum / partiLen, WmergeAvg := acc.WmergeSum / partiLen,
                RioAvg := acc.RioSum / partiLen, WioAvg := acc.WioSum / partiLen,
                RsectAvg := acc.RsectSum / partiLen, WsectAvg := acc.WsectSum / partiLen,
                ReqRateAvg := acc.ReqRateSum / partiLen }
    else d1
  { d2 with MaxReqRate := acc.maxReqRate, MaxReqRateParti := acc.maxReqRateParti }

/-- The method `Collect` of `iostat.go` when both files can be read. -/
def DiskIO.Collect (d : DiskIO) (partitions diskstats : String) (clock : Nat → Int) : DiskIO :=
  (d.InitPartitions partitions).InitIoStat diskstats clock

/-- The local variables of the loop body of `InitIoStat` once a line has passed the
checks of lines 160-167: the partition name, the entry `*parti` as it is stored when
the line is reached, the counters and the clock. -/
structure IoStatLineVars where
  partiName : String
  parti : Partition
  r : DiskReading
  now : Int

/-- Lines 159-179 of `InitIoStat`: the checks that let a line through (`none` is a
`continue`), and the local variables of a line that passes. -/
def ioStatLineVars (m : GoMap Partition) (line : String) (now : Int) :
    Option IoStatLineVars :=
  match parseDiskstatsLine line with
  | none => none
  | some (partiName, r) =>
    match m.get? partiName with
    | none => none
    | some parti => some { partiName := partiName, parti := parti, r := r, now := now }

/-- The entry the line leaves in the map (it does not depend on the locals). -/
def IoStatLineVars.stored (x : IoStatLineVars) : Partition :=
  (ioStatEntry x.parti IoStatLocals.init x.partiName x.r x.now).1

/-- The `difftime` of line 184. -/
def IoStatLineVars.difftime (x : IoStatLineVars) : ℚ :=
  ((subInt64 x.now x.parti.Last : Int) : ℚ)

/-- The `diffio` of line 231. -/
def IoStatLineVars.diffio (x : IoStatLineVars) : ℚ :=
  ((subInt64 (addInt64 (subInt64 x.r.rio x.parti.Rio) x.r.wio) x.parti.Wio : Int) : ℚ)

/-- Whether the line takes the `else` of line 183: the partition has a baseline, the
reading is not a first one. -/
def IoStatLineVars.hasBaseline (x : IoStatLineVars) : Bool := decide (0 < x.parti.Last)

/-- Whether lines 186-212 run for the line: the rates are computed and added to the
sums. -/
def IoStatLineVars.ratesAdded (x : IoStatLineVars) : Bool :=
  x.hasBaseline && decide (0 < x.difftime)

/-- Whether lines 233-238 run for the line: the three per-request metrics are computed
and added to the sums. -/
def IoStatLineVars.compositeAdded (x : IoStatLineVars) : Bool :=
  x.hasBaseline && decide (0 < x.diffio)

/-- The local variables of the lines the loop of `InitIoStat` lets through, in the
order of the file: one entry for each partition reading of the pass. -/
def ioStatVars (clock : Nat → Int) :
    List String → Nat → GoMap Partition × IoStatLocals → List IoStatLineVars
  | [], _, _ => []
  | line :: rest, i, st =>
    (ioStatLineVars st.1 line (clock i)).toList
      ++ ioStatVars clock rest (i + 1) (ioStatLine st line (clock i))

/-- The partition readings of one `InitIoStat` pass. -/
def DiskIO.passVars (d : DiskIO) (content : String) (clock : Nat → Int) :
    List IoStatLineVars :=
  ioStatVars clock (readLines content) 0 (d.PartiMap, IoStatLocals.init)

/-- The scan of lines 208-212 and 225-229 of `InitIoStat` for one reading with a
baseline: the pair `(maxReqRate, maxReqRateParti)` is replaced when the `ReqRate` of
the reading is greater or equal. -/
def busiestStep (s : ℚ × String) (e : String × ℚ) : ℚ × String :=
  if e.2 ≥ s.1 then (e.2, e.1) else s

/-- The partition name and the `ReqRate` stored by each reading of the pass that has a
baseline, in read order: the readings lines 208-212 and 225-229 scan. -/
def DiskIO.passReqRates (d : DiskIO) (content : String) (clock : Nat → Int) :
    List (String × ℚ) :=
  ((d.passVars content clock).filter fun x => x.hasBaseline).map
    fun x => (x.partiName, x.stored.ReqRate)

/-- The method `GetKeyByIndex` of `iostat.go`; `none` stands for a returned error (that
of `Atoi` or `invalid index`). -/
def DiskIO.GetKeyByIndex (d : DiskIO) (args : String) : Option String :=
  match Atoi args with
  | none => none
  | some index =>
    if index < 0 then none
    else
      let length : Int := (d.PartiNames.length : Int)
      if index > length - 1 then none
      else some (d.PartiNames.getD index.toNat "")

/-- The method `DiskQueueSzAvgFunc` of `iostat.go`. -/
def DiskIO.DiskQueueSzAvgFunc (d : DiskIO) (args : String) : String :=
  match d.GetKeyByIndex args with
  | none => ""
  | some key =>
    match d.PartiMap.get? key with
    | none => ""
    | some parti => FloatToString parti.QueueSz

/-! ## `cpu.go`: processor time -/

/-- The struct `Cpu` of `cpu.go`.  Its long-window fields (`IdleRateSum10` to
`IdleRateDayLast`) are read and written by commented-out code only and are left out. -/
structure Cpu where
  User : Nat
  Nice : Nat
  System : Nat
  Idle : Nat
  Iowait : Nat
  Irq : Nat
  SoftIrq : Nat
  Total : Nat
  IoWaitRate : ℚ
  SystemRate : ℚ
  UserRate : ℚ
  IdleRate : ℚ
  ProcsBlocked : Nat
  ProcsRunning : Nat

/-- The seven counters `Collect` parses from the `cpu` line of `/proc/stat`. -/
structure CpuReading where
  user : Nat
  nice : Nat
  system : Nat
  idle : Nat
  iowait : Nat
  irq : Nat
  softIrq : Nat
  deriving DecidableEq

/-- Lines 86-93 of `Collect`: fields 1 to 7 of the line; `none` is the run-time panic
of an index out of range when the line has fewer than eight fields. -/
def parseCpuLine (line : String) : Option CpuReading :=
  let strList := Fields line
  if strList.length < 8 then none
  else
    some { user := ParseUint (strList.getD 1 ""), nice := ParseUint (strList.getD 2 ""),
           system := ParseUint (strList.getD 3 ""), idle := ParseUint (strList.getD 4 ""),
           iowait := ParseUint (strList.getD 5 ""), irq := ParseUint (strList.getD 6 ""),
           softIrq := ParseUint (strList.getD 7 "") }

/-- Line 94 of `Collect`: `total := user + nice + system + idle + iowait` on `uint64`. -/
def cpuTotal (r : CpuReading) : Nat :=
  addUint64 (addUint64 (addUint64 (addUint64 r.user r.nice) r.system) r.idle) r.iowait

/-- Lines 94-123 of `Collect`: the percentages from the reading `r` and the stored
state, then the reading becomes the stored state.  The second component lists the
variable denominators divided by. -/
def cpuSample (c : Cpu) (r : CpuReading) : Cpu × List ℚ :=
  let total := cpuTotal r
  let diffTotal : ℚ := ((subUint64 total c.Total : Nat) : ℚ)
  let c1 : Cpu × List ℚ :=
    if c.Total ≤ 0 then (c, [])
    else if diffTotal > 0 then
      ({ c with IoWaitRate := ((subUint64 r.iowait c.Iowait : Nat) : ℚ) / diffTotal * 100,
                SystemRate := ((subUint64 r.system c.System : Nat) : ℚ) / diffTotal * 100,
                UserRate := ((subUint64 r.user c.User : Nat) : ℚ) / diffTotal * 100,
                IdleRate := ((subUint64 r.idle c.Idle : Nat) : ℚ) / diffTotal * 100 },
       [diffTotal])
    else (c, [])
  ({ c1.1 with User := r.user, Nice := r.nice, System := r.system, Idle := r.idle,
               Iowait := r.iowait, Irq := r.irq, SoftIrq := r.softIrq, Total := total },
   c1.2)

/-- The state of the loop of `Collect`: the receiver, the local `readCpuTag`, and the
ghost list of the variable denominators divided by so far. -/
structure CpuLoop where
  cpu : Cpu
  readCpuTag : Bool
  divisors : List ℚ

/-- The loop body of `Collect` (lines 80-134) on one line; `none` is a panic. -/
def cpuStatLine (st : CpuLoop) (line : String) : Option CpuLoop :=
  if Contains line "cpu" then
    if st.readCpuTag then some st
    else
      match parseCpuLine line with
      | none => none
      | some r =>
        let s := cpuSample st.cpu r
        some { cpu := s.1, readCpuTag := true, divisors := st.divisors ++ s.2 }
  else if Contains line "procs_blocked" then
    let strList := Fields line
    if strList.length < 2 then none
    else some { st with cpu := { st.cpu with ProcsBlocked := ParseUint (strList.getD 1 "") } }
  else if Contains line "procs_running" then
    let strList := Fields line
    if strList.length < 2 then none
    else some { st with cpu := { st.cpu with ProcsRunning := ParseUint (strList.getD 1 "") } }
  else some st

/-- The loop of `Collect` over the lines. -/
def cpuStatLoop : List String → CpuLoop → Option CpuLoop
  | [], st => some st
  | line :: rest, st =>
    match cpuStatLine st line with
    | none => none
    | some st1 => cpuStatLoop rest st1

/-- The method `Collect` of `cpu.go` on the content of `/proc/stat`. -/
def Cpu.Collect (c : Cpu) (content : String) : Option Cpu :=
  (cpuStatLoop (readLines content) { cpu := c, readCpuTag := false, divisors := [] }).map
    CpuLoop.cpu

/-- Lines 94-123 of `Collect` with its `float64` arithmetic: every conversion of a
counter difference to `float64`, every quotient and every product is followed by the
rounding `roundFloat64` (`cpuSample` is the same code over exact rationals).  The second
component lists the variable denominators divided by. -/
def cpuSampleF64 (c : Cpu) (r : CpuReading) : Cpu × List ℚ :=
  let total := cpuTotal r
  let diffTotal : ℚ := roundFloat64 ((subUint64 total c.Total : Nat) : ℚ)
  let c1 : Cpu × List ℚ :=
    if c.Total ≤ 0 then (c, [])
    else if diffTotal > 0 then
      ({ c with
         IoWaitRate := roundFloat64 (roundFloat64
           (roundFloat64 ((subUint64 r.iowait c.Iowait : Nat) : ℚ) / diffTotal) * 100),
         SystemRate := roundFloat64 (roundFloat64
           (roundFloat64 ((subUint64 r.system c.System : Nat) : ℚ) / diffTotal) * 100),
         UserRate := roundFloat64 (roundFloat64
           (roundFloat64 ((subUint64 r.user c.User : Nat) : ℚ) / diffTotal) * 100),
         IdleRate := roundFloat64 (roundFloat64
           (roundFloat64 ((subUint64 r.idle c.Idle : Nat) : ℚ) / diffTotal) * 100) },
       [diffTotal])
    else (c, [])
  ({ c1.1 with User := r.user, Nice := r.nice, System := r.system, Idle := r.idle,
               Iowait := r.iowait, Irq := r.irq, SoftIrq := r.softIrq, Total := total },
   c1.2)

/-- The loop body of `Collect` (lines 80-134) on one line, with the `float64`
arithmetic of `cpuSampleF64`; `none` is a panic. -/
def cpuStatLineF64 (st : CpuLoop) (line : String) : Option CpuLoop :=
  if Contains line "cpu" then
    if st.readCpuTag then some st
    else
      match parseCpuLine line with
      | none => none
      | some r =>
        let s := cpuSampleF64 st.cpu r
        some { cpu := s.1, readCpuTag := true, divisors := st.divisors ++ s.2 }
  else if Contains line "procs_blocked" then
    let strList := Fields line
    if strList.length < 2 then none
    else some { st with cpu := { st.cpu with ProcsBlocked := ParseUint (strList.getD 1 "") } }
  else if Contains line "procs_running" then
    let strList := Fields line
    if strList.length < 2 then none
    else some { st with cpu := { st.cpu with ProcsRunning := ParseUint (strList.getD 1 "") } }
  else some st

/-- The loop of `Collect` over the lines, with `float64` arithmetic. -/
def cpuStatLoopF64 : List String → CpuLoop → Option CpuLoop
  | [], st => some st
  | line :: rest, st =>
    match cpuStatLineF64 st line with
    | none => none
    | some st1 => cpuStatLoopF64 rest st1

/-- The method `Collect` of `cpu.go` on the content of `/proc/stat`, with `float64`
arithmetic. -/
def Cpu.CollectF64 (c : Cpu) (content : String) : Option Cpu :=
  (cpuStatLoopF64 (readLines content) { cpu := c, readCpuTag := false, divisors := [] }).map
    CpuLoop.cpu

/-- The value of the expression `a + b + c + d` in `float64`: the three sums from the
left, each rounded. -/
def sumFloat64 (a b c d : ℚ) : ℚ :=
  roundFloat64 (roundFloat64 (roundFloat64 (a + b) + c) + d)

/-! ## `net.go`: network interfaces -/

/-- The struct `Ifi` of `net.go`. -/
structure Ifi where
  Name : String
  Ip : String
  Speed : ℚ
  OutRecvPkgErrRate : ℚ
  OutSendPkgErrRate : ℚ
  RecvByte : Nat
  RecvPkg : Nat
  RecvErr : Nat
  SendByte : Nat
  SendPkg : Nat
  SendErr : Nat
  RecvByteAvg : ℚ
  SendByteAvg : ℚ
  RecvErrRate : ℚ
  SendErrRate : ℚ
  RecvPkgAvg : ℚ
  SendPkgAvg : ℚ
  Last : Int

/-- Go `&Ifi{}`: every field has its zero value. -/
def Ifi.zero : Ifi :=
  { Name := "", Ip := "", Speed := 0, OutRecvPkgErrRate := 0, OutSendPkgErrRate := 0,
    RecvByte := 0, RecvPkg := 0, RecvErr := 0, SendByte := 0, SendPkg := 0, SendErr := 0,
    RecvByteAvg := 0, SendByteAvg := 0, RecvErrRate := 0, SendErrRate := 0, RecvPkgAvg := 0,
    SendPkgAvg := 0, Last := 0 }

/-- The method `IsInEth` of `net.go`. -/
def Ifi.IsInEth (this : Ifi) : Bool :=
  if this.Ip = "" then false
  else
    let fields := Split this.Ip '.'
    if fields.length ≠ 4 then false
    else
      let field1 := fields.getD 0 ""
      if Contains field1 "10" || Contains field1 "127" || Contains field1 "192" ||
          Contains field1 "172" then true
      else false

/-- The struct `NetWork` of `net.go`. -/
structure NetWork where
  IfiMap : GoMap Ifi
  IfiNames : List String
  RecvByteSum : ℚ
  SendByteSum : ℚ
  InRecvByteSum : ℚ
  InSendByteSum : ℚ
  InRecvPkgSum : ℚ
  InSendPkgSum : ℚ
  InRecvErrRateSum : ℚ
  InSendErrRateSum : ℚ
  OutRecvByteSum : ℚ
  OutSendByteSum : ℚ
  OutRecvPkgSum : ℚ
  OutSendPkgSum : ℚ
  OutRecvErrRateSum : ℚ
  OutSendErrRateSum : ℚ
  EthInMaxUseRate : ℚ
  EthOutMaxUseRate : ℚ
  RecvSendDetail : String
  ModelDetail : String

/-- The method `ResetIfiData` of `net.go`. -/
def NetWork.ResetIfiData (this : NetWork) : NetWork :=
  { this with RecvByteSum := 0, SendByteSum := 0, InRecvByteSum := 0, InSendByteSum := 0,
              InRecvPkgSum := 0, InSendPkgSum := 0, InRecvErrRateSum := 0,
              InSendErrRateSum := 0, OutRecvByteSum := 0, OutSendByteSum := 0,
              OutRecvPkgSum := 0, OutSendPkgSum := 0, OutRecvErrRateSum := 0,
              OutSendErrRateSum := 0, EthInMaxUseRate := 0, EthOutMaxUseRate := 0,
              RecvSendDetail := "", ModelDetail := "" }

/-- The six counters `InitNetWorkInfo` parses from one line of `/proc/net/dev`. -/
structure NetReading where
  recvByte : Nat
  recvPkg : Nat
  recvErr : Nat
  sendByte : Nat
  sendPkg : Nat
  sendErr : Nat
  deriving DecidableEq

/-- Lines 147-167 of `InitNetWorkInfo`: a line with a colon gives the trimmed interface
name before the first colon and, when what stands between the first and the second
colon has sixteen fields, the counters in fields 0, 1, 2, 8, 9, 10. -/
def parseNetDevLine (line : String) : Option (String × NetReading) :=
  if ¬ Contains line ":" then none
  else
    let fields := Split line ':'
    if fields.length < 2 then none
    else
      let ethname := Trim (fields.getD 0 "")
      let fields := Fields (fields.getD 1 "")
      if fields.length ≠ 16 then none
      else
        some (ethname,
          { recvByte := ParseUint (fields.getD 0 ""), recvPkg := ParseUint (fields.getD 1 ""),
            recvErr := ParseUint (fields.getD 2 ""), sendByte := ParseUint (fields.getD 8 ""),
            sendPkg := ParseUint (fields.getD 9 ""), sendErr := ParseUint (fields.getD 10 "") })

/-- What the system answers while one line of `/proc/net/dev` is handled: the clock,
the address strings of the interface (`net.InterfaceByName` then `Addrs`, `none` when
either fails) and the output of `/sbin/ethtool` (`none` when `Exec` fails). -/
structure NetProbe where
  now : Int
  addrs : Option (List String)
  ethtool : Option String

/-- Lines 182-190 of `InitNetWorkInfo`: `moniTag`, false when an address contains
`0.0.0.0` or `127.0.0.1`. -/
def moniTag (addrs : List String) : Bool :=
  ! addrs.any (fun cidr => Contains cidr "0.0.0.0" || Contains cidr "127.0.0.1")

/-- The six local rates of `InitNetWorkInfo` (lines 201-208), and the ghost list of the
variable denominators divided by to get them. -/
structure IfiRates where
  recvByteAvg : ℚ
  recvPkgAvg : ℚ
  recvErrRate : ℚ
  sendByteAvg : ℚ
  sendPkgAvg : ℚ
  sendErrRate : ℚ
  divisors : List ℚ

/-- Lines 201-226 of `InitNetWorkInfo`: the rates of an interface from the stored
counters and the reading `r` taken at `now`. -/
def ifiRates (ifi : Ifi) (r : NetReading) (now : Int) : IfiRates :=
  let difftime : ℚ := ((subInt64 now ifi.Last : Int) : ℚ)
  if ifi.Last = 0 then
    { recvByteAvg := 0, recvPkgAvg := 0, recvErrRate := 0, sendByteAvg := 0, sendPkgAvg := 0,
      sendErrRate := 0, divisors := [] }
  else if difftime > 0 then
    let recvDiv : Bool := decide (subUint64 r.recvPkg ifi.RecvPkg > 0)
    let sendDiv : Bool := decide (subUint64 r.sendPkg ifi.SendPkg > 0)
    { recvByteAvg := ((subUint64 r.recvByte ifi.RecvByte : Nat) : ℚ) / difftime,
      recvPkgAvg := ((subUint64 r.recvPkg ifi.RecvPkg : Nat) : ℚ) / difftime,
      recvErrRate :=
        if recvDiv then
          ((subUint64 r.recvErr ifi.RecvErr : Nat) : ℚ)
            / ((subUint64 r.recvPkg ifi.RecvPkg : Nat) : ℚ)
        else 0,
      sendByteAvg := ((subUint64 r.sendByte ifi.SendByte : Nat) : ℚ) / difftime,
      sendPkgAvg := ((subUint64 r.sendPkg ifi.SendPkg : Nat) : ℚ) / difftime,
      sendErrRate :=
        if sendDiv then
          ((subUint64 r.sendErr ifi.SendErr : Nat) : ℚ)
            / ((subUint64 r.sendPkg ifi.SendPkg : Nat) : ℚ)
        else 0,
      divisors :=
        [difftime] ++ (if recvDiv then [((subUint64 r.recvPkg ifi.RecvPkg : Nat) : ℚ)] else [])
          ++ (if sendDiv then [((subUint64 r.sendPkg ifi.SendPkg : Nat) : ℚ)] else []) }
  else
    { recvByteAvg := 0, recvPkgAvg := 0, recvErrRate := 0, sendByteAvg := 0, sendPkgAvg := 0,
      sendErrRate := 0, divisors := [] }

/-- Lines 228-242 of `InitNetWorkInfo`: the reading and the rates are stored. -/
def ifiStore (ifi : Ifi) (ethname ip : String) (r : NetReading) (v : IfiRates) (now : Int) :
    Ifi :=
  { ifi with Name := ethname, Ip := ip, RecvByte := r.recvByte, RecvPkg := r.recvPkg,
             RecvErr := r.recvErr, SendByte := r.sendByte, SendPkg := r.sendPkg,
             SendErr := r.sendErr, RecvByteAvg := v.recvByteAvg, SendByteAvg := v.sendByteAvg,
             RecvErrRate := v.recvErrRate, SendErrRate := v.sendErrRate,
             RecvPkgAvg := v.recvPkgAvg, SendPkgAvg := v.sendPkgAvg, Last := now }

/-- Lines 244-265 of `InitNetWorkInfo`: the sums of the pass, by class and overall,
and the detail string. -/
def netSums (this : NetWork) (ifi : Ifi) (v : IfiRates) : NetWork :=
  let n1 : NetWork :=
    if ifi.IsInEth then
      { this with InRecvByteSum := this.InRecvByteSum + v.recvByteAvg,
                  InSendByteSum := this.InSendByteSum + v.sendByteAvg,
                  InRecvPkgSum := this.InRecvPkgSum + v.recvPkgAvg,
                  InSendPkgSum := this.InSendPkgSum + v.sendPkgAvg,
                  InRecvErrRateSum := this.InRecvErrRateSum + v.recvErrRate,
                  InSendErrRateSum := this.InSendErrRateSum + v.sendErrRate }
    else
      { this with OutRecvByteSum := this.OutRecvByteSum + v.recvByteAvg,
                  OutSendByteSum := this.OutSendByteSum + v.sendByteAvg,
                  OutRecvPkgSum := this.OutRecvPkgSum + v.recvPkgAvg,
                  OutSendPkgSum := this.OutSendPkgSum + v.sendPkgAvg,
                  OutRecvErrRateSum := this.OutRecvErrRateSum + v.recvErrRate,
                  InSendErrRateSum := this.InSendErrRateSum + v.sendErrRate }
  { n1 with RecvByteSum := n1.RecvByteSum + v.recvByteAvg,
            SendByteSum := n1.SendByteSum + v.sendByteAvg,
            RecvSendDetail := n1.RecvSendDetail ++ ifi.Ip ++ "=" ++ ifi.Name ++ "=("
              ++ FormatFloat v.recvByteAvg 0 ++ "|" ++ FormatFloat v.sendByteAvg 0 ++ ")$" }

/-- Lines 272-299 of `InitNetWorkInfo`: the link speed the loop over the lines of the
`ethtool` output assigns, from the first line that contains `Speed`, splits into two
pieces at colons and whose second piece, trimmed and without `Mb/s`, parses as a
float; `none` when the loop ends without an assignment. -/
def ethtoolSpeed (parseFloat : String → Option ℚ) : List String → Option ℚ
  | [] => none
  | line :: rest =>
    if Contains line "Speed" then
      let fields := Split line ':'
      if fields.length ≠ 2 then ethtoolSpeed parseFloat rest
      else
        match parseFloat (Replace (Trim (fields.getD 1 "")) "Mb/s" "") with
        | none => ethtoolSpeed parseFloat rest
        | some speed => some speed
    else ethtoolSpeed parseFloat rest

/-- Line 288 of `InitNetWorkInfo`: the inbound use of a link, in percent. -/
def inEthUseRate (recvByteAvg speed : ℚ) : ℚ := recvByteAvg * 8 * 100 / (speed * 1024 * 1024)

/-- Line 292 of `InitNetWorkInfo`: the outbound use of a link, in percent. -/
def outEthUseRate (sendByteAvg speed : ℚ) : ℚ := sendByteAvg * 8 * 100 / (speed * 1024 * 1024)

/-- The state of the loop of `InitNetWorkInfo`: the receiver and the ghost list of the
variable denominators divided by so far. -/
structure NetLoop where
  net : NetWork
  divisors : List ℚ

/-- The local variables of the loop body of `InitNetWorkInfo` once a line has passed
the checks of lines 147-193: the interface name, the counters, the addresses, the
entry `*ifi` the rates are computed from (the stored one, or the zero entry of line
196 for a new name), the rates, the clock, and the answer of `ethtool`. -/
structure NetLineVars where
  ethname : String
  r : NetReading
  addrs : List String
  ifi0 : Ifi
  v : IfiRates
  now : Int
  ethtool : Option String

/-- Lines 147-226 of `InitNetWorkInfo`: the checks that let a line through (`none` is
a `continue`), and the local variables of a line that passes. -/
def netLineVars (this : NetWork) (line : String) (w : NetProbe) : Option NetLineVars :=
  match parseNetDevLine line with
  | none => none
  | some (ethname, r) =>
    match w.addrs with
    | none => none
    | some addrs =>
      if addrs.length = 0 then none
      else if moniTag addrs = false then none
      else
        let ifi0 : Ifi := (this.IfiMap.get? ethname).getD Ifi.zero
        some { ethname := ethname, r := r, addrs := addrs, ifi0 := ifi0,
               v := ifiRates ifi0 r w.now, now := w.now, ethtool := w.ethtool }

/-- The link speed line 286 assigns while the line is handled, if any. -/
def NetLineVars.speed (x : NetLineVars) (parseFloat : String → Option ℚ) : Option ℚ :=
  match x.ethtool with
  | none => none
  | some output => ethtoolSpeed parseFloat (Split output '\n')

/-- The inbound link use line 288 computes while the line is handled, if any: it is
computed when a speed is assigned and positive. -/
def NetLineVars.inUse (x : NetLineVars) (parseFloat : String → Option ℚ) : Option ℚ :=
  match x.speed parseFloat with
  | none => none
  | some speed => if speed > 0 then some (inEthUseRate x.v.recvByteAvg speed) else none

/-- The outbound link use line 292 computes while the line is handled, if any. -/
def NetLineVars.outUse (x : NetLineVars) (parseFloat : String → Option ℚ) : Option ℚ :=
  match x.speed parseFloat with
  | none => none
  | some speed => if speed > 0 then some (outEthUseRate x.v.sendByteAvg speed) else none

/-- The class line 244 of `InitNetWorkInfo` finds for the interface of the line:
`IsInEth` of the entry as it has just been stored. -/
def NetLineVars.isInEth (x : NetLineVars) : Bool :=
  (ifiStore x.ifi0 x.ethname (x.addrs.getD 0 "") x.r x.v x.now).IsInEth

/-- Lines 267-300 of `InitNetWorkInfo`: the speed of the interface `ethname` and the
largest link use, from the output of `ethtool`. -/
def netSpeed (parseFloat : String → Option ℚ) (st : NetLoop) (ethname : String) (ifi : Ifi)
    (v : IfiRates) (output : String) : NetLoop :=
  let s1 : NetLoop × Ifi :=
    match ethtoolSpeed parseFloat (Split output '\n') with
    | none => (st, ifi)
    | some speed =>
      let ifi1 : Ifi := { ifi with Speed := speed }
      if speed > 0 then
        let inUse := inEthUseRate v.recvByteAvg speed
        let outUse := outEthUseRate v.sendByteAvg speed
        ({ net :=
             { st.net with
               EthInMaxUseRate :=
                 if inUse > st.net.EthInMaxUseRate then inUse else st.net.EthInMaxUseRate,
               EthOutMaxUseRate :=
                 if outUse > st.net.EthOutMaxUseRate then outUse else st.net.EthOutMaxUseRate },
           divisors := st.divisors ++ [speed * 1024 * 1024, speed * 1024 * 1024] }, ifi1)
      else (st, ifi1)
  { s1.1 with
    net :=
      { s1.1.net with
        IfiMap := s1.1.net.IfiMap.set ethname s1.2,
        ModelDetail := s1.1.net.ModelDetail ++ s1.2.Name ++ "|" ++ s1.2.Ip ++ "|"
          ++ FloatToString s1.2.Speed ++ "$" } }

/-- Lines 194-300 of `InitNetWorkInfo` for a line that has passed the checks: the
entry is created when new, the reading and the rates are stored, the sums are
updated, and `ethtool` is asked for the speed. -/
def netLineApply (parseFloat : String → Option ℚ) (st : NetLoop) (x : NetLineVars) : NetLoop :=
  let this0 : NetWork :=
    match st.net.IfiMap.get? x.ethname with
    | some _ => st.net
    | none =>
      { st.net with IfiMap := st.net.IfiMap.set x.ethname Ifi.zero,
                    IfiNames := st.net.IfiNames ++ [x.ethname] }
  let ifi := ifiStore x.ifi0 x.ethname (x.addrs.getD 0 "") x.r x.v x.now
  let this1 : NetWork := netSums { this0 with IfiMap := this0.IfiMap.set x.ethname ifi } ifi x.v
  let st1 : NetLoop := { net := this1, divisors := st.divisors ++ x.v.divisors }
  match x.ethtool with
  | none => st1
  | some output => netSpeed parseFloat st1 x.ethname ifi x.v output

/-- The loop body of `InitNetWorkInfo` (lines 147-300) on one line, with the answers
`w` of the system. -/
def netDevLine (parseFloat : String → Option ℚ) (st : NetLoop) (line : String)
    (w : NetProbe) : NetLoop :=
  match netLineVars st.net line w with
  | none => st
  | some x => netLineApply parseFloat st x

/-- The loop of `InitNetWorkInfo` over the lines, the first of which has index `i`;
`probe k` holds the answers of the system while the line of index `k` is handled. -/
def netDevLoop (parseFloat : String → Option ℚ) (probe : Nat → NetProbe) :
    List String → Nat → NetLoop → NetLoop
  | [], _, st => st
  | line :: rest, i, st =>
    netDevLoop parseFloat probe rest (i + 1) (netDevLine parseFloat st line (probe i))

/-- The local variables of the lines the loop of `InitNetWorkInfo` lets through, in
the order of the file: one entry for each interface reading of the pass. -/
def netDevVars (parseFloat : String → Option ℚ) (probe : Nat → NetProbe) :
    List String → Nat → NetLoop → List NetLineVars
  | [], _, _ => []
  | line :: rest, i, st =>
    (netLineVars st.net line (probe i)).toList
      ++ netDevVars parseFloat probe rest (i + 1) (netDevLine parseFloat st line (probe i))

/-- The method `InitNetWorkInfo` on the content of `/proc/net/dev`; `parseFloat` is
`strconv.ParseFloat(s, 64)`, `none` on an error. -/
def NetWork.InitNetWorkInfo (this : NetWork) (parseFloat : String → Option ℚ)
    (content : String) (probe : Nat → NetProbe) : NetWork :=
  (netDevLoop parseFloat probe (readLines content) 0 { net := this, divisors := [] }).net

/-- The method `Collect` of `net.go` when `/proc/net/dev` can be read. -/
def NetWork.Collect (this : NetWork) (parseFloat : String → Option ℚ) (content : String)
    (probe : Nat → NetProbe) : NetWork :=
  this.ResetIfiData.InitNetWorkInfo parseFloat content probe

/-- The interface readings of one `Collect` pass: the local variables of the lines
let through, the sums having been reset. -/
def NetWork.passVars (this : NetWork) (parseFloat : String → Option ℚ) (content : String)
    (probe : Nat → NetProbe) : List NetLineVars :=
  netDevVars parseFloat probe (readLines content) 0 { net := this.ResetIfiData, divisors := [] }

/-! ## `disk.go`: mounted file systems -/

/-- The struct `FileSystem` of `disk.go`. -/
structure FileSystem where
  FsName : String
  Total : Nat
  Used : Nat
  Free : Nat
  UsedRate : ℚ
  Mount : String

/-- The struct `Disk` of `disk.go`. -/
structure Disk where
  UsedRateSet : List String
  FsMap : GoMap FileSystem
  Total : Nat
  Used : Nat
  Free : Nat
  UsedRate : ℚ
  MaxUseRate : ℚ
  MaxUseRateFs : String

/-- The state of the loop of `Disk.Collect`: the receiver and the locals `maxUseRate`
and `maxUseRateFs`. -/
structure DiskLoop where
  disk : Disk
  maxUseRate : ℚ
  maxUseRateFs : String

/-- The loop body of `Disk.Collect` (lines 81-111) on one row of the `df` output after
the first; `parseFloat` is `strconv.ParseFloat(s, 64)`, whose value on a syntax error
is 0. -/
def dfLine (parseFloat : String → Option ℚ) (st : DiskLoop) (line : String) : DiskLoop :=
  let fileds := Fields line
  if fileds.length ≠ 6 then st
  else
    let fsName := fileds.getD 0 ""
    let total := ParseUint (fileds.getD 1 "")
    let used := ParseUint (fileds.getD 2 "")
    let free := ParseUint (fileds.getD 3 "")
    let strUsedRate := Replace (fileds.getD 4 "") "%" ""
    let usedRate : ℚ := (parseFloat strUsedRate).getD 0
    let mount := fileds.getD 5 ""
    let fs : FileSystem :=
      { FsName := fsName, Total := total, Used := used, Free := free, UsedRate := usedRate,
        Mount := mount }
    let this : Disk :=
      { st.disk with FsMap := st.disk.FsMap.set mount fs,
                     Total := addUint64 st.disk.Total total,
                     Used := addUint64 st.disk.Used used,
                     Free := addUint64 st.disk.Free free,
                     UsedRateSet := st.disk.UsedRateSet
                       ++ [fsName ++ "=" ++ mount ++ "=" ++ strUsedRate] }
    if fs.FsName ≠ "devfs" ∧ fs.UsedRate > st.maxUseRate then
      { disk := this, maxUseRate := fs.UsedRate, maxUseRateFs := fs.Mount }
    else { st with disk := this }

/-- The method `Collect` of `disk.go` when `df -lP` runs, on its output: `FsMap` and
`UsedRateSet` are emptied (lines 72-73), the rows after the first are handled, then the
overall use and the largest use are stored (lines 114-120). -/
def Disk.Collect (this : Disk) (parseFloat : String → Option ℚ) (output : String) : Disk :=
  let lines := Split output '\n'
  let st := (lines.drop 1).foldl (dfLine parseFloat)
    { disk := { this with FsMap := [], UsedRateSet := [] }, maxUseRate := 0,
      maxUseRateFs := "" }
  let this1 := st.disk
  let this2 : Disk :=
    if addUint64 this1.Used this1.Free > 0 then
      { this1 with
        UsedRate := ((this1.Used : Nat) : ℚ) / ((addUint64 this1.Used this1.Free : Nat) : ℚ)
          * 100 }
    else this1
  { this2 with MaxUseRate := st.maxUseRate, MaxUseRateFs := st.maxUseRateFs }

/-- The rows of a `df` output that `Disk.Collect` adds up: the lines of six fields after
the first line. -/
def dfRows (output : String) : List String :=
  ((Split output '\n').drop 1).filter fun line => (Fields line).length = 6

/-! ## Concrete inputs of the examples -/

/-- A `DiskIO` with no partition yet. -/
def diskEmpty : DiskIO :=
  { PartiMap := [], PartiNames := [], QueueSzAvg := 0, ReqSzAvg := 0, ServeAvg := 0,
    AwaitAvg := 0, RkbAvg := 0, WkbAvg := 0, RmergeAvg := 0, WmergeAvg := 0, RioAvg := 0,
    WioAvg := 0, RsectAvg := 0, WsectAvg := 0, ReqRateAvg := 0, MaxReqRate := 0,
    MaxReqRateParti := "" }

/-- A `/proc/partitions` with the disk `sda` and its partition `sda1`. -/
def partitionsSda : String :=
  "major minor  #blocks  name\n\n   8        0  488386584 sda\n   8        1     524288 sda1\n"

/-- The line of `/proc/diskstats` for `sda1` with 1000 reads, 20000 sectors read and
500 ms of I/O time. -/
def sda1LineA : String := "   8       1 sda1 1000 0 20000 0 0 0 0 0 0 500 0\n"

/-- The line of `/proc/diskstats` for `sda1` with 1100 reads, 22000 sectors read and
600 ms of I/O time. -/
def sda1LineB : String := "   8       1 sda1 1100 0 22000 0 0 0 0 0 0 600 0\n"

/-- The counters of `sda1LineA`. -/
def sda1ReadingA : DiskReading :=
  { rio := 1000, rmerge := 0, rsect := 20000, relapsed := 0, wio := 0, wmerge := 0,
    wsect := 0, welapsed := 0, elapsed := 500, aveq := 0 }

/-- The counters of `sda1LineB`. -/
def sda1ReadingB : DiskReading :=
  { rio := 1100, rmerge := 0, rsect := 22000, relapsed := 0, wio := 0, wmerge := 0,
    wsect := 0, welapsed := 0, elapsed := 600, aveq := 0 }

/-- The partition `sda1` with the baseline `sda1ReadingA` taken at clock `last`. -/
def sda1At (last : Int) : Partition :=
  { Partition.new "sda1" with Rio := 1000, Rsect := 20000, Elapsed := 500, Last := last }

/-- A `Cpu` before its first collection. -/
def cpuZero : Cpu :=
  { User := 0, Nice := 0, System := 0, Idle := 0, Iowait := 0, Irq := 0, SoftIrq := 0,
    Total := 0, IoWaitRate := 0, SystemRate := 0, UserRate := 0, IdleRate := 0,
    ProcsBlocked := 0, ProcsRunning := 0 }

/-- A `NetWork` with no interface yet. -/
def netEmpty : NetWork :=
  { IfiMap := [], IfiNames := [], RecvByteSum := 0, SendByteSum := 0, InRecvByteSum := 0,
    InSendByteSum := 0, InRecvPkgSum := 0, InSendPkgSum := 0, InRecvErrRateSum := 0,
    InSendErrRateSum := 0, OutRecvByteSum := 0, OutSendByteSum := 0, OutRecvPkgSum := 0,
    OutSendPkgSum := 0, OutRecvErrRateSum := 0, OutSendErrRateSum := 0, EthInMaxUseRate := 0,
    EthOutMaxUseRate := 0, RecvSendDetail := "", ModelDetail := "" }

/-- The value of `strconv.ParseFloat` on a string of decimal digits, and an error on
every other string: enough for the speeds of the examples. -/
def parseFloatDigits (s : String) : Option ℚ :=
  if s.toList ≠ [] ∧ s.toList.all Char.isDigit = true then some ((ParseUint s : Nat) : ℚ)
  else none

/-- The answers of the system for an interface with address `192.168.1.5/24` and a
link of 1000 Mb/s, at clock `now`. -/
def probeGigabit (now : Int) : NetProbe :=
  { now := now, addrs := some ["192.168.1.5/24"],
    ethtool := some "Settings for eth0:\n\tSpeed: 1000Mb/s\n\tDuplex: Full\n" }

/-- The line of `/proc/net/dev` for `eth0` with all counters at 0. -/
def eth0LineZero : String := "  eth0: 0 0 0 0 0 0 0 0 0 0 0 0 0 0 0 0\n"

/-- The line of `/proc/net/dev` for `eth0` with 125000 bytes and 100 packets received. -/
def eth0LineB : String := "  eth0: 125000 100 0 0 0 0 0 0 0 0 0 0 0 0 0 0\n"

/-- The interface `eth0` with all counters at 0 and a baseline taken at clock `last`. -/
def eth0At (last : Int) : Ifi :=
  { Ifi.zero with Name := "eth0", Ip := "192.168.1.5/24", Last := last }

/-- The loop state whose only interface is `eth0At last`. -/
def eth0Loop (last : Int) : NetLoop :=
  { net := { netEmpty with IfiMap := [("eth0", eth0At last)], IfiNames := ["eth0"] },
    divisors := [] }

/-- The line of `/proc/net/dev` for `eth0` with 100 packets and 1 error received, 200
packets and 4 errors sent. -/
def eth0LineErr : String := "  eth0: 5000 100 1 0 0 0 0 0 9000 200 4 0 0 0 0 0\n"

/-- A `/proc/diskstats` with a line for `sda` and the line `sda1LineB`. -/
def diskstatsSdaB : String :=
  "   8       0 sda 5000 0 90000 0 0 0 0 0 0 900 0\n   8       1 sda1 1100 0 22000 0 0 0 0 0 0 600 0\n"

/-- A `/proc/diskstats` with a line for `sda` and the line `sda1LineA`. -/
def diskstatsSdaA : String :=
  "   8       0 sda 5000 0 90000 0 0 0 0 0 0 900 0\n   8       1 sda1 1000 0 20000 0 0 0 0 0 0 500 0\n"

/-- The answers of the system for an interface with the public address `8.8.4.4/24` and
a link of 1000 Mb/s, at clock `now`. -/
def probePublic (now : Int) : NetProbe :=
  { now := now, addrs := some ["8.8.4.4/24"],
    ethtool := some "Settings for eth0:\n\tSpeed: 1000Mb/s\n\tDuplex: Full\n" }

/-- A `/proc/partitions` in which `sda` is shown on two lines and `sda1` on one. -/
def partitionsSdaTwice : String :=
  "major minor  #blocks  name\n\n   8 0 488386584 sda\n   8 1 524288 sda1\n   8 0 488386584 sda\n"

/-- A `/proc/net/dev` with `eth0` and `eth1`, all counters at 0. -/
def netDevTwoZero : String :=
  "  eth0: 0 0 0 0 0 0 0 0 0 0 0 0 0 0 0 0\n  eth1: 0 0 0 0 0 0 0 0 0 0 0 0 0 0 0 0\n"

/-- A `/proc/net/dev` with `eth0` (125000 bytes received) and `eth1` (5000 bytes
received, 9000 bytes sent). -/
def netDevTwoB : String :=
  "  eth0: 125000 100 0 0 0 0 0 0 0 0 0 0 0 0 0 0\n  eth1: 5000 100 1 0 0 0 0 0 9000 200 4 0 0 0 0 0\n"

/-- The answers of the system at clock `now` for a file whose first line is an interface
with the address `192.168.1.5/24` and whose other lines have the address `8.8.4.4/24`. -/
def probeTwo (now : Int) (k : Nat) : NetProbe :=
  if k = 0 then probeGigabit now else probePublic now

/-- A `Disk` before its first collection. -/
def diskZero : Disk :=
  { UsedRateSet := [], FsMap := [], Total := 0, Used := 0, Free := 0, UsedRate := 0,
    MaxUseRate := 0, MaxUseRateFs := "" }

/-- An output of `df -lP` with the root file system (1000 blocks, 400 used, 600 free)
and `/home` (500 blocks, 100 used, 400 free). -/
def dfRootHome : String :=
  "Filesystem 1024-blocks Used Available Capacity Mounted on\n/dev/sda1 1000 400 600 40% /\n/dev/sda2 500 100 400 20% /home\n"

/-! ## Machine integers and maps: basic facts -/

theorem subInt64_of_nonneg {a b : Int} (ha : 0 ≤ a) (ha2 : a < 2 ^ 63) (hb : 0 ≤ b)
    (hb2 : b < 2 ^ 63) : subInt64 a b = a - b := by
  unfold subInt64 wrapInt64
  omega

theorem subInt64_time {now last : Int} (h0 : 0 < last) (h1 : last < now) (h2 : now < 2 ^ 63) :
    subInt64 now last = now - last := by
  unfold subInt64 wrapInt64
  omega

theorem GoMap.get?_set_self {β : Type} (m : GoMap β) (k : String) (v : β) :
    (m.set k v).get? k = some v := by
  induction m with
  | nil => simp [GoMap.set, GoMap.get?]
  | cons hd tl ih =>
    obtain ⟨k1, v1⟩ := hd
    by_cases h : k1 = k
    · simp [GoMap.set, GoMap.get?, h]
    · simp [GoMap.set, GoMap.get?, h, ih]

theorem GoMap.get?_set_of_ne {β : Type} (m : GoMap β) (k k0 : String) (v : β) (hne : k ≠ k0) :
    (m.set k v).get? k0 = m.get? k0 := by
  induction m with
  | nil => simp [GoMap.set, GoMap.get?, hne]
  | cons hd tl ih =>
    obtain ⟨k1, v1⟩ := hd
    by_cases h : k1 = k
    · subst h; simp [GoMap.set, GoMap.get?, hne]
    · by_cases h0 : k1 = k0
      · subst h0; simp [GoMap.set, GoMap.get?, h]
      · simp [GoMap.set, GoMap.get?, h, h0, ih]

/-! ## Disk partitions -/

/-- A line that reads a registered partition replaces its entry by what
`ioStatEntry` computes. -/
theorem ioStatLine_get? (m : GoMap Partition) (acc : IoStatLocals) (line : String) (now : Int)
    (name : String) (r : DiskReading) (p : Partition)
    (hline : parseDiskstatsLine line = some (name, r)) (hp : m.get? name = some p) :
    (ioStatLine (m, acc) line now).1.get? name = some (ioStatEntry p acc name r now).1 := by
  simp [ioStatLine, hline, hp, GoMap.get?_set_self]

/-- A line that does not read `name` leaves the entry of `name` as it is. -/
theorem ioStatLine_get?_of_ne (st : GoMap Partition × IoStatLocals) (line : String) (now : Int)
    (name : String) (hline : ∀ r, parseDiskstatsLine line ≠ some (name, r)) :
    (ioStatLine st line now).1.get? name = st.1.get? name := by
  unfold ioStatLine
  cases hP : parseDiskstatsLine line with
  | none => rfl
  | some nr =>
    obtain ⟨n, r⟩ := nr
    have hne : n ≠ name := by
      intro h
      subst h
      exact hline r hP
    cases hG : st.1.get? n with
    | none => simp only [hG]
    | some parti =>
      simp only [hG]
      exact GoMap.get?_set_of_ne st.1 n name _ hne

/-- Lines that do not read `name` leave the entry of `name` as it is. -/
theorem ioStatLoop_get?_frame (clock : Nat → Int) (lines : List String) (i : Nat)
    (st : GoMap Partition × IoStatLocals) (name : String)
    (hlines : ∀ l ∈ lines, ∀ r, parseDiskstatsLine l ≠ some (name, r)) :
    (ioStatLoop clock lines i st).1.get? name = st.1.get? name := by
  induction lines generalizing i st with
  | nil => rfl
  | cons line rest ih =>
    simp only [ioStatLoop]
    rw [ih (i + 1) _ (fun l hl => hlines l (List.mem_cons_of_mem _ hl))]
    exact ioStatLine_get?_of_ne st line (clock i) name (hlines line (List.mem_cons_self _ _))

theorem ioStatLoop_append (clock : Nat → Int) (pre post : List String) (i : Nat)
    (st : GoMap Partition × IoStatLocals) :
    ioStatLoop clock (pre ++ post) i st
      = ioStatLoop clock post (i + pre.length) (ioStatLoop clock pre i st) := by
  induction pre generalizing i st with
  | nil => simp [ioStatLoop]
  | cons line rest ih =>
    show ioStatLoop clock (rest ++ post) (i + 1) (ioStatLine st line (clock i)) = _
    rw [ih]
    simp only [ioStatLoop, List.length_cons]
    congr 1
    omega

theorem InitIoStat_PartiMap (d : DiskIO) (content : String) (clock : Nat → Int) :
    (d.InitIoStat content clock).PartiMap
      = (ioStatLoop clock (readLines content) 0 (d.PartiMap, IoStatLocals.init)).1 := by
  unfold DiskIO.InitIoStat
  simp only
  split_ifs <;> rfl

/-- After `InitIoStat`, the entry of a partition is what the last line that reads it
has stored. -/
theorem InitIoStat_get?_last (d : DiskIO) (content : String) (clock : Nat → Int)
    (pre post : List String) (line name : String)
    (hsplit : readLines content = pre ++ line :: post)
    (hpost : ∀ l ∈ post, ∀ r1, parseDiskstatsLine l ≠ some (name, r1)) :
    (d.InitIoStat content clock).PartiMap.get? name
      = (ioStatLine (ioStatLoop clock pre 0 (d.PartiMap, IoStatLocals.init)) line
          (clock pre.length)).1.get? name := by
  rw [InitIoStat_PartiMap, hsplit, ioStatLoop_append]
  simp only [ioStatLoop, Nat.zero_add]
  exact ioStatLoop_get?_frame clock post _ _ name hpost

/-- C1. For a partition of the history with stored `Last > 0` and a line of
`/proc/diskstats` that reads it at `now > Last`, the loop body of `InitIoStat` sets the
six per-second rates to the `int64` difference of the current and the stored counter
divided by `now - Last`, the two kilobyte rates to half the sector rates, `QueueSz` to
the `aveq` difference over `now - Last` over 1000, and `ReqRate` to the I/O time
difference times 100 over `(now - Last) * 1000`. -/
theorem disk_rates_per_second (m : GoMap Partition) (acc : IoStatLocals) (line : String)
    (now : Int) (name : String) (r : DiskReading) (p : Partition)
    (hline : parseDiskstatsLine line = some (name, r)) (hp : m.get? name = some p)
    (hLast : 0 < p.Last) (hnow : p.Last < now) (hrange : now < 2 ^ 63) :
    ∃ q, (ioStatLine (m, acc) line now).1.get? name = some q ∧
      q.RioPerSecond = (subInt64 r.rio p.Rio : ℚ) / ((now : ℚ) - (p.Last : ℚ)) ∧
      q.WioPerSecond = (subInt64 r.wio p.Wio : ℚ) / ((now : ℚ) - (p.Last : ℚ)) ∧
      q.RmergePerSecond = (subInt64 r.rmerge p.Rmerge : ℚ) / ((now : ℚ) - (p.Last : ℚ)) ∧
      q.WmergePerSecond = (subInt64 r.wmerge p.Wmerge : ℚ) / ((now : ℚ) - (p.Last : ℚ)) ∧
      q.RsectPerSecond = (subInt64 r.rsect p.Rsect : ℚ) / ((now : ℚ) - (p.Last : ℚ)) ∧
      q.WsectPerSecond = (subInt64 r.wsect p.Wsect : ℚ) / ((now : ℚ) - (p.Last : ℚ)) ∧
      q.RkbPerSecond = q.RsectPerSecond / 2 ∧
      q.WkbPerSecond = q.WsectPerSecond / 2 ∧
      q.QueueSz = (subInt64 r.aveq p.Aveq : ℚ) / ((now : ℚ) - (p.Last : ℚ)) / 1000 ∧
      q.ReqRate =
        (subInt64 r.elapsed p.Elapsed : ℚ) * 100 / (((now : ℚ) - (p.Last : ℚ)) * 1000) := by
  refine ⟨_, ioStatLine_get? m acc line now name r p hline hp, ?_⟩
  have hd : ((subInt64 now p.Last : Int) : ℚ) = (now : ℚ) - (p.Last : ℚ) := by
    rw [subInt64_time hLast hnow hrange]; push_cast; ring
  have hpos : (0 : ℚ) < (now : ℚ) - (p.Last : ℚ) := by
    have : (p.Last : ℚ) < (now : ℚ) := by exact_mod_cast hnow
    linarith
  have hL : ¬ p.Last ≤ 0 := by omega
  simp only [ioStatEntry, hL, if_false, ioStatRates, ioStatComposite, ioStatStore, hd, hpos,
    gt_iff_lt, if_true]
  split_ifs <;> simp [div_div]

/-- C1, at `sda1` going from (1000 reads, 20000 sectors, 500 ms) at clock 100 to
(1100, 22000, 600) at clock 110: 10 reads per second, 100 kB per second, 1 percent. -/
theorem disk_rates_per_second_witness :
    parseDiskstatsLine sda1LineB = some ("sda1", sda1ReadingB) ∧
    GoMap.get? [("sda1", sda1At 100)] "sda1" = some (sda1At 100) ∧
    (∃ q, (ioStatLine ([("sda1", sda1At 100)], IoStatLocals.init) sda1LineB 110).1.get? "sda1"
        = some q ∧
      q.RioPerSecond = 10 ∧ q.RkbPerSecond = 100 ∧ q.ReqRate = 1) ∧
    (((diskEmpty.Collect partitionsSda sda1LineA fun _ => 100).Collect partitionsSda sda1LineB
        fun _ => 110).PartiMap.get? "sda1").map
      (fun q => (q.RioPerSecond, q.RkbPerSecond, q.ReqRate)) = some (10, 100, 1) := by
  refine ⟨by decide, rfl, ?_, by decide!⟩
  obtain ⟨q, hq, hrio, -, -, -, hrsect, -, hrkb, -, -, hreq⟩ :=
    disk_rates_per_second [("sda1", sda1At 100)] IoStatLocals.init sda1LineB 110 "sda1"
      sda1ReadingB (sda1At 100) (by decide) rfl (by decide) (by decide) (by decide)
  refine ⟨q, hq, ?_, ?_, ?_⟩
  · rw [hrio]; decide!
  · rw [hrkb, hrsect]; decide!
  · rw [hreq]; decide!

/-- A line of four fields with a new name registers a fresh partition under it. -/
theorem initPartitionsLine_new (d : DiskIO) (pline name : String)
    (hfields : (Fields pline).length = 4) (hname : (Fields pline).getD 3 "" = name)
    (hnew : d.PartiMap.get? name = none) :
    (initPartitionsLine d pline).PartiMap.get? name = some (Partition.new name) ∧
    (initPartitionsLine d pline).PartiNames = d.PartiNames ++ [name] := by
  unfold initPartitionsLine
  simp only [hfields, ne_eq, not_true_eq_false, if_false, hname, hnew]
  exact ⟨GoMap.get?_set_self _ _ _, trivial⟩

/-- C5. A line of `/proc/partitions` with a name not yet in the history registers a
partition whose fields are all zero.  The first reading of such a partition leaves its
thirteen derived metrics at 0 and stores the ten counters and the clock as the
baseline.  That clock being positive (a Unix time after the epoch), a reading at a
later clock sets the six per-second rates to the `int64` difference of the counters
over the elapsed time. -/
theorem disk_bootstrap (d : DiskIO) (pline name : String)
    (hfields : (Fields pline).length = 4) (hname : (Fields pline).getD 3 "" = name)
    (hnew : d.PartiMap.get? name = none) :
    (initPartitionsLine d pline).PartiMap.get? name = some (Partition.new name) ∧
    ∀ (m1 : GoMap Partition) (acc1 : IoStatLocals) (line1 : String) (now1 : Int)
      (r1 : DiskReading),
      m1.get? name = some (Partition.new name) →
      parseDiskstatsLine line1 = some (name, r1) →
      ∃ q1, (ioStatLine (m1, acc1) line1 now1).1.get? name = some q1 ∧
        (q1.RmergePerSecond = 0 ∧ q1.WmergePerSecond = 0 ∧ q1.RioPerSecond = 0 ∧
          q1.WioPerSecond = 0 ∧ q1.RsectPerSecond = 0 ∧ q1.WsectPerSecond = 0 ∧
          q1.ReqSz = 0 ∧ q1.ServeElapsed = 0 ∧ q1.AwaitElapsed = 0 ∧ q1.QueueSz = 0 ∧
          q1.ReqRate = 0 ∧ q1.RkbPerSecond = 0 ∧ q1.WkbPerSecond = 0) ∧
        (q1.Rio = r1.rio ∧ q1.Rmerge = r1.rmerge ∧ q1.Rsect = r1.rsect ∧
          q1.Relapsed = r1.relapsed ∧ q1.Wio = r1.wio ∧ q1.Wmerge = r1.wmerge ∧
          q1.Wsect = r1.wsect ∧ q1.Welapsed = r1.welapsed ∧ q1.Elapsed = r1.elapsed ∧
          q1.Aveq = r1.aveq ∧ q1.Last = now1) ∧
        ∀ (m2 : GoMap Partition) (acc2 : IoStatLocals) (line2 : String) (now2 : Int)
          (r2 : DiskReading),
          m2.get? name = some q1 →
          parseDiskstatsLine line2 = some (name, r2) →
          0 < now1 → now1 < now2 → now2 < 2 ^ 63 →
          ∃ q2, (ioStatLine (m2, acc2) line2 now2).1.get? name = some q2 ∧
            q2.RioPerSecond = (subInt64 r2.rio r1.rio : ℚ) / ((now2 : ℚ) - (now1 : ℚ)) ∧
            q2.WioPerSecond = (subInt64 r2.wio r1.wio : ℚ) / ((now2 : ℚ) - (now1 : ℚ)) ∧
            q2.RmergePerSecond
              = (subInt64 r2.rmerge r1.rmerge : ℚ) / ((now2 : ℚ) - (now1 : ℚ)) ∧
            q2.WmergePerSecond
              = (subInt64 r2.wmerge r1.wmerge : ℚ) / ((now2 : ℚ) - (now1 : ℚ)) ∧
            q2.RsectPerSecond = (subInt64 r2.rsect r1.rsect : ℚ) / ((now2 : ℚ) - (now1 : ℚ)) ∧
            q2.WsectPerSecond
              = (subInt64 r2.wsect r1.wsect : ℚ) / ((now2 : ℚ) - (now1 : ℚ)) := by
  refine ⟨(initPartitionsLine_new d pline name hfields hname hnew).1, ?_⟩
  intro m1 acc1 line1 now1 r1 hm1 hline1
  refine ⟨_, ioStatLine_get? m1 acc1 line1 now1 name r1 _ hline1 hm1, ?_, ?_, ?_⟩
  · simp [ioStatEntry, Partition.new, ioStatStore]
  · simp [ioStatEntry, Partition.new, ioStatStore]
  · intro m2 acc2 line2 now2 r2 hm2 hline2 h0 h12 hr
    refine ⟨_, ioStatLine_get? m2 acc2 line2 now2 name r2 _ hline2 hm2, ?_⟩
    have hd : ((subInt64 now2 now1 : Int) : ℚ) = (now2 : ℚ) - (now1 : ℚ) := by
      rw [subInt64_time h0 h12 hr]; push_cast; ring
    have hpos : (0 : ℚ) < (now2 : ℚ) - (now1 : ℚ) := by
      have : (now1 : ℚ) < (now2 : ℚ) := by exact_mod_cast h12
      linarith
    have hL : ¬ now1 ≤ 0 := by omega
    simp only [ioStatEntry, Partition.new, ioStatStore, ioStatRates, ioStatComposite, hL, hd,
      hpos, le_refl, if_true, if_false, gt_iff_lt]
    split_ifs <;> simp

/-- C5, at `sda1` registered from `/proc/partitions`, first read at clock 100 and read
again at clock 110: zero metrics and the baseline after the first reading, 10 reads per
second after the second. -/
theorem disk_bootstrap_witness :
    (Fields "   8        1     524288 sda1\n").length = 4 ∧
    (Fields "   8        1     524288 sda1\n").getD 3 "" = "sda1" ∧
    diskEmpty.PartiMap.get? "sda1" = none ∧
    ∃ q1 q2,
      (ioStatLine ((initPartitionsLine diskEmpty "   8        1     524288 sda1\n").PartiMap,
        IoStatLocals.init) sda1LineA 100).1.get? "sda1" = some q1 ∧
      q1.RioPerSecond = 0 ∧ q1.ReqRate = 0 ∧ q1.Rio = 1000 ∧ q1.Last = 100 ∧
      (ioStatLine ([("sda1", q1)], IoStatLocals.init) sda1LineB 110).1.get? "sda1" = some q2 ∧
      q2.RioPerSecond = 10 ∧ q2.RsectPerSecond = 200 := by
  refine ⟨by decide, by decide, rfl, ?_⟩
  obtain ⟨hreg, hrest⟩ :=
    disk_bootstrap diskEmpty "   8        1     524288 sda1\n" "sda1" (by decide) (by decide) rfl
  obtain ⟨q1, hq1, hzero, hbase, hnext⟩ :=
    hrest _ IoStatLocals.init sda1LineA 100 sda1ReadingA hreg (by decide)
  obtain ⟨q2, hq2, hrio, -, -, -, hrsect, -⟩ :=
    hnext [("sda1", q1)] IoStatLocals.init sda1LineB 110 sda1ReadingB
      (by simp [GoMap.get?]) (by decide) (by decide) (by decide) (by decide)
  refine ⟨q1, q2, hq1, hzero.2.2.1, hzero.2.2.2.2.2.2.2.2.2.2.1, hbase.1,
    hbase.2.2.2.2.2.2.2.2.2.2, hq2, ?_, ?_⟩
  · rw [hrio]; decide!
  · rw [hrsect]; decide!

/-- C6 (amended). For a partition with stored `Last > 0` read at `now > Last`, a
counter that is non-negative and smaller than its stored value gives the per-second
rate `(current - stored) / (now - Last)`, which is negative: the loop body of
`InitIoStat` has no reset detection. -/
theorem disk_counter_decrease (m : GoMap Partition) (acc : IoStatLocals) (line : String)
    (now : Int) (name : String) (r : DiskReading) (p : Partition)
    (hline : parseDiskstatsLine line = some (name, r)) (hp : m.get? name = some p)
    (hLast : 0 < p.Last) (hnow : p.Last < now) (hrange : now < 2 ^ 63) :
    ∃ q, (ioStatLine (m, acc) line now).1.get? name = some q ∧
      (0 ≤ r.rio → r.rio < p.Rio → p.Rio < 2 ^ 63 →
        q.RioPerSecond = ((r.rio : ℚ) - (p.Rio : ℚ)) / ((now : ℚ) - (p.Last : ℚ)) ∧
        q.RioPerSecond < 0) ∧
      (0 ≤ r.wio → r.wio < p.Wio → p.Wio < 2 ^ 63 →
        q.WioPerSecond = ((r.wio : ℚ) - (p.Wio : ℚ)) / ((now : ℚ) - (p.Last : ℚ)) ∧
        q.WioPerSecond < 0) ∧
      (0 ≤ r.rmerge → r.rmerge < p.Rmerge → p.Rmerge < 2 ^ 63 →
        q.RmergePerSecond = ((r.rmerge : ℚ) - (p.Rmerge : ℚ)) / ((now : ℚ) - (p.Last : ℚ)) ∧
        q.RmergePerSecond < 0) ∧
      (0 ≤ r.wmerge → r.wmerge < p.Wmerge → p.Wmerge < 2 ^ 63 →
        q.WmergePerSecond = ((r.wmerge : ℚ) - (p.Wmerge : ℚ)) / ((now : ℚ) - (p.Last : ℚ)) ∧
        q.WmergePerSecond < 0) ∧
      (0 ≤ r.rsect → r.rsect < p.Rsect → p.Rsect < 2 ^ 63 →
        q.RsectPerSecond = ((r.rsect : ℚ) - (p.Rsect : ℚ)) / ((now : ℚ) - (p.Last : ℚ)) ∧
        q.RsectPerSecond < 0) ∧
      (0 ≤ r.wsect → r.wsect < p.Wsect → p.Wsect < 2 ^ 63 →
        q.WsectPerSecond = ((r.wsect : ℚ) - (p.Wsect : ℚ)) / ((now : ℚ) - (p.Last : ℚ)) ∧
        q.WsectPerSecond < 0) := by
  refine ⟨_, ioStatLine_get? m acc line now name r p hline hp, ?_⟩
  have hd : ((subInt64 now p.Last : Int) : ℚ) = (now : ℚ) - (p.Last : ℚ) := by
    rw [subInt64_time hLast hnow hrange]; push_cast; ring
  have hpos : (0 : ℚ) < (now : ℚ) - (p.Last : ℚ) := by
    have : (p.Last : ℚ) < (now : ℚ) := by exact_mod_cast hnow
    linarith
  have hL : ¬ p.Last ≤ 0 := by omega
  have key : ∀ a b : Int, 0 ≤ a → a < b → b < 2 ^ 63 →
      ((subInt64 a b : Int) : ℚ) / ((now : ℚ) - (p.Last : ℚ))
        = ((a : ℚ) - (b : ℚ)) / ((now : ℚ) - (p.Last : ℚ)) ∧
      ((subInt64 a b : Int) : ℚ) / ((now : ℚ) - (p.Last : ℚ)) < 0 := by
    intro a b h0 hab hb
    have hs : subInt64 a b = a - b := subInt64_of_nonneg h0 (by omega) (by omega) hb
    have hneg : ((a : ℚ) - (b : ℚ)) < 0 := by
      have : (a : ℚ) < (b : ℚ) := by exact_mod_cast hab
      linarith
    rw [hs]; push_cast
    exact ⟨rfl, div_neg_of_neg_of_pos hneg hpos⟩
  simp only [ioStatEntry, hL, if_false, ioStatRates, ioStatComposite, ioStatStore, hd, hpos,
    gt_iff_lt, if_true]
  split_ifs <;>
    exact ⟨key _ _, key _ _, key _ _, key _ _, key _ _, key _ _⟩

/-- C6, at `sda1` with stored `Rio = 1000` and `Last = 100`, read at clock 110 with
900 reads: the stored read rate is `(900 - 1000) / 10 = -10`. -/
theorem disk_counter_decrease_witness :
    ∃ q, (ioStatLine ([("sda1", sda1At 100)], IoStatLocals.init)
        "   8       1 sda1 900 0 20000 0 0 0 0 0 0 500 0\n" 110).1.get? "sda1" = some q ∧
      q.RioPerSecond = -10 ∧ q.RioPerSecond < 0 := by
  obtain ⟨q, hq, hrio, -⟩ :=
    disk_counter_decrease [("sda1", sda1At 100)] IoStatLocals.init
      "   8       1 sda1 900 0 20000 0 0 0 0 0 0 500 0\n" 110 "sda1"
      { rio := 900, rmerge := 0, rsect := 20000, relapsed := 0, wio := 0, wmerge := 0,
        wsect := 0, welapsed := 0, elapsed := 500, aveq := 0 }
      (sda1At 100) (by decide) rfl (by decide) (by decide) (by decide)
  obtain ⟨hval, hneg⟩ := hrio (by decide) (by decide) (by decide)
  refine ⟨q, hq, ?_, hneg⟩
  rw [hval]; decide!

/-- C6 as stated fails: `sda1` is registered and read at clock 100 with 100 reads, then
read at clock 110 with 90 reads; the stored read rate is `-1`, not `0`. -/
theorem disk_counter_reset_negative_rate :
    ((diskEmpty.Collect partitionsSda "   8       1 sda1 100 0 0 0 0 0 0 0 0 0 0\n"
      (fun _ => 100)).PartiMap.get? "sda1").map (fun q => (q.Rio, q.Last)) = some (100, 100) ∧
    (((diskEmpty.Collect partitionsSda "   8       1 sda1 100 0 0 0 0 0 0 0 0 0 0\n"
      (fun _ => 100)).Collect partitionsSda "   8       1 sda1 90 0 0 0 0 0 0 0 0 0 0\n"
      (fun _ => 110)).PartiMap.get? "sda1").map (fun q => q.RioPerSecond) = some (-1) ∧
    (-1 : ℚ) < 0 := by
  refine ⟨by decide!, by decide!, by norm_num⟩

/-- When the clock has not advanced since the stored `Last > 0`, the loop body of
`InitIoStat` sets nine of the ten rates to 0 and leaves `WkbPerSecond` as it was. -/
theorem ioStatEntry_same_clock (p : Partition) (acc : IoStatLocals) (name : String)
    (r : DiskReading) (hLast : 0 < p.Last) :
    (ioStatEntry p acc name r p.Last).1.WkbPerSecond = p.WkbPerSecond ∧
    (ioStatEntry p acc name r p.Last).1.RioPerSecond = 0 ∧
    (ioStatEntry p acc name r p.Last).1.WioPerSecond = 0 ∧
    (ioStatEntry p acc name r p.Last).1.RmergePerSecond = 0 ∧
    (ioStatEntry p acc name r p.Last).1.WmergePerSecond = 0 ∧
    (ioStatEntry p acc name r p.Last).1.RsectPerSecond = 0 ∧
    (ioStatEntry p acc name r p.Last).1.WsectPerSecond = 0 ∧
    (ioStatEntry p acc name r p.Last).1.RkbPerSecond = 0 ∧
    (ioStatEntry p acc name r p.Last).1.QueueSz = 0 ∧
    (ioStatEntry p acc name r p.Last).1.ReqRate = 0 := by
  have hL : ¬ p.Last ≤ 0 := by omega
  have hd : subInt64 p.Last p.Last = 0 := by unfold subInt64 wrapInt64; omega
  simp only [ioStatEntry, hL, if_false, ioStatRates, ioStatComposite, ioStatStore, hd,
    Int.cast_zero, gt_iff_lt, lt_self_iff_false]
  split_ifs <;> simp

/-- C8 fails for `WkbPerSecond`: `sda1` is registered and read at clock 100 (no sector
written), read at clock 110 (100 sectors written: 10 sectors and 5 kB per second), and
read again at clock 110 (200 sectors written).  After the last pass the elapsed time is
0 and nine rates are 0, but `WkbPerSecond` still holds the 5 of the pass before: lines
215-223 of `iostat.go` reset `RkbPerSecond` and not `WkbPerSecond`. -/
theorem disk_zero_elapsed_keeps_wkb :
    ((((diskEmpty.Collect partitionsSda "   8       1 sda1 0 0 0 0 0 0 0 0 0 0 0\n"
        (fun _ => 100)).Collect partitionsSda "   8       1 sda1 0 0 0 0 0 0 100 0 0 0 0\n"
        (fun _ => 110)).PartiMap.get? "sda1").map
      (fun q => (q.Last, q.WsectPerSecond, q.WkbPerSecond)) = some (110, 10, 5)) ∧
    (((((diskEmpty.Collect partitionsSda "   8       1 sda1 0 0 0 0 0 0 0 0 0 0 0\n"
        (fun _ => 100)).Collect partitionsSda "   8       1 sda1 0 0 0 0 0 0 100 0 0 0 0\n"
        (fun _ => 110)).Collect partitionsSda "   8       1 sda1 0 0 0 0 0 0 200 0 0 0 0\n"
        (fun _ => 110)).PartiMap.get? "sda1").map
      (fun q => (q.RioPerSecond, q.WioPerSecond, q.RmergePerSecond, q.WmergePerSecond,
        q.RsectPerSecond)) = some (0, 0, 0, 0, 0)) ∧
    (((((diskEmpty.Collect partitionsSda "   8       1 sda1 0 0 0 0 0 0 0 0 0 0 0\n"
        (fun _ => 100)).Collect partitionsSda "   8       1 sda1 0 0 0 0 0 0 100 0 0 0 0\n"
        (fun _ => 110)).Collect partitionsSda "   8       1 sda1 0 0 0 0 0 0 200 0 0 0 0\n"
        (fun _ => 110)).PartiMap.get? "sda1").map
      (fun q => (q.WsectPerSecond, q.RkbPerSecond, q.QueueSz, q.ReqRate, q.WkbPerSecond))
      = some (0, 0, 0, 0, 5)) := by
  refine ⟨by decide!, by decide!, by decide!⟩

/-! ## Processor time -/

theorem subUint64_of_le {a b : Nat} (hab : b ≤ a) (ha : a < 2 ^ 64) : subUint64 a b = a - b := by
  unfold subUint64
  omega

theorem parseUintGo_le (cs : List Char) (n : Nat) (hn : n ≤ maxUint64) :
    parseUintGo cs n ≤ maxUint64 := by
  induction cs generalizing n with
  | nil => simpa [parseUintGo] using hn
  | cons c cs ih =>
    simp only [parseUintGo]
    split_ifs with h1 h2 h3
    · exact le_refl _
    · exact le_refl _
    · exact ih _ (by omega)
    · exact Nat.zero_le _

theorem ParseUint_lt (s : String) : ParseUint s < 2 ^ 64 := by
  have h : ParseUint s ≤ maxUint64 := by
    unfold ParseUint
    split
    · exact Nat.zero_le _
    · exact parseUintGo_le _ 0 (Nat.zero_le _)
  unfold maxUint64 at h
  omega

theorem parseCpuLine_lt {line : String} {r : CpuReading} (h : parseCpuLine line = some r) :
    r.user < 2 ^ 64 ∧ r.nice < 2 ^ 64 ∧ r.system < 2 ^ 64 ∧ r.idle < 2 ^ 64 ∧
      r.iowait < 2 ^ 64 := by
  unfold parseCpuLine at h
  simp only at h
  split_ifs at h
  cases h
  exact ⟨ParseUint_lt _, ParseUint_lt _, ParseUint_lt _, ParseUint_lt _, ParseUint_lt _⟩

theorem cpuTotal_eq (r : CpuReading) :
    cpuTotal r = (r.user + r.nice + r.system + r.idle + r.iowait) % 2 ^ 64 := by
  unfold cpuTotal addUint64
  omega

theorem cpuTotal_lt (r : CpuReading) : cpuTotal r < 2 ^ 64 := by
  rw [cpuTotal_eq]
  omega

/-- The first `cpu` line of a pass is handled by `cpuSample`. -/
theorem cpuStatLine_first (c : Cpu) (ds : List ℚ) (line : String) (r : CpuReading)
    (hcpu : Contains line "cpu" = true) (hparse : parseCpuLine line = some r) :
    cpuStatLine { cpu := c, readCpuTag := false, divisors := ds } line
      = some { cpu := (cpuSample c r).1, readCpuTag := true,
               divisors := ds ++ (cpuSample c r).2 } := by
  simp [cpuStatLine, hcpu, hparse]

/-- C3. On the first `cpu` line of `/proc/stat`, `Collect` stores
`total = user + nice + system + idle + iowait` (on `uint64`, so modulo `2 ^ 64`; `irq`
and `softirq` are not part of it), and when the stored `Total` is positive, the new
total is greater and the four counters are at least the stored ones, each percentage is
its counter difference over the total difference times 100. -/
theorem cpu_percentages (c : Cpu) (ds : List ℚ) (line : String) (r : CpuReading)
    (hcpu : Contains line "cpu" = true) (hparse : parseCpuLine line = some r) :
    ∃ st, cpuStatLine { cpu := c, readCpuTag := false, divisors := ds } line = some st ∧
      st.cpu.Total = (r.user + r.nice + r.system + r.idle + r.iowait) % 2 ^ 64 ∧
      (r.user + r.nice + r.system + r.idle + r.iowait < 2 ^ 64 →
        st.cpu.Total = r.user + r.nice + r.system + r.idle + r.iowait) ∧
      (0 < c.Total → c.Total < st.cpu.Total →
        c.Idle ≤ r.idle → c.User ≤ r.user → c.System ≤ r.system → c.Iowait ≤ r.iowait →
        st.cpu.IdleRate
          = ((r.idle : ℚ) - (c.Idle : ℚ)) / ((st.cpu.Total : ℚ) - (c.Total : ℚ)) * 100 ∧
        st.cpu.UserRate
          = ((r.user : ℚ) - (c.User : ℚ)) / ((st.cpu.Total : ℚ) - (c.Total : ℚ)) * 100 ∧
        st.cpu.SystemRate
          = ((r.system : ℚ) - (c.System : ℚ)) / ((st.cpu.Total : ℚ) - (c.Total : ℚ)) * 100 ∧
        st.cpu.IoWaitRate
          = ((r.iowait : ℚ) - (c.Iowait : ℚ)) / ((st.cpu.Total : ℚ) - (c.Total : ℚ)) * 100) := by
  refine ⟨_, cpuStatLine_first c ds line r hcpu hparse, ?_, ?_, ?_⟩
  · simp [cpuSample, cpuTotal_eq]
  · intro hsum
    simp only [cpuSample]
    rw [cpuTotal_eq, Nat.mod_eq_of_lt hsum]
  · obtain ⟨hu, -, hs, hi, hw⟩ := parseCpuLine_lt hparse
    have htot : (cpuSample c r).1.Total = cpuTotal r := by simp [cpuSample]
    simp only [htot]
    intro hT hlt hidle huser hsys hio
    have hTpos : ¬ c.Total ≤ 0 := by omega
    have hdT : ((subUint64 (cpuTotal r) c.Total : Nat) : ℚ)
        = (cpuTotal r : ℚ) - (c.Total : ℚ) := by
      rw [subUint64_of_le (le_of_lt hlt) (cpuTotal_lt r), Nat.cast_sub (le_of_lt hlt)]
    have hpos : (0 : ℚ) < (cpuTotal r : ℚ) - (c.Total : ℚ) := by
      have : (c.Total : ℚ) < (cpuTotal r : ℚ) := by exact_mod_cast hlt
      linarith
    have e1 : ((subUint64 r.idle c.Idle : Nat) : ℚ) = (r.idle : ℚ) - (c.Idle : ℚ) := by
      rw [subUint64_of_le hidle hi, Nat.cast_sub hidle]
    have e2 : ((subUint64 r.user c.User : Nat) : ℚ) = (r.user : ℚ) - (c.User : ℚ) := by
      rw [subUint64_of_le huser hu, Nat.cast_sub huser]
    have e3 : ((subUint64 r.system c.System : Nat) : ℚ) = (r.system : ℚ) - (c.System : ℚ) := by
      rw [subUint64_of_le hsys hs, Nat.cast_sub hsys]
    have e4 : ((subUint64 r.iowait c.Iowait : Nat) : ℚ) = (r.iowait : ℚ) - (c.Iowait : ℚ) := by
      rw [subUint64_of_le hio hw, Nat.cast_sub hio]
    simp [cpuSample, hTpos, hdT, hpos, e1, e2, e3, e4]

/-- C3, at a state with 10 user and 10 idle jiffies (total 20) and the line
`cpu  20 0 0 20 0 0 0`: the total is 40, the idle and the user share are 50 percent. -/
theorem cpu_percentages_witness :
    Contains "cpu  20 0 0 20 0 0 0 0 0 0\n" "cpu" = true ∧
    ∃ st, cpuStatLine
        { cpu := { cpuZero with User := 10, Idle := 10, Total := 20 }, readCpuTag := false,
          divisors := [] } "cpu  20 0 0 20 0 0 0 0 0 0\n" = some st ∧
      st.cpu.Total = 40 ∧ st.cpu.IdleRate = 50 ∧ st.cpu.UserRate = 50 ∧
      ((cpuZero.Collect "cpu  10 0 0 10 0 0 0 0 0 0\n").bind
        (fun c => c.Collect "cpu  20 0 0 20 0 0 0 0 0 0\n")).map
        (fun c => (c.Total, c.IdleRate, c.UserRate)) = some (40, 50, 50) := by
  refine ⟨by decide, ?_⟩
  obtain ⟨st, hst, -, htot, hrates⟩ :=
    cpu_percentages { cpuZero with User := 10, Idle := 10, Total := 20 } []
      "cpu  20 0 0 20 0 0 0 0 0 0\n"
      { user := 20, nice := 0, system := 0, idle := 20, iowait := 0, irq := 0, softIrq := 0 }
      (by decide) (by decide)
  have h40 : st.cpu.Total = 40 := htot (by decide)
  obtain ⟨hidle, huser, -, -⟩ :=
    hrates (by decide) (by rw [h40]; decide) (by decide) (by decide) (by decide) (by decide)
  refine ⟨st, hst, h40, ?_, ?_, by decide!⟩
  · rw [hidle, h40]; decide!
  · rw [huser, h40]; decide!

/-- C10 (amended). When the stored `Total` is positive and the total of the reading
equals it, `Collect` divides by nothing and leaves the four percentages as they were;
they are 0 only if they were 0 before. -/
theorem cpu_zero_total_delta (c : Cpu) (ds : List ℚ) (line : String) (r : CpuReading)
    (hcpu : Contains line "cpu" = true) (hparse : parseCpuLine line = some r)
    (hT : 0 < c.Total) (heq : cpuTotal r = c.Total) :
    ∃ st, cpuStatLine { cpu := c, readCpuTag := false, divisors := ds } line = some st ∧
      st.cpu.IoWaitRate = c.IoWaitRate ∧ st.cpu.SystemRate = c.SystemRate ∧
      st.cpu.UserRate = c.UserRate ∧ st.cpu.IdleRate = c.IdleRate ∧ st.divisors = ds := by
  refine ⟨_, cpuStatLine_first c ds line r hcpu hparse, ?_⟩
  have hTpos : ¬ c.Total ≤ 0 := by omega
  have hd : subUint64 (cpuTotal r) c.Total = 0 := by
    rw [heq]; unfold subUint64; omega
  simp [cpuSample, hTpos, hd]

/-- C10, at a state with total 40 and shares of 50 percent, read again with the same
counters: the shares stay 50. -/
theorem cpu_zero_total_delta_witness :
    ∃ st, cpuStatLine
        { cpu := { cpuZero with User := 20, Idle := 20, Total := 40, UserRate := 50,
                                IdleRate := 50 },
          readCpuTag := false, divisors := [] } "cpu  20 0 0 20 0 0 0 0 0 0\n" = some st ∧
      st.cpu.UserRate = 50 ∧ st.cpu.IdleRate = 50 ∧ st.divisors = [] := by
  obtain ⟨st, hst, -, -, huser, hidle, hdiv⟩ :=
    cpu_zero_total_delta
      { cpuZero with User := 20, Idle := 20, Total := 40, UserRate := 50, IdleRate := 50 } []
      "cpu  20 0 0 20 0 0 0 0 0 0\n"
      { user := 20, nice := 0, system := 0, idle := 20, iowait := 0, irq := 0, softIrq := 0 }
      (by decide) (by decide) (by decide) (by decide)
  exact ⟨st, hst, huser, hidle, hdiv⟩

/-- C10 as stated fails: after collections of `cpu  10 0 0 10 0` and `cpu  20 0 0 20 0`
the user and idle shares are 50 percent; a third collection of the same line has a
total difference of 0 and leaves both at 50, not at 0. -/
theorem cpu_zero_delta_keeps_rates :
    ((cpuZero.Collect "cpu  10 0 0 10 0 0 0 0 0 0\n").bind
      (fun c => c.Collect "cpu  20 0 0 20 0 0 0 0 0 0\n")).map
      (fun c => (c.Total, c.UserRate, c.IdleRate)) = some (40, 50, 50) ∧
    (((cpuZero.Collect "cpu  10 0 0 10 0 0 0 0 0 0\n").bind
      (fun c => c.Collect "cpu  20 0 0 20 0 0 0 0 0 0\n")).bind
      (fun c => c.Collect "cpu  20 0 0 20 0 0 0 0 0 0\n")).map
      (fun c => (c.Total, c.UserRate, c.IdleRate, c.SystemRate, c.IoWaitRate))
      = some (40, 50, 50, 0, 0) := by
  refine ⟨by decide!, by decide!⟩

/-! ## Network interfaces -/

theorem subInt64_clock {now last : Int} (h0 : 0 ≤ last) (h1 : last < now) (h2 : now < 2 ^ 63) :
    subInt64 now last = now - last := by
  unfold subInt64 wrapInt64
  omega

theorem subInt64_clock_nonpos {now last : Int} (h0 : 0 ≤ now) (h1 : now ≤ last)
    (h2 : last < 2 ^ 63) : subInt64 now last ≤ 0 := by
  unfold subInt64 wrapInt64
  omega

/-- The rates of `ifiRates` are never negative. -/
theorem ifiRates_nonneg (ifi : Ifi) (r : NetReading) (now : Int) :
    0 ≤ (ifiRates ifi r now).recvByteAvg ∧ 0 ≤ (ifiRates ifi r now).sendByteAvg := by
  by_cases h1 : ifi.Last = 0
  · simp [ifiRates, h1]
  · by_cases h2 : ((subInt64 now ifi.Last : Int) : ℚ) > 0
    · simp only [ifiRates, h1, h2, if_true, if_false]
      exact ⟨div_nonneg (Nat.cast_nonneg _) (le_of_lt h2),
        div_nonneg (Nat.cast_nonneg _) (le_of_lt h2)⟩
    · simp [ifiRates, h1, h2]

theorem netSums_IfiMap (this : NetWork) (ifi : Ifi) (v : IfiRates) :
    (netSums this ifi v).IfiMap = this.IfiMap := by
  unfold netSums
  split_ifs <;> rfl

theorem netSums_maxUse (this : NetWork) (ifi : Ifi) (v : IfiRates) :
    (netSums this ifi v).EthInMaxUseRate = this.EthInMaxUseRate ∧
      (netSums this ifi v).EthOutMaxUseRate = this.EthOutMaxUseRate := by
  unfold netSums
  split_ifs <;> exact ⟨rfl, rfl⟩

/-- The entry `netLineApply` leaves under the interface name: the stored reading and
rates, with the speed `ethtool` reports when it reports one. -/
theorem netLineApply_get? (parseFloat : String → Option ℚ) (st : NetLoop) (x : NetLineVars) :
    (netLineApply parseFloat st x).net.IfiMap.get? x.ethname
      = some (match x.speed parseFloat with
          | none => ifiStore x.ifi0 x.ethname (x.addrs.getD 0 "") x.r x.v x.now
          | some speed =>
            { ifiStore x.ifi0 x.ethname (x.addrs.getD 0 "") x.r x.v x.now with
              Speed := speed }) := by
  unfold netLineApply
  cases hE : x.ethtool with
  | none =>
    simp only [NetLineVars.speed, hE, netSums_IfiMap]
    exact GoMap.get?_set_self _ _ _
  | some output =>
    cases hS : ethtoolSpeed parseFloat (Split output '\n') with
    | none =>
      simp only [NetLineVars.speed, hE, hS, netSpeed]
      exact GoMap.get?_set_self _ _ _
    | some speed =>
      simp only [NetLineVars.speed, hE, hS, netSpeed]
      split_ifs <;> exact GoMap.get?_set_self _ _ _

/-- The `EthInMaxUseRate` and `EthOutMaxUseRate` that `netLineApply` leaves. -/
theorem netLineApply_maxUse (parseFloat : String → Option ℚ) (st : NetLoop) (x : NetLineVars) :
    (netLineApply parseFloat st x).net.EthInMaxUseRate
      = ((x.inUse parseFloat).toList.foldl max st.net.EthInMaxUseRate) ∧
    (netLineApply parseFloat st x).net.EthOutMaxUseRate
      = ((x.outUse parseFloat).toList.foldl max st.net.EthOutMaxUseRate) := by
  have hbase : ∀ (n : NetWork) (m : GoMap Ifi) (ifi : Ifi),
      (netSums { n with IfiMap := m } ifi x.v).EthInMaxUseRate = n.EthInMaxUseRate ∧
      (netSums { n with IfiMap := m } ifi x.v).EthOutMaxUseRate = n.EthOutMaxUseRate :=
    fun n m ifi => netSums_maxUse _ ifi x.v
  have h0 : ∀ (n : NetWork),
      (match n.IfiMap.get? x.ethname with
        | some _ => n
        | none => { n with IfiMap := n.IfiMap.set x.ethname Ifi.zero,
                           IfiNames := n.IfiNames ++ [x.ethname] }).EthInMaxUseRate
        = n.EthInMaxUseRate ∧
      (match n.IfiMap.get? x.ethname with
        | some _ => n
        | none => { n with IfiMap := n.IfiMap.set x.ethname Ifi.zero,
                           IfiNames := n.IfiNames ++ [x.ethname] }).EthOutMaxUseRate
        = n.EthOutMaxUseRate := by
    intro n
    cases n.IfiMap.get? x.ethname <;> exact ⟨rfl, rfl⟩
  unfold netLineApply
  cases hE : x.ethtool with
  | none =>
    simp only [NetLineVars.inUse, NetLineVars.outUse, NetLineVars.speed, hE, Option.toList,
      List.foldl_nil]
    exact ⟨(hbase _ _ _).1.trans (h0 st.net).1, (hbase _ _ _).2.trans (h0 st.net).2⟩
  | some output =>
    cases hS : ethtoolSpeed parseFloat (Split output '\n') with
    | none =>
      simp only [NetLineVars.inUse, NetLineVars.outUse, NetLineVars.speed, hE, hS, netSpeed,
        Option.toList, List.foldl_nil]
      exact ⟨(hbase _ _ _).1.trans (h0 st.net).1, (hbase _ _ _).2.trans (h0 st.net).2⟩
    | some speed =>
      by_cases hpos : speed > 0
      · simp only [NetLineVars.inUse, NetLineVars.outUse, NetLineVars.speed, hE, hS, netSpeed,
          hpos, if_true, Option.toList, List.foldl_cons, List.foldl_nil]
        rw [(hbase _ _ _).1, (hbase _ _ _).2, (h0 st.net).1, (h0 st.net).2, max_def, max_def]
        constructor <;> split_ifs <;> first | rfl | linarith
      · simp only [NetLineVars.inUse, NetLineVars.outUse, NetLineVars.speed, hE, hS, netSpeed,
          hpos, if_false, Option.toList, List.foldl_nil]
        exact ⟨(hbase _ _ _).1.trans (h0 st.net).1, (hbase _ _ _).2.trans (h0 st.net).2⟩

/-- One line raises `EthInMaxUseRate` and `EthOutMaxUseRate` to the link uses it
computes, when they are greater. -/
theorem netDevLine_maxUse (parseFloat : String → Option ℚ) (st : NetLoop) (line : String)
    (w : NetProbe) :
    (netDevLine parseFloat st line w).net.EthInMaxUseRate
      = (((netLineVars st.net line w).toList.filterMap fun x => x.inUse parseFloat).foldl max
          st.net.EthInMaxUseRate) ∧
    (netDevLine parseFloat st line w).net.EthOutMaxUseRate
      = (((netLineVars st.net line w).toList.filterMap fun x => x.outUse parseFloat).foldl max
          st.net.EthOutMaxUseRate) := by
  unfold netDevLine
  cases hV : netLineVars st.net line w with
  | none => simp
  | some x =>
    obtain ⟨h1, h2⟩ := netLineApply_maxUse parseFloat st x
    simp only [Option.toList, List.filterMap_cons, List.filterMap_nil]
    rw [h1, h2]
    cases x.inUse parseFloat <;> cases x.outUse parseFloat <;> simp [Option.toList]

/-- The loop raises `EthInMaxUseRate` and `EthOutMaxUseRate` to the greatest link use
of the lines it lets through. -/
theorem netDevLoop_maxUse (parseFloat : String → Option ℚ) (probe : Nat → NetProbe)
    (lines : List String) (i : Nat) (st : NetLoop) :
    (netDevLoop parseFloat probe lines i st).net.EthInMaxUseRate
      = (((netDevVars parseFloat probe lines i st).filterMap fun x => x.inUse parseFloat).foldl
          max st.net.EthInMaxUseRate) ∧
    (netDevLoop parseFloat probe lines i st).net.EthOutMaxUseRate
      = (((netDevVars parseFloat probe lines i st).filterMap fun x => x.outUse parseFloat).foldl
          max st.net.EthOutMaxUseRate) := by
  induction lines generalizing i st with
  | nil => simp [netDevLoop, netDevVars]
  | cons line rest ih =>
    obtain ⟨h1, h2⟩ := netDevLine_maxUse parseFloat st line (probe i)
    obtain ⟨ih1, ih2⟩ := ih (i + 1) (netDevLine parseFloat st line (probe i))
    simp only [netDevLoop, netDevVars, List.filterMap_append, List.foldl_append]
    rw [ih1, ih2, h1, h2]
    exact ⟨rfl, rfl⟩

/-- The fold of `max` from 0 over non-negative numbers is their maximum, and 0 when
there is none. -/
theorem foldl_max_zero (l : List ℚ) (hl : ∀ u ∈ l, 0 ≤ u) :
    (∀ u ∈ l, u ≤ l.foldl max 0) ∧ (l = [] → l.foldl max 0 = 0) ∧
      (l ≠ [] → l.foldl max 0 ∈ l) := by
  have gen : ∀ (l : List ℚ) (a : ℚ), a ≤ l.foldl max a ∧ (∀ u ∈ l, u ≤ l.foldl max a) ∧
      (l.foldl max a = a ∨ l.foldl max a ∈ l) := by
    intro l
    induction l with
    | nil => intro a; simp
    | cons b t ih =>
      intro a
      obtain ⟨h1, h2, h3⟩ := ih (max a b)
      refine ⟨le_trans (le_max_left a b) h1, ?_, ?_⟩
      · intro u hu
        rcases List.mem_cons.mp hu with rfl | hu
        · exact le_trans (le_max_right a u) h1
        · exact h2 u hu
      · simp only [List.foldl_cons]
        rcases h3 with h3 | h3
        · rcases max_choice a b with h | h
          · left; rw [h3, h]
          · right; rw [h3, h]; exact List.mem_cons_self _ _
        · right; exact List.mem_cons_of_mem _ h3
  obtain ⟨h1, h2, h3⟩ := gen l 0
  refine ⟨h2, ?_, ?_⟩
  · intro h; subst h; rfl
  · intro hne
    rcases h3 with h3 | h3
    · obtain ⟨b, t, rfl⟩ := List.exists_cons_of_ne_nil hne
      have hb0 : 0 ≤ b := hl b (List.mem_cons_self _ _)
      have hb1 : b ≤ 0 := by
        have := h2 b (List.mem_cons_self _ _)
        rw [h3] at this
        exact this
      have : b = 0 := le_antisymm hb1 hb0
      rw [h3, ← this]
      exact List.mem_cons_self _ _
    · exact h3

/-- The local variables of a line that passes the checks of `InitNetWorkInfo`. -/
theorem netLineVars_eq (this : NetWork) (line : String) (w : NetProbe) (ethname : String)
    (r : NetReading) (addrs : List String) (ifi : Ifi)
    (hline : parseNetDevLine line = some (ethname, r)) (haddrs : w.addrs = some addrs)
    (hne : addrs ≠ []) (hmoni : moniTag addrs = true)
    (hget : this.IfiMap.get? ethname = some ifi) :
    netLineVars this line w
      = some { ethname := ethname, r := r, addrs := addrs, ifi0 := ifi,
               v := ifiRates ifi r w.now, now := w.now, ethtool := w.ethtool } := by
  have hlen : ¬ addrs.length = 0 := by
    intro h
    exact hne (List.length_eq_zero.mp h)
  simp [netLineVars, hline, haddrs, hlen, hmoni, hget]

/-- What a line that passes the checks stores for a known interface. -/
theorem netDevLine_get? (parseFloat : String → Option ℚ) (st : NetLoop) (line : String)
    (w : NetProbe) (ethname : String) (r : NetReading) (addrs : List String) (ifi : Ifi)
    (hline : parseNetDevLine line = some (ethname, r)) (haddrs : w.addrs = some addrs)
    (hne : addrs ≠ []) (hmoni : moniTag addrs = true)
    (hget : st.net.IfiMap.get? ethname = some ifi) :
    ∃ q, (netDevLine parseFloat st line w).net.IfiMap.get? ethname = some q ∧
      q.RecvByteAvg = (ifiRates ifi r w.now).recvByteAvg ∧
      q.SendByteAvg = (ifiRates ifi r w.now).sendByteAvg ∧
      q.RecvPkgAvg = (ifiRates ifi r w.now).recvPkgAvg ∧
      q.SendPkgAvg = (ifiRates ifi r w.now).sendPkgAvg ∧
      q.RecvErrRate = (ifiRates ifi r w.now).recvErrRate ∧
      q.SendErrRate = (ifiRates ifi r w.now).sendErrRate := by
  have hv := netLineVars_eq st.net line w ethname r addrs ifi hline haddrs hne hmoni hget
  have key : ∀ x : NetLineVars,
      ∃ q, (netLineApply parseFloat st x).net.IfiMap.get? x.ethname = some q ∧
        q.RecvByteAvg = x.v.recvByteAvg ∧ q.SendByteAvg = x.v.sendByteAvg ∧
        q.RecvPkgAvg = x.v.recvPkgAvg ∧ q.SendPkgAvg = x.v.sendPkgAvg ∧
        q.RecvErrRate = x.v.recvErrRate ∧ q.SendErrRate = x.v.sendErrRate := by
    intro x
    refine ⟨_, netLineApply_get? parseFloat st x, ?_⟩
    cases x.speed parseFloat <;> simp [ifiStore]
  unfold netDevLine
  rw [hv]
  exact key _

/-- The rates held by the local variables of a handled line are those of `ifiRates`. -/
theorem netLineVars_v (this : NetWork) (line : String) (w : NetProbe) (x : NetLineVars)
    (h : netLineVars this line w = some x) : x.v = ifiRates x.ifi0 x.r x.now := by
  unfold netLineVars at h
  split at h
  · cases h
  · split at h
    · cases h
    · split_ifs at h
      cases h
      rfl

theorem netDevVars_v (parseFloat : String → Option ℚ) (probe : Nat → NetProbe)
    (lines : List String) (i : Nat) (st : NetLoop) (x : NetLineVars)
    (h : x ∈ netDevVars parseFloat probe lines i st) : x.v = ifiRates x.ifi0 x.r x.now := by
  induction lines generalizing i st with
  | nil => simp [netDevVars] at h
  | cons line rest ih =>
    simp only [netDevVars, List.mem_append] at h
    rcases h with h | h
    · cases hV : netLineVars st.net line (probe i) with
      | none => simp [hV] at h
      | some y =>
        simp [hV] at h
        subst h
        exact netLineVars_v _ _ _ _ hV
    · exact ih _ _ h

/-- C2. For an interface of the history with stored `Last != 0` read at `now > Last`
(clock readings being non-negative `int64`), `InitNetWorkInfo` stores
`RecvByteAvg = (recvByte - stored RecvByte) / (now - Last)` on the `uint64` difference,
and `SendByteAvg` likewise.  For every line that is handled and for which `ethtool`
reports a speed `> 0`, the link uses computed are `RecvByteAvg * 8 * 100 / (speed * 1024 *
1024)` and the same on `SendByteAvg`, for the `RecvByteAvg`, `SendByteAvg` and `Speed`
stored by that line.  After a `Collect` pass `EthInMaxUseRate` is the maximum of the
inbound uses computed in the pass, and 0 if there is none; `EthOutMaxUseRate` likewise. -/
theorem net_byte_rate_and_link_use (parseFloat : String → Option ℚ) :
    (∀ (st : NetLoop) (line : String) (w : NetProbe) (ethname : String) (r : NetReading)
        (addrs : List String) (ifi : Ifi),
      parseNetDevLine line = some (ethname, r) → w.addrs = some addrs → addrs ≠ [] →
      moniTag addrs = true → st.net.IfiMap.get? ethname = some ifi →
      ifi.Last ≠ 0 → 0 ≤ ifi.Last → ifi.Last < w.now → w.now < 2 ^ 63 →
      ∃ q, (netDevLine parseFloat st line w).net.IfiMap.get? ethname = some q ∧
        q.RecvByteAvg
          = ((subUint64 r.recvByte ifi.RecvByte : Nat) : ℚ) / ((w.now : ℚ) - (ifi.Last : ℚ)) ∧
        q.SendByteAvg
          = ((subUint64 r.sendByte ifi.SendByte : Nat) : ℚ) / ((w.now : ℚ) - (ifi.Last : ℚ))) ∧
    (∀ (st : NetLoop) (x : NetLineVars),
      ∃ q, (netLineApply parseFloat st x).net.IfiMap.get? x.ethname = some q ∧
        q.RecvByteAvg = x.v.recvByteAvg ∧ q.SendByteAvg = x.v.sendByteAvg ∧
        ∀ speed, x.speed parseFloat = some speed → 0 < speed →
          q.Speed = speed ∧
          x.inUse parseFloat = some (q.RecvByteAvg * 8 * 100 / (speed * 1024 * 1024)) ∧
          x.outUse parseFloat = some (q.SendByteAvg * 8 * 100 / (speed * 1024 * 1024))) ∧
    (∀ (this : NetWork) (content : String) (probe : Nat → NetProbe),
      (∀ u ∈ (this.passVars parseFloat content probe).filterMap fun x => x.inUse parseFloat,
        u ≤ (this.Collect parseFloat content probe).EthInMaxUseRate) ∧
      (((this.passVars parseFloat content probe).filterMap fun x => x.inUse parseFloat) = [] →
        (this.Collect parseFloat content probe).EthInMaxUseRate = 0) ∧
      (((this.passVars parseFloat content probe).filterMap fun x => x.inUse parseFloat) ≠ [] →
        (this.Collect parseFloat content probe).EthInMaxUseRate
          ∈ (this.passVars parseFloat content probe).filterMap fun x => x.inUse parseFloat) ∧
      (∀ u ∈ (this.passVars parseFloat content probe).filterMap fun x => x.outUse parseFloat,
        u ≤ (this.Collect parseFloat content probe).EthOutMaxUseRate) ∧
      (((this.passVars parseFloat content probe).filterMap fun x => x.outUse parseFloat) = [] →
        (this.Collect parseFloat content probe).EthOutMaxUseRate = 0) ∧
      (((this.passVars parseFloat content probe).filterMap fun x => x.outUse parseFloat) ≠ [] →
        (this.Collect parseFloat content probe).EthOutMaxUseRate
          ∈ (this.passVars parseFloat content probe).filterMap fun x => x.outUse parseFloat)) := by
  refine ⟨?_, ?_, ?_⟩
  · intro st line w ethname r addrs ifi hline haddrs hne hmoni hget hL0 hL hnow hrange
    obtain ⟨q, hq, hrecv, hsend, -⟩ :=
      netDevLine_get? parseFloat st line w ethname r addrs ifi hline haddrs hne hmoni hget
    refine ⟨q, hq, ?_, ?_⟩
    · rw [hrecv]
      have hd : ((subInt64 w.now ifi.Last : Int) : ℚ) = (w.now : ℚ) - (ifi.Last : ℚ) := by
        rw [subInt64_clock hL hnow hrange]; push_cast; ring
      have hpos : (0 : ℚ) < (w.now : ℚ) - (ifi.Last : ℚ) := by
        have : (ifi.Last : ℚ) < (w.now : ℚ) := by exact_mod_cast hnow
        linarith
      simp [ifiRates, hL0, hd, hpos]
    · rw [hsend]
      have hd : ((subInt64 w.now ifi.Last : Int) : ℚ) = (w.now : ℚ) - (ifi.Last : ℚ) := by
        rw [subInt64_clock hL hnow hrange]; push_cast; ring
      have hpos : (0 : ℚ) < (w.now : ℚ) - (ifi.Last : ℚ) := by
        have : (ifi.Last : ℚ) < (w.now : ℚ) := by exact_mod_cast hnow
        linarith
      simp [ifiRates, hL0, hd, hpos]
  · intro st x
    refine ⟨_, netLineApply_get? parseFloat st x, ?_⟩
    cases hS : x.speed parseFloat with
    | none => simp [ifiStore]
    | some s =>
      refine ⟨by simp [ifiStore], by simp [ifiStore], ?_⟩
      intro speed hspeed hpos
      have hs : s = speed := Option.some.inj hspeed
      subst hs
      simp [NetLineVars.inUse, NetLineVars.outUse, hS, hpos, inEthUseRate, outEthUseRate,
        ifiStore]
  · intro this content probe
    obtain ⟨hin, hout⟩ := netDevLoop_maxUse parseFloat probe (readLines content) 0
      { net := this.ResetIfiData, divisors := [] }
    have hin0 : (this.Collect parseFloat content probe).EthInMaxUseRate
        = ((this.passVars parseFloat content probe).filterMap
            fun x => x.inUse parseFloat).foldl max 0 := by
      simpa [NetWork.Collect, NetWork.InitNetWorkInfo, NetWork.passVars, NetWork.ResetIfiData]
        using hin
    have hout0 : (this.Collect parseFloat content probe).EthOutMaxUseRate
        = ((this.passVars parseFloat content probe).filterMap
            fun x => x.outUse parseFloat).foldl max 0 := by
      simpa [NetWork.Collect, NetWork.InitNetWorkInfo, NetWork.passVars, NetWork.ResetIfiData]
        using hout
    have hnn : ∀ x ∈ this.passVars parseFloat content probe,
        (∀ u, x.inUse parseFloat = some u → 0 ≤ u) ∧
        (∀ u, x.outUse parseFloat = some u → 0 ≤ u) := by
      intro x hx
      have hv : x.v = ifiRates x.ifi0 x.r x.now := netDevVars_v _ _ _ _ _ x hx
      have h0 := ifiRates_nonneg x.ifi0 x.r x.now
      rw [← hv] at h0
      constructor
      · intro u hu
        unfold NetLineVars.inUse at hu
        split at hu
        · cases hu
        · split_ifs at hu with hp
          cases hu
          unfold inEthUseRate
          exact div_nonneg (mul_nonneg (mul_nonneg h0.1 (by norm_num)) (by norm_num))
            (by positivity)
      · intro u hu
        unfold NetLineVars.outUse at hu
        split at hu
        · cases hu
        · split_ifs at hu with hp
          cases hu
          unfold outEthUseRate
          exact div_nonneg (mul_nonneg (mul_nonneg h0.2 (by norm_num)) (by norm_num))
            (by positivity)
    have hnn_in : ∀ u ∈ (this.passVars parseFloat content probe).filterMap
        (fun x => x.inUse parseFloat), 0 ≤ u := by
      intro u hu
      obtain ⟨x, hx, hxu⟩ := List.mem_filterMap.mp hu
      exact (hnn x hx).1 u hxu
    have hnn_out : ∀ u ∈ (this.passVars parseFloat content probe).filterMap
        (fun x => x.outUse parseFloat), 0 ≤ u := by
      intro u hu
      obtain ⟨x, hx, hxu⟩ := List.mem_filterMap.mp hu
      exact (hnn x hx).2 u hxu
    obtain ⟨a1, a2, a3⟩ := foldl_max_zero _ hnn_in
    obtain ⟨b1, b2, b3⟩ := foldl_max_zero _ hnn_out
    rw [hin0, hout0]
    exact ⟨a1, a2, a3, b1, b2, b3⟩

/-- C2, at `eth0` going from 0 to 125000 received bytes in one second on a link of
1000 Mb/s: `RecvByteAvg = 125000`, and after the pass `EthInMaxUseRate` is
`125000 * 8 * 100 / (1000 * 1024 * 1024)`. -/
theorem net_byte_rate_and_link_use_witness :
    (∃ q, (netDevLine parseFloatDigits (eth0Loop 100) eth0LineB (probeGigabit 101)).net.IfiMap.get?
        "eth0" = some q ∧ q.RecvByteAvg = 125000) ∧
    ((netEmpty.Collect parseFloatDigits eth0LineZero fun _ => probeGigabit 100).Collect
        parseFloatDigits eth0LineB fun _ => probeGigabit 101).EthInMaxUseRate
      = 125000 * 8 * 100 / (1000 * 1024 * 1024) := by
  obtain ⟨hrate, -, hmax⟩ := net_byte_rate_and_link_use parseFloatDigits
  constructor
  · obtain ⟨q, hq, hrecv, -⟩ :=
      hrate (eth0Loop 100) eth0LineB (probeGigabit 101) "eth0"
        { recvByte := 125000, recvPkg := 100, recvErr := 0, sendByte := 0, sendPkg := 0,
          sendErr := 0 }
        ["192.168.1.5/24"] (eth0At 100) (by decide) rfl (by decide) (by decide) rfl
        (by decide) (by decide) (by decide) (by decide)
    refine ⟨q, hq, ?_⟩
    rw [hrecv]; decide!
  · decide!

/-- C7 (amended). For an interface with stored `Last != 0` read at a later clock, a byte
or packet counter smaller than its stored value gives the rate
`(current + 2 ^ 64 - stored) / (now - Last)`, from the wrapped `uint64` difference, and
this rate is positive; an error counter smaller than its stored value gives the error
rate `(current + 2 ^ 64 - stored) / (packet difference)` when the `uint64` packet
difference is not 0.  `InitNetWorkInfo` has no reset detection. -/
theorem net_counter_decrease (parseFloat : String → Option ℚ) (st : NetLoop) (line : String)
    (w : NetProbe) (ethname : String) (r : NetReading) (addrs : List String) (ifi : Ifi)
    (hline : parseNetDevLine line = some (ethname, r)) (haddrs : w.addrs = some addrs)
    (hne : addrs ≠ []) (hmoni : moniTag addrs = true)
    (hget : st.net.IfiMap.get? ethname = some ifi)
    (hL0 : ifi.Last ≠ 0) (hL : 0 ≤ ifi.Last) (hnow : ifi.Last < w.now)
    (hrange : w.now < 2 ^ 63) :
    ∃ q, (netDevLine parseFloat st line w).net.IfiMap.get? ethname = some q ∧
      (r.recvByte < ifi.RecvByte → ifi.RecvByte < 2 ^ 64 →
        q.RecvByteAvg = ((r.recvByte : ℚ) + 2 ^ 64 - (ifi.RecvByte : ℚ))
          / ((w.now : ℚ) - (ifi.Last : ℚ)) ∧ 0 < q.RecvByteAvg) ∧
      (r.sendByte < ifi.SendByte → ifi.SendByte < 2 ^ 64 →
        q.SendByteAvg = ((r.sendByte : ℚ) + 2 ^ 64 - (ifi.SendByte : ℚ))
          / ((w.now : ℚ) - (ifi.Last : ℚ)) ∧ 0 < q.SendByteAvg) ∧
      (r.recvPkg < ifi.RecvPkg → ifi.RecvPkg < 2 ^ 64 →
        q.RecvPkgAvg = ((r.recvPkg : ℚ) + 2 ^ 64 - (ifi.RecvPkg : ℚ))
          / ((w.now : ℚ) - (ifi.Last : ℚ)) ∧ 0 < q.RecvPkgAvg) ∧
      (r.sendPkg < ifi.SendPkg → ifi.SendPkg < 2 ^ 64 →
        q.SendPkgAvg = ((r.sendPkg : ℚ) + 2 ^ 64 - (ifi.SendPkg : ℚ))
          / ((w.now : ℚ) - (ifi.Last : ℚ)) ∧ 0 < q.SendPkgAvg) ∧
      (r.recvErr < ifi.RecvErr → ifi.RecvErr < 2 ^ 64 → subUint64 r.recvPkg ifi.RecvPkg ≠ 0 →
        q.RecvErrRate = ((r.recvErr : ℚ) + 2 ^ 64 - (ifi.RecvErr : ℚ))
          / ((subUint64 r.recvPkg ifi.RecvPkg : Nat) : ℚ) ∧ 0 < q.RecvErrRate) ∧
      (r.sendErr < ifi.SendErr → ifi.SendErr < 2 ^ 64 → subUint64 r.sendPkg ifi.SendPkg ≠ 0 →
        q.SendErrRate = ((r.sendErr : ℚ) + 2 ^ 64 - (ifi.SendErr : ℚ))
          / ((subUint64 r.sendPkg ifi.SendPkg : Nat) : ℚ) ∧ 0 < q.SendErrRate) := by
  obtain ⟨q, hq, h1, h2, h3, h4, h5, h6⟩ :=
    netDevLine_get? parseFloat st line w ethname r addrs ifi hline haddrs hne hmoni hget
  have hd : ((subInt64 w.now ifi.Last : Int) : ℚ) = (w.now : ℚ) - (ifi.Last : ℚ) := by
    rw [subInt64_clock hL hnow hrange]; push_cast; ring
  have hpos : (0 : ℚ) < (w.now : ℚ) - (ifi.Last : ℚ) := by
    have : (ifi.Last : ℚ) < (w.now : ℚ) := by exact_mod_cast hnow
    linarith
  have wrap : ∀ a b : Nat, a < b → b < 2 ^ 64 →
      ((subUint64 a b : Nat) : ℚ) = (a : ℚ) + 2 ^ 64 - (b : ℚ) ∧
        (0 : ℚ) < ((subUint64 a b : Nat) : ℚ) := by
    intro a b hab hb
    have e : subUint64 a b = a + 2 ^ 64 - b := by unfold subUint64; omega
    have hle : b ≤ a + 2 ^ 64 := by omega
    have hp : 0 < subUint64 a b := by rw [e]; omega
    refine ⟨?_, by exact_mod_cast hp⟩
    rw [e, Nat.cast_sub hle]; push_cast; ring
  have hv1 : (ifiRates ifi r w.now).recvByteAvg
      = ((subUint64 r.recvByte ifi.RecvByte : Nat) : ℚ) / ((w.now : ℚ) - (ifi.Last : ℚ)) := by
    simp [ifiRates, hL0, hd, hpos]
  have hv2 : (ifiRates ifi r w.now).sendByteAvg
      = ((subUint64 r.sendByte ifi.SendByte : Nat) : ℚ) / ((w.now : ℚ) - (ifi.Last : ℚ)) := by
    simp [ifiRates, hL0, hd, hpos]
  have hv3 : (ifiRates ifi r w.now).recvPkgAvg
      = ((subUint64 r.recvPkg ifi.RecvPkg : Nat) : ℚ) / ((w.now : ℚ) - (ifi.Last : ℚ)) := by
    simp [ifiRates, hL0, hd, hpos]
  have hv4 : (ifiRates ifi r w.now).sendPkgAvg
      = ((subUint64 r.sendPkg ifi.SendPkg : Nat) : ℚ) / ((w.now : ℚ) - (ifi.Last : ℚ)) := by
    simp [ifiRates, hL0, hd, hpos]
  have hv5 : subUint64 r.recvPkg ifi.RecvPkg ≠ 0 → (ifiRates ifi r w.now).recvErrRate
      = ((subUint64 r.recvErr ifi.RecvErr : Nat) : ℚ)
        / ((subUint64 r.recvPkg ifi.RecvPkg : Nat) : ℚ) := by
    intro hp
    have hp2 : 0 < subUint64 r.recvPkg ifi.RecvPkg := Nat.pos_of_ne_zero hp
    simp [ifiRates, hL0, hd, hpos, hp2]
  have hv6 : subUint64 r.sendPkg ifi.SendPkg ≠ 0 → (ifiRates ifi r w.now).sendErrRate
      = ((subUint64 r.sendErr ifi.SendErr : Nat) : ℚ)
        / ((subUint64 r.sendPkg ifi.SendPkg : Nat) : ℚ) := by
    intro hp
    have hp2 : 0 < subUint64 r.sendPkg ifi.SendPkg := Nat.pos_of_ne_zero hp
    simp [ifiRates, hL0, hd, hpos, hp2]
  refine ⟨q, hq, ?_, ?_, ?_, ?_, ?_, ?_⟩
  · intro hlt hb
    obtain ⟨e, p⟩ := wrap _ _ hlt hb
    rw [h1, hv1]
    exact ⟨by rw [e], div_pos p hpos⟩
  · intro hlt hb
    obtain ⟨e, p⟩ := wrap _ _ hlt hb
    rw [h2, hv2]
    exact ⟨by rw [e], div_pos p hpos⟩
  · intro hlt hb
    obtain ⟨e, p⟩ := wrap _ _ hlt hb
    rw [h3, hv3]
    exact ⟨by rw [e], div_pos p hpos⟩
  · intro hlt hb
    obtain ⟨e, p⟩ := wrap _ _ hlt hb
    rw [h4, hv4]
    exact ⟨by rw [e], div_pos p hpos⟩
  · intro hlt hb hp
    obtain ⟨e, p⟩ := wrap _ _ hlt hb
    have hp2 : (0 : ℚ) < ((subUint64 r.recvPkg ifi.RecvPkg : Nat) : ℚ) := by
      exact_mod_cast Nat.pos_of_ne_zero hp
    rw [h5, hv5 hp]
    exact ⟨by rw [e], div_pos p hp2⟩
  · intro hlt hb hp
    obtain ⟨e, p⟩ := wrap _ _ hlt hb
    have hp2 : (0 : ℚ) < ((subUint64 r.sendPkg ifi.SendPkg : Nat) : ℚ) := by
      exact_mod_cast Nat.pos_of_ne_zero hp
    rw [h6, hv6 hp]
    exact ⟨by rw [e], div_pos p hp2⟩

/-- C7, at `eth0` with 125000 received bytes stored at clock 100 and read at clock 101
with 0 received bytes: the stored rate is `2 ^ 64 - 125000`. -/
theorem net_counter_decrease_witness :
    ∃ q, (netDevLine parseFloatDigits
        { net := { netEmpty with
                   IfiMap := [("eth0", { eth0At 100 with RecvByte := 125000 })],
                   IfiNames := ["eth0"] },
          divisors := [] } eth0LineZero (probeGigabit 101)).net.IfiMap.get? "eth0" = some q ∧
      q.RecvByteAvg = 2 ^ 64 - 125000 ∧ 0 < q.RecvByteAvg := by
  obtain ⟨q, hq, hrecv, -⟩ :=
    net_counter_decrease parseFloatDigits
      { net := { netEmpty with
                 IfiMap := [("eth0", { eth0At 100 with RecvByte := 125000 })],
                 IfiNames := ["eth0"] },
        divisors := [] } eth0LineZero (probeGigabit 101) "eth0"
      { recvByte := 0, recvPkg := 0, recvErr := 0, sendByte := 0, sendPkg := 0, sendErr := 0 }
      ["192.168.1.5/24"] { eth0At 100 with RecvByte := 125000 } (by decide) rfl (by decide)
      (by decide) rfl (by decide) (by decide) (by decide) (by decide)
  obtain ⟨hval, hpos⟩ := hrecv (by decide) (by decide)
  refine ⟨q, hq, ?_, hpos⟩
  rw [hval]; decide!

/-- C7 as stated fails: `eth0` is read at clock 100 with 125000 received bytes and at
clock 101 with 0 received bytes (a counter reset); the stored `RecvByteAvg` is the
wrapped difference `2 ^ 64 - 125000`, not 0, and it enters `RecvByteSum`. -/
theorem net_counter_reset_wraps :
    (((netEmpty.Collect parseFloatDigits eth0LineB fun _ => probeGigabit 100).Collect
        parseFloatDigits eth0LineZero fun _ => probeGigabit 101).IfiMap.get? "eth0").map
      (fun q => (q.RecvByte, q.Last, q.RecvByteAvg))
      = some (0, 101, 18446744073709426616) ∧
    ((netEmpty.Collect parseFloatDigits eth0LineB fun _ => probeGigabit 100).Collect
        parseFloatDigits eth0LineZero fun _ => probeGigabit 101).RecvByteSum
      = 18446744073709426616 ∧
    (18446744073709426616 : ℚ) = 2 ^ 64 - 125000 ∧ (18446744073709426616 : ℚ) ≠ 0 := by
  refine ⟨by decide!, by decide!, by norm_num, by norm_num⟩

/-- C9. For an interface of the history with stored `Last != 0` read at `now <= Last`
(clock readings being non-negative `int64`), the rate computation of
`InitNetWorkInfo` divides by nothing and the line stores 0 in the six rates, whatever
the counters. -/
theorem net_nonpositive_elapsed (parseFloat : String → Option ℚ) (st : NetLoop)
    (line : String) (w : NetProbe) (ethname : String) (r : NetReading) (addrs : List String)
    (ifi : Ifi)
    (hline : parseNetDevLine line = some (ethname, r)) (haddrs : w.addrs = some addrs)
    (hne : addrs ≠ []) (hmoni : moniTag addrs = true)
    (hget : st.net.IfiMap.get? ethname = some ifi)
    (hL0 : ifi.Last ≠ 0) (hnow0 : 0 ≤ w.now) (hnow : w.now ≤ ifi.Last)
    (hrange : ifi.Last < 2 ^ 63) :
    (ifiRates ifi r w.now).divisors = [] ∧
    ∃ q, (netDevLine parseFloat st line w).net.IfiMap.get? ethname = some q ∧
      q.RecvByteAvg = 0 ∧ q.SendByteAvg = 0 ∧ q.RecvPkgAvg = 0 ∧ q.SendPkgAvg = 0 ∧
      q.RecvErrRate = 0 ∧ q.SendErrRate = 0 := by
  obtain ⟨q, hq, h1, h2, h3, h4, h5, h6⟩ :=
    netDevLine_get? parseFloat st line w ethname r addrs ifi hline haddrs hne hmoni hget
  have hd : ¬ ((subInt64 w.now ifi.Last : Int) : ℚ) > 0 := by
    have h := subInt64_clock_nonpos hnow0 hnow hrange
    have : ((subInt64 w.now ifi.Last : Int) : ℚ) ≤ 0 := by exact_mod_cast h
    linarith
  have hz : ifiRates ifi r w.now
      = { recvByteAvg := 0, recvPkgAvg := 0, recvErrRate := 0, sendByteAvg := 0,
          sendPkgAvg := 0, sendErrRate := 0, divisors := [] } := by
    simp only [ifiRates, hL0, hd, if_false]
  rw [hz] at h1 h2 h3 h4 h5 h6
  exact ⟨by rw [hz], q, hq, h1, h2, h3, h4, h5, h6⟩

/-- C9, at `eth0` with a baseline and rates stored at clock 100, read again at clock
100 with 125000 more bytes: the six rates are 0. -/
theorem net_nonpositive_elapsed_witness :
    ∃ q, (netDevLine parseFloatDigits
        { net := { netEmpty with
                   IfiMap := [("eth0", { eth0At 100 with RecvByteAvg := 7, RecvErrRate := 1 })],
                   IfiNames := ["eth0"] },
          divisors := [] } eth0LineB (probeGigabit 100)).net.IfiMap.get? "eth0" = some q ∧
      q.RecvByteAvg = 0 ∧ q.SendByteAvg = 0 ∧ q.RecvPkgAvg = 0 ∧ q.SendPkgAvg = 0 ∧
      q.RecvErrRate = 0 ∧ q.SendErrRate = 0 :=
  (net_nonpositive_elapsed parseFloatDigits
    { net := { netEmpty with
               IfiMap := [("eth0", { eth0At 100 with RecvByteAvg := 7, RecvErrRate := 1 })],
               IfiNames := ["eth0"] },
      divisors := [] } eth0LineB (probeGigabit 100) "eth0"
    { recvByte := 125000, recvPkg := 100, recvErr := 0, sendByte := 0, sendPkg := 0,
      sendErr := 0 }
    ["192.168.1.5/24"] { eth0At 100 with RecvByteAvg := 7, RecvErrRate := 1 } (by decide) rfl
    (by decide) (by decide) rfl (by decide) (by decide) (by decide) (by decide)).2

theorem parseNetDevLine_lt {line ethname : String} {r : NetReading}
    (h : parseNetDevLine line = some (ethname, r)) :
    r.recvByte < 2 ^ 64 ∧ r.recvPkg < 2 ^ 64 ∧ r.recvErr < 2 ^ 64 ∧ r.sendByte < 2 ^ 64 ∧
      r.sendPkg < 2 ^ 64 ∧ r.sendErr < 2 ^ 64 := by
  unfold parseNetDevLine at h
  simp only at h
  split_ifs at h
  cases h
  exact ⟨ParseUint_lt _, ParseUint_lt _, ParseUint_lt _, ParseUint_lt _, ParseUint_lt _,
    ParseUint_lt _⟩

/-- The two error rates `ifiRates` computes when the elapsed time is positive. -/
theorem ifiRates_errRate (ifi : Ifi) (r : NetReading) (now : Int) (hL0 : ifi.Last ≠ 0)
    (hpos : (0 : ℚ) < ((subInt64 now ifi.Last : Int) : ℚ)) :
    (ifiRates ifi r now).recvErrRate
      = (if 0 < subUint64 r.recvPkg ifi.RecvPkg then
          ((subUint64 r.recvErr ifi.RecvErr : Nat) : ℚ)
            / ((subUint64 r.recvPkg ifi.RecvPkg : Nat) : ℚ)
        else 0) ∧
    (ifiRates ifi r now).sendErrRate
      = (if 0 < subUint64 r.sendPkg ifi.SendPkg then
          ((subUint64 r.sendErr ifi.SendErr : Nat) : ℚ)
            / ((subUint64 r.sendPkg ifi.SendPkg : Nat) : ℚ)
        else 0) := by
  simp [ifiRates, hL0, hpos]

/-- C11. For an interface of the history with stored `Last != 0` read at `now > Last`
(clock readings being non-negative `int64`) with packet and error counters not below
the stored ones, `InitNetWorkInfo` stores `RecvErrRate = (recvErr - stored RecvErr) /
(recvPkg - stored RecvPkg)` when the packet counter has grown and 0 when it has not, and
`SendErrRate` likewise on the send counters. -/
theorem net_error_rate (parseFloat : String → Option ℚ) (st : NetLoop) (line : String)
    (w : NetProbe) (ethname : String) (r : NetReading) (addrs : List String) (ifi : Ifi)
    (hline : parseNetDevLine line = some (ethname, r)) (haddrs : w.addrs = some addrs)
    (hne : addrs ≠ []) (hmoni : moniTag addrs = true)
    (hget : st.net.IfiMap.get? ethname = some ifi)
    (hL0 : ifi.Last ≠ 0) (hL : 0 ≤ ifi.Last) (hnow : ifi.Last < w.now)
    (hrange : w.now < 2 ^ 63)
    (hrp : ifi.RecvPkg ≤ r.recvPkg) (hre : ifi.RecvErr ≤ r.recvErr)
    (hsp : ifi.SendPkg ≤ r.sendPkg) (hse : ifi.SendErr ≤ r.sendErr) :
    ∃ q, (netDevLine parseFloat st line w).net.IfiMap.get? ethname = some q ∧
      (ifi.RecvPkg < r.recvPkg →
        q.RecvErrRate = ((r.recvErr : ℚ) - (ifi.RecvErr : ℚ))
          / ((r.recvPkg : ℚ) - (ifi.RecvPkg : ℚ))) ∧
      (r.recvPkg = ifi.RecvPkg → q.RecvErrRate = 0) ∧
      (ifi.SendPkg < r.sendPkg →
        q.SendErrRate = ((r.sendErr : ℚ) - (ifi.SendErr : ℚ))
          / ((r.sendPkg : ℚ) - (ifi.SendPkg : ℚ))) ∧
      (r.sendPkg = ifi.SendPkg → q.SendErrRate = 0) := by
  obtain ⟨q, hq, -, -, -, -, h5, h6⟩ :=
    netDevLine_get? parseFloat st line w ethname r addrs ifi hline haddrs hne hmoni hget
  obtain ⟨-, hrpl, hrel, -, hspl, hsel⟩ := parseNetDevLine_lt hline
  have hpos : (0 : ℚ) < ((subInt64 w.now ifi.Last : Int) : ℚ) := by
    rw [subInt64_clock hL hnow hrange]
    have : ifi.Last < w.now := hnow
    exact_mod_cast (by omega : (0 : Int) < w.now - ifi.Last)
  obtain ⟨e1, e2⟩ := ifiRates_errRate ifi r w.now hL0 hpos
  rw [e1] at h5
  rw [e2] at h6
  rw [subUint64_of_le hrp hrpl, subUint64_of_le hre hrel] at h5
  rw [subUint64_of_le hsp hspl, subUint64_of_le hse hsel] at h6
  refine ⟨q, hq, ?_, ?_, ?_, ?_⟩
  · intro hlt
    rw [h5, if_pos (by omega), Nat.cast_sub hre, Nat.cast_sub hrp]
  · intro heq
    rw [h5, if_neg (by omega)]
  · intro hlt
    rw [h6, if_pos (by omega), Nat.cast_sub hse, Nat.cast_sub hsp]
  · intro heq
    rw [h6, if_neg (by omega)]

/-- C11, at `eth0` going from zero counters at clock 100 to 100 packets and 1 error
received, 200 packets and 4 errors sent at clock 101: the error rates are `1 / 100` and
`4 / 200`. -/
theorem net_error_rate_witness :
    ∃ q, (netDevLine parseFloatDigits (eth0Loop 100) eth0LineErr (probeGigabit 101)).net.IfiMap.get?
        "eth0" = some q ∧ q.RecvErrRate = 1 / 100 ∧ q.SendErrRate = 1 / 50 := by
  obtain ⟨q, hq, hrecv, -, hsend, -⟩ :=
    net_error_rate parseFloatDigits (eth0Loop 100) eth0LineErr (probeGigabit 101) "eth0"
      { recvByte := 5000, recvPkg := 100, recvErr := 1, sendByte := 9000, sendPkg := 200,
        sendErr := 4 }
      ["192.168.1.5/24"] (eth0At 100) (by decide) rfl (by decide) (by decide) rfl
      (by decide) (by decide) (by decide) (by decide) (by decide) (by decide) (by decide)
      (by decide)
  refine ⟨q, hq, ?_, ?_⟩
  · rw [hrecv (by decide)]; decide!
  · rw [hsend (by decide)]; decide!

/-- C12 (amended). For an interface of the history with stored `Last != 0` read at
`now > Last` (clock readings being non-negative `int64`), when the `uint64` packet
difference is positive the stored `RecvErrRate` is the error difference over the
packet difference, a ratio that is not multiplied by 100; `SendErrRate` likewise. -/
theorem net_error_rate_is_ratio (parseFloat : String → Option ℚ) (st : NetLoop)
    (line : String) (w : NetProbe) (ethname : String) (r : NetReading) (addrs : List String)
    (ifi : Ifi)
    (hline : parseNetDevLine line = some (ethname, r)) (haddrs : w.addrs = some addrs)
    (hne : addrs ≠ []) (hmoni : moniTag addrs = true)
    (hget : st.net.IfiMap.get? ethname = some ifi)
    (hL0 : ifi.Last ≠ 0) (hL : 0 ≤ ifi.Last) (hnow : ifi.Last < w.now)
    (hrange : w.now < 2 ^ 63) :
    ∃ q, (netDevLine parseFloat st line w).net.IfiMap.get? ethname = some q ∧
      (0 < subUint64 r.recvPkg ifi.RecvPkg →
        q.RecvErrRate = ((subUint64 r.recvErr ifi.RecvErr : Nat) : ℚ)
          / ((subUint64 r.recvPkg ifi.RecvPkg : Nat) : ℚ) ∧
        (q.RecvErrRate = ((subUint64 r.recvErr ifi.RecvErr : Nat) : ℚ)
          / ((subUint64 r.recvPkg ifi.RecvPkg : Nat) : ℚ) * 100 →
          subUint64 r.recvErr ifi.RecvErr = 0)) ∧
      (0 < subUint64 r.sendPkg ifi.SendPkg →
        q.SendErrRate = ((subUint64 r.sendErr ifi.SendErr : Nat) : ℚ)
          / ((subUint64 r.sendPkg ifi.SendPkg : Nat) : ℚ) ∧
        (q.SendErrRate = ((subUint64 r.sendErr ifi.SendErr : Nat) : ℚ)
          / ((subUint64 r.sendPkg ifi.SendPkg : Nat) : ℚ) * 100 →
          subUint64 r.sendErr ifi.SendErr = 0)) := by
  obtain ⟨q, hq, -, -, -, -, h5, h6⟩ :=
    netDevLine_get? parseFloat st line w ethname r addrs ifi hline haddrs hne hmoni hget
  have hpos : (0 : ℚ) < ((subInt64 w.now ifi.Last : Int) : ℚ) := by
    rw [subInt64_clock hL hnow hrange]
    exact_mod_cast (by omega : (0 : Int) < w.now - ifi.Last)
  obtain ⟨e1, e2⟩ := ifiRates_errRate ifi r w.now hL0 hpos
  rw [e1] at h5
  rw [e2] at h6
  have key : ∀ e p : Nat, 0 < p → ((e : ℚ) / (p : ℚ) = (e : ℚ) / (p : ℚ) * 100 → e = 0) := by
    intro e p hp h
    have hp' : (0 : ℚ) < (p : ℚ) := by exact_mod_cast hp
    have h2 : (e : ℚ) / (p : ℚ) = 0 := by linarith
    rcases div_eq_zero_iff.mp h2 with h3 | h3
    · exact_mod_cast h3
    · exact absurd h3 (ne_of_gt hp')
  refine ⟨q, hq, ?_, ?_⟩
  · intro hp
    rw [if_pos hp] at h5
    refine ⟨h5, fun h => key _ _ hp ?_⟩
    rw [h5] at h; exact h
  · intro hp
    rw [if_pos hp] at h6
    refine ⟨h6, fun h => key _ _ hp ?_⟩
    rw [h6] at h; exact h

/-- C12, at `eth0` going from zero counters at clock 100 to 100 packets and 1 error
received at clock 101: the stored rate is `1 / 100`. -/
theorem net_error_rate_is_ratio_witness :
    ∃ q, (netDevLine parseFloatDigits (eth0Loop 100) eth0LineErr (probeGigabit 101)).net.IfiMap.get?
        "eth0" = some q ∧ q.RecvErrRate = 1 / 100 := by
  obtain ⟨q, hq, hrecv, -⟩ :=
    net_error_rate_is_ratio parseFloatDigits (eth0Loop 100) eth0LineErr (probeGigabit 101)
      "eth0"
      { recvByte := 5000, recvPkg := 100, recvErr := 1, sendByte := 9000, sendPkg := 200,
        sendErr := 4 }
      ["192.168.1.5/24"] (eth0At 100) (by decide) rfl (by decide) (by decide) rfl
      (by decide) (by decide) (by decide) (by decide)
  refine ⟨q, hq, ?_⟩
  rw [(hrecv (by decide)).1]; decide!

/-- C12 as stated fails: `eth0` is read with zero counters at clock 100 and with 100
packets and 1 error received at clock 101; the stored `RecvErrRate` is `1 / 100`, not
`1 / 100 * 100 = 1`, and `SendErrRate` is `4 / 200`, not `4 / 200 * 100 = 2`.  On a
first pass that reads 100 packets and 1 error the stored rate is 0. -/
theorem net_error_rate_not_percent :
    ((netEmpty.Collect parseFloatDigits eth0LineErr fun _ => probeGigabit 100).IfiMap.get?
        "eth0").map (fun q => (q.RecvPkg, q.RecvErr, q.RecvErrRate)) = some (100, 1, 0) ∧
    (((netEmpty.Collect parseFloatDigits eth0LineZero fun _ => probeGigabit 100).Collect
        parseFloatDigits eth0LineErr fun _ => probeGigabit 101).IfiMap.get? "eth0").map
      (fun q => (q.RecvPkg, q.RecvErr, q.RecvErrRate, q.SendErrRate))
      = some (100, 1, 1 / 100, 4 / 200) ∧
    (1 : ℚ) / 100 ≠ 1 / 100 * 100 ∧ (4 : ℚ) / 200 ≠ 4 / 200 * 100 := by
  refine ⟨by decide!, by decide!, by norm_num, by norm_num⟩

/-- The `int64` expression `rio - parti.Rio + wio - parti.Wio` of line 231 is the
wrapped sum of the two differences. -/
theorem diffio_eq (a b c d : Int) :
    subInt64 (addInt64 (subInt64 a b) c) d = wrapInt64 ((a - b) + (c - d)) := by
  unfold subInt64 addInt64 wrapInt64
  omega

/-- The `int64` expression `x + y - parti.X - parti.Y` of lines 233-234 is the wrapped
sum of the two differences. -/
theorem diffsum_eq (a b c d : Int) :
    subInt64 (subInt64 (addInt64 a b) c) d = wrapInt64 ((a - c) + (b - d)) := by
  unfold subInt64 addInt64 wrapInt64
  omega

/-- C13. On a reading of a partition that has a baseline (stored `Last > 0`), with
`diffio` the `int64` value of `(rio - stored Rio) + (wio - stored Wio)`: if `diffio > 0`
then `ReqSz`, `AwaitElapsed` and `ServeElapsed` are the sector, time and I/O time
differences over `diffio`; otherwise all three are set to 0.  The denominators the line
divides by are the elapsed time when it is positive and `diffio` when it is positive:
nothing is divided by a `diffio <= 0`. -/
theorem disk_composite_metrics (m : GoMap Partition) (acc : IoStatLocals) (line : String)
    (now : Int) (name : String) (r : DiskReading) (p : Partition)
    (hline : parseDiskstatsLine line = some (name, r)) (hp : m.get? name = some p)
    (hLast : 0 < p.Last) :
    ∃ q, (ioStatLine (m, acc) line now).1.get? name = some q ∧
      (0 < wrapInt64 ((r.rio - p.Rio) + (r.wio - p.Wio)) →
        q.ReqSz = ((wrapInt64 ((r.rsect - p.Rsect) + (r.wsect - p.Wsect)) : Int) : ℚ)
          / ((wrapInt64 ((r.rio - p.Rio) + (r.wio - p.Wio)) : Int) : ℚ) ∧
        q.AwaitElapsed
          = ((wrapInt64 ((r.relapsed - p.Relapsed) + (r.welapsed - p.Welapsed)) : Int) : ℚ)
            / ((wrapInt64 ((r.rio - p.Rio) + (r.wio - p.Wio)) : Int) : ℚ) ∧
        q.ServeElapsed = ((subInt64 r.elapsed p.Elapsed : Int) : ℚ)
          / ((wrapInt64 ((r.rio - p.Rio) + (r.wio - p.Wio)) : Int) : ℚ)) ∧
      (wrapInt64 ((r.rio - p.Rio) + (r.wio - p.Wio)) ≤ 0 →
        q.ReqSz = 0 ∧ q.AwaitElapsed = 0 ∧ q.ServeElapsed = 0) ∧
      (ioStatLine (m, acc) line now).2.divisors
        = acc.divisors
          ++ (if 0 < subInt64 now p.Last then [((subInt64 now p.Last : Int) : ℚ)] else [])
          ++ (if 0 < wrapInt64 ((r.rio - p.Rio) + (r.wio - p.Wio)) then
                [((wrapInt64 ((r.rio - p.Rio) + (r.wio - p.Wio)) : Int) : ℚ)]
              else []) := by
  have hL : ¬ p.Last ≤ 0 := by omega
  have hline2 : (ioStatLine (m, acc) line now).2 = (ioStatEntry p acc name r now).2 := by
    simp [ioStatLine, hline, hp]
  refine ⟨_, ioStatLine_get? m acc line now name r p hline hp, ?_, ?_, ?_⟩
  · intro hpos
    have hq : (0 : ℚ) < ((wrapInt64 ((r.rio - p.Rio) + (r.wio - p.Wio)) : Int) : ℚ) := by
      exact_mod_cast hpos
    simp only [ioStatEntry, hL, if_false, ioStatRates, ioStatComposite, ioStatStore,
      diffio_eq, diffsum_eq]
    split_ifs <;> simp [hq]
  · intro hle
    have hq : ¬ (0 : ℚ) < ((wrapInt64 ((r.rio - p.Rio) + (r.wio - p.Wio)) : Int) : ℚ) := by
      have : ((wrapInt64 ((r.rio - p.Rio) + (r.wio - p.Wio)) : Int) : ℚ) ≤ 0 := by
        exact_mod_cast hle
      linarith
    simp only [ioStatEntry, hL, if_false, ioStatRates, ioStatComposite, ioStatStore,
      diffio_eq, diffsum_eq]
    split_ifs <;> simp [hq]
  · rw [hline2]
    simp only [ioStatEntry, hL, if_false, ioStatRates, ioStatComposite, ioStatStore,
      diffio_eq, diffsum_eq, gt_iff_lt, Int.cast_pos]
    split_ifs <;> simp

/-- C13, at `sda1` with the baseline (1000 reads, 20000 sectors, 500 ms) taken at clock
100: read at clock 110 with (1100, 22000, 600) the request size is `2000 / 100 = 20`
sectors and the service time `100 / 100 = 1` ms; read with unchanged counters the three
metrics are 0 and the only denominator is the elapsed time. -/
theorem disk_composite_metrics_witness :
    (∃ q, (ioStatLine ([("sda1", sda1At 100)], IoStatLocals.init) sda1LineB 110).1.get? "sda1"
        = some q ∧ q.ReqSz = 20 ∧ q.AwaitElapsed = 0 ∧ q.ServeElapsed = 1) ∧
    (∃ q, (ioStatLine ([("sda1", sda1At 100)], IoStatLocals.init) sda1LineA 110).1.get? "sda1"
        = some q ∧ q.ReqSz = 0 ∧ q.AwaitElapsed = 0 ∧ q.ServeElapsed = 0) ∧
    (ioStatLine ([("sda1", sda1At 100)], IoStatLocals.init) sda1LineA 110).2.divisors = [10] := by
  obtain ⟨q, hq, hposB, -, -⟩ :=
    disk_composite_metrics [("sda1", sda1At 100)] IoStatLocals.init sda1LineB 110 "sda1"
      sda1ReadingB (sda1At 100) (by decide) rfl (by decide)
  obtain ⟨q0, hq0, -, hzero, hdiv⟩ :=
    disk_composite_metrics [("sda1", sda1At 100)] IoStatLocals.init sda1LineA 110 "sda1"
      sda1ReadingA (sda1At 100) (by decide) rfl (by decide)
  obtain ⟨h1, h2, h3⟩ := hposB (by decide)
  refine ⟨⟨q, hq, ?_, ?_, ?_⟩, ⟨q0, hq0, hzero (by decide)⟩, ?_⟩
  · rw [h1]; decide!
  · rw [h2]; decide!
  · rw [h3]; decide!
  · rw [hdiv]; decide!

/-- In every branch, the loop body of `InitIoStat` ends by storing the counters of the
reading and the clock. -/
theorem ioStatEntry_baseline (p : Partition) (acc : IoStatLocals) (name : String)
    (r : DiskReading) (now : Int) :
    (ioStatEntry p acc name r now).1.Rio = r.rio ∧
    (ioStatEntry p acc name r now).1.Rmerge = r.rmerge ∧
    (ioStatEntry p acc name r now).1.Rsect = r.rsect ∧
    (ioStatEntry p acc name r now).1.Relapsed = r.relapsed ∧
    (ioStatEntry p acc name r now).1.Wio = r.wio ∧
    (ioStatEntry p acc name r now).1.Wmerge = r.wmerge ∧
    (ioStatEntry p acc name r now).1.Wsect = r.wsect ∧
    (ioStatEntry p acc name r now).1.Welapsed = r.welapsed ∧
    (ioStatEntry p acc name r now).1.Elapsed = r.elapsed ∧
    (ioStatEntry p acc name r now).1.Aveq = r.aveq ∧
    (ioStatEntry p acc name r now).1.Last = now := by
  unfold ioStatEntry
  split_ifs <;> simp [ioStatStore]

/-- A line of `/proc/diskstats` removes no key of the map. -/
theorem ioStatLine_get?_isSome (st : GoMap Partition × IoStatLocals) (line : String)
    (now : Int) (name : String) (h : (st.1.get? name).isSome = true) :
    ((ioStatLine st line now).1.get? name).isSome = true := by
  unfold ioStatLine
  cases hP : parseDiskstatsLine line with
  | none => exact h
  | some nr =>
    obtain ⟨n, r⟩ := nr
    cases hG : st.1.get? n with
    | none => simpa [hG] using h
    | some parti =>
      simp only [hG]
      by_cases hn : n = name
      · subst hn
        rw [GoMap.get?_set_self]
        rfl
      · rw [GoMap.get?_set_of_ne _ _ _ _ hn]
        exact h

/-- The loop of `InitIoStat` removes no key of the map. -/
theorem ioStatLoop_get?_isSome (clock : Nat → Int) (lines : List String) (i : Nat)
    (st : GoMap Partition × IoStatLocals) (name : String)
    (h : (st.1.get? name).isSome = true) :
    ((ioStatLoop clock lines i st).1.get? name).isSome = true := by
  induction lines generalizing i st with
  | nil => exact h
  | cons line rest ih =>
    simp only [ioStatLoop]
    exact ih _ _ (ioStatLine_get?_isSome st line (clock i) name h)

/-- C14. For every partition of the history that is read in a `/proc/diskstats` pass,
whatever its stored fields, the counters read and the clock (so in every branch:
first reading, positive elapsed time, non-positive elapsed time, decreased counters),
after `InitIoStat` its ten stored counters and `Last` are those of the reading, that is
of the last line of the pass that reads it. -/
theorem disk_baseline_replaced (d : DiskIO) (content : String) (clock : Nat → Int)
    (pre post : List String) (line name : String) (r : DiskReading) (p : Partition)
    (hsplit : readLines content = pre ++ line :: post)
    (hline : parseDiskstatsLine line = some (name, r))
    (hpost : ∀ l ∈ post, ∀ r1, parseDiskstatsLine l ≠ some (name, r1))
    (hp : d.PartiMap.get? name = some p) :
    ∃ q, (d.InitIoStat content clock).PartiMap.get? name = some q ∧
      q.Rio = r.rio ∧ q.Rmerge = r.rmerge ∧ q.Rsect = r.rsect ∧ q.Relapsed = r.relapsed ∧
      q.Wio = r.wio ∧ q.Wmerge = r.wmerge ∧ q.Wsect = r.wsect ∧ q.Welapsed = r.welapsed ∧
      q.Elapsed = r.elapsed ∧ q.Aveq = r.aveq ∧ q.Last = clock pre.length := by
  have hsome : ((ioStatLoop clock pre 0 (d.PartiMap, IoStatLocals.init)).1.get? name).isSome
      = true :=
    ioStatLoop_get?_isSome clock pre 0 _ name (by simp [hp])
  obtain ⟨p1, hp1⟩ := Option.isSome_iff_exists.mp hsome
  rw [InitIoStat_get?_last d content clock pre post line name hsplit hpost]
  refine ⟨_, ioStatLine_get? _ _ line (clock pre.length) name r p1 hline hp1, ?_⟩
  exact ioStatEntry_baseline p1 _ name r (clock pre.length)

/-- C14, at `sda1` with a baseline, read as second line of a pass at clock 7: the
stored counters are (1100, 22000, 600) and `Last` is 7, although the clock is not
later than the stored 100. -/
theorem disk_baseline_replaced_witness :
    readLines diskstatsSdaB
      = ["   8       0 sda 5000 0 90000 0 0 0 0 0 0 900 0\n"] ++ sda1LineB :: [] ∧
    ∃ q, (({ diskEmpty with PartiMap := [("sda1", sda1At 100)], PartiNames := ["sda1"] }
        : DiskIO).InitIoStat diskstatsSdaB fun _ => 7).PartiMap.get? "sda1" = some q ∧
      q.Rio = 1100 ∧ q.Rsect = 22000 ∧ q.Elapsed = 600 ∧ q.Last = 7 := by
  refine ⟨by decide, ?_⟩
  obtain ⟨q, hq, h1, -, h3, -, -, -, -, -, h9, -, h11⟩ :=
    disk_baseline_replaced
      ({ diskEmpty with PartiMap := [("sda1", sda1At 100)], PartiNames := ["sda1"] } : DiskIO)
      diskstatsSdaB (fun _ => 7) ["   8       0 sda 5000 0 90000 0 0 0 0 0 0 900 0\n"] []
      sda1LineB "sda1" sda1ReadingB (sda1At 100) (by decide) (by decide)
      (by intro l hl; simp at hl) rfl
  exact ⟨q, hq, h1, h3, h9, h11⟩

/-! ## Disk partitions: the sums and the busiest partition of a pass -/

/-- The loop body of `InitIoStat` in terms of the local variables of the line. -/
theorem ioStatLine_eq (st : GoMap Partition × IoStatLocals) (line : String) (now : Int) :
    ioStatLine st line now
      = match ioStatLineVars st.1 line now with
        | none => st
        | some x =>
          (st.1.set x.partiName (ioStatEntry x.parti st.2 x.partiName x.r x.now).1,
            (ioStatEntry x.parti st.2 x.partiName x.r x.now).2) := by
  unfold ioStatLine ioStatLineVars
  cases hP : parseDiskstatsLine line with
  | none => rfl
  | some nr =>
    obtain ⟨n, r⟩ := nr
    cases hG : st.1.get? n with
    | none => simp [hG]
    | some parti => simp [hG]

/-- A quantity of the locals that every reading updates by `step` is, after the loop,
the fold of `step` over the readings of the pass. -/
theorem ioStatLoop_fold {σ : Type} (g : IoStatLocals → σ) (step : σ → IoStatLineVars → σ)
    (hstep : ∀ (p : Partition) (acc : IoStatLocals) (n : String) (r : DiskReading) (now : Int),
      g (ioStatEntry p acc n r now).2
        = step (g acc) { partiName := n, parti := p, r := r, now := now })
    (clock : Nat → Int) (lines : List String) (i : Nat) (st : GoMap Partition × IoStatLocals) :
    g (ioStatLoop clock lines i st).2 = (ioStatVars clock lines i st).foldl step (g st.2) := by
  induction lines generalizing i st with
  | nil => rfl
  | cons line rest ih =>
    simp only [ioStatLoop, ioStatVars, List.foldl_append]
    rw [ih]
    congr 1
    rw [ioStatLine_eq]
    cases hV : ioStatLineVars st.1 line (clock i) with
    | none => rfl
    | some x =>
      simp only [Option.toList, List.foldl_cons, List.foldl_nil]
      exact hstep x.parti st.2 x.partiName x.r x.now

/-- A sum of the locals to which every reading adds `c` is, after the loop, its value
before plus the sum of `c` over the readings of the pass. -/
theorem ioStatLoop_sum (f : IoStatLocals → ℚ) (c : IoStatLineVars → ℚ)
    (hstep : ∀ (p : Partition) (acc : IoStatLocals) (n : String) (r : DiskReading) (now : Int),
      f (ioStatEntry p acc n r now).2 = f acc + c { partiName := n, parti := p, r := r, now := now })
    (clock : Nat → Int) (lines : List String) (i : Nat) (st : GoMap Partition × IoStatLocals) :
    f (ioStatLoop clock lines i st).2 = f st.2 + ((ioStatVars clock lines i st).map c).sum := by
  rw [ioStatLoop_fold f (fun s x => s + c x) hstep]
  generalize ioStatVars clock lines i st = l
  generalize f st.2 = a
  induction l generalizing a with
  | nil => simp
  | cons x t ih =>
    simp only [List.foldl_cons, List.map_cons, List.sum_cons]
    rw [ih]
    ring

theorem sum_map_ite {α : Type} (l : List α) (p : α → Bool) (g : α → ℚ) :
    (l.map fun x => if p x = true then g x else 0).sum = ((l.filter p).map g).sum := by
  induction l with
  | nil => rfl
  | cons x t ih =>
    by_cases h : p x = true
    · simp [h, ih]
    · simp [h, ih]

/-- What one reading adds to each of the thirteen sums of `InitIoStat`: the metric it
stores when it computes it, and nothing otherwise. -/
theorem ioStatEntry_sums (p : Partition) (acc : IoStatLocals) (n : String) (r : DiskReading)
    (now : Int) :
    let x : IoStatLineVars := { partiName := n, parti := p, r := r, now := now }
    (ioStatEntry p acc n r now).2.QueueSzSum
      = acc.QueueSzSum + (if x.ratesAdded = true then x.stored.QueueSz else 0) ∧
    (ioStatEntry p acc n r now).2.RkbSum
      = acc.RkbSum + (if x.ratesAdded = true then x.stored.RkbPerSecond else 0) ∧
    (ioStatEntry p acc n r now).2.WkbSum
      = acc.WkbSum + (if x.ratesAdded = true then x.stored.WkbPerSecond else 0) ∧
    (ioStatEntry p acc n r now).2.RmergeSum
      = acc.RmergeSum + (if x.ratesAdded = true then x.stored.RmergePerSecond else 0) ∧
    (ioStatEntry p acc n r now).2.WmergeSum
      = acc.WmergeSum + (if x.ratesAdded = true then x.stored.WmergePerSecond else 0) ∧
    (ioStatEntry p acc n r now).2.RioSum
      = acc.RioSum + (if x.ratesAdded = true then x.stored.RioPerSecond else 0) ∧
    (ioStatEntry p acc n r now).2.WioSum
      = acc.WioSum + (if x.ratesAdded = true then x.stored.WioPerSecond else 0) ∧
    (ioStatEntry p acc n r now).2.RsectSum
      = acc.RsectSum + (if x.ratesAdded = true then x.stored.RsectPerSecond else 0) ∧
    (ioStatEntry p acc n r now).2.WsectSum
      = acc.WsectSum + (if x.ratesAdded = true then x.stored.WsectPerSecond else 0) ∧
    (ioStatEntry p acc n r now).2.ReqRateSum
      = acc.ReqRateSum + (if x.ratesAdded = true then x.stored.ReqRate else 0) ∧
    (ioStatEntry p acc n r now).2.ReqSzSum
      = acc.ReqSzSum + (if x.compositeAdded = true then x.stored.ReqSz else 0) ∧
    (ioStatEntry p acc n r now).2.ServeSum
      = acc.ServeSum + (if x.compositeAdded = true then x.stored.ServeElapsed else 0) ∧
    (ioStatEntry p acc n r now).2.AwaitSum
      = acc.AwaitSum + (if x.compositeAdded = true then x.stored.AwaitElapsed else 0) := by
  intro x
  by_cases hL : p.Last ≤ 0
  · have hL2 : ¬ 0 < p.Last := by omega
    simp [x, ioStatEntry, hL, hL2, IoStatLineVars.ratesAdded, IoStatLineVars.compositeAdded,
      IoStatLineVars.hasBaseline]
  · have hL2 : 0 < p.Last := by omega
    by_cases hd : (0 : ℚ) < ((subInt64 now p.Last : Int) : ℚ)
    · by_cases hio : (0 : ℚ)
          < ((subInt64 (addInt64 (subInt64 r.rio p.Rio) r.wio) p.Wio : Int) : ℚ)
      · simp [x, ioStatEntry, hL, hL2, IoStatLineVars.ratesAdded,
          IoStatLineVars.compositeAdded, IoStatLineVars.hasBaseline, IoStatLineVars.difftime,
          IoStatLineVars.diffio, IoStatLineVars.stored, ioStatRates, ioStatComposite,
          ioStatStore, hd, hio]
      · simp [x, ioStatEntry, hL, hL2, IoStatLineVars.ratesAdded,
          IoStatLineVars.compositeAdded, IoStatLineVars.hasBaseline, IoStatLineVars.difftime,
          IoStatLineVars.diffio, IoStatLineVars.stored, ioStatRates, ioStatComposite,
          ioStatStore, hd, hio]
    · by_cases hio : (0 : ℚ)
          < ((subInt64 (addInt64 (subInt64 r.rio p.Rio) r.wio) p.Wio : Int) : ℚ)
      · simp [x, ioStatEntry, hL, hL2, IoStatLineVars.ratesAdded,
          IoStatLineVars.compositeAdded, IoStatLineVars.hasBaseline, IoStatLineVars.difftime,
          IoStatLineVars.diffio, IoStatLineVars.stored, ioStatRates, ioStatComposite,
          ioStatStore, hd, hio]
      · simp [x, ioStatEntry, hL, hL2, IoStatLineVars.ratesAdded,
          IoStatLineVars.compositeAdded, IoStatLineVars.hasBaseline, IoStatLineVars.difftime,
          IoStatLineVars.diffio, IoStatLineVars.stored, ioStatRates, ioStatComposite,
          ioStatStore, hd, hio]

theorem GoMap.length_set {β : Type} (m : GoMap β) (k : String) (v v0 : β)
    (h : m.get? k = some v0) : (m.set k v).length = m.length := by
  induction m with
  | nil => simp [GoMap.get?] at h
  | cons hd tl ih =>
    obtain ⟨k1, v1⟩ := hd
    by_cases hk : k1 = k
    · simp [GoMap.set, hk]
    · simp only [GoMap.get?, hk, if_false] at h
      simp [GoMap.set, hk, ih h]

/-- The loop of `InitIoStat` keeps the number of entries of the map. -/
theorem ioStatLoop_length (clock : Nat → Int) (lines : List String) (i : Nat)
    (st : GoMap Partition × IoStatLocals) :
    (ioStatLoop clock lines i st).1.length = st.1.length := by
  induction lines generalizing i st with
  | nil => rfl
  | cons line rest ih =>
    simp only [ioStatLoop]
    rw [ih, ioStatLine_eq]
    cases hV : ioStatLineVars st.1 line (clock i) with
    | none => rfl
    | some x =>
      have hx : st.1.get? x.partiName = some x.parti := by
        unfold ioStatLineVars at hV
        split at hV
        · cases hV
        · split at hV
          · cases hV
          · cases hV
            assumption
      exact GoMap.length_set st.1 _ _ _ hx

/-- The averages `InitIoStat` stores when the map is not empty: the sums of the locals
over the number of entries of the map. -/
theorem InitIoStat_averages (d : DiskIO) (content : String) (clock : Nat → Int)
    (hlen : 0 < d.PartiMap.length) :
    let acc := (ioStatLoop clock (readLines content) 0 (d.PartiMap, IoStatLocals.init)).2
    let n : ℚ := ((d.PartiMap.length : Nat) : ℚ)
    (d.InitIoStat content clock).QueueSzAvg = acc.QueueSzSum / n ∧
    (d.InitIoStat content clock).ReqSzAvg = acc.ReqSzSum / n ∧
    (d.InitIoStat content clock).ServeAvg = acc.ServeSum / n ∧
    (d.InitIoStat content clock).AwaitAvg = acc.AwaitSum / n ∧
    (d.InitIoStat content clock).RkbAvg = acc.RkbSum / n ∧
    (d.InitIoStat content clock).WkbAvg = acc.WkbSum / n ∧
    (d.InitIoStat content clock).RmergeAvg = acc.RmergeSum / n ∧
    (d.InitIoStat content clock).WmergeAvg = acc.WmergeSum / n ∧
    (d.InitIoStat content clock).RioAvg = acc.RioSum / n ∧
    (d.InitIoStat content clock).WioAvg = acc.WioSum / n ∧
    (d.InitIoStat content clock).RsectAvg = acc.RsectSum / n ∧
    (d.InitIoStat content clock).WsectAvg = acc.WsectSum / n ∧
    (d.InitIoStat content clock).ReqRateAvg = acc.ReqRateSum / n := by
  intro acc n
  have hl := ioStatLoop_length clock (readLines content) 0 (d.PartiMap, IoStatLocals.init)
  have hpos : (0 : ℚ) < (((ioStatLoop clock (readLines content) 0
      (d.PartiMap, IoStatLocals.init)).1.length : Nat) : ℚ) := by
    rw [hl]
    exact_mod_cast hlen
  simp only [ DiskIO.InitIoStat, gt_iff_lt, hpos, if_true, acc, n]
  rw [hl]
  simp

/-- The sum a pass accumulates for one metric: the metric stored by the readings that
compute it. -/
theorem ioStatLoop_metric_sum (f : IoStatLocals → ℚ) (sel : IoStatLineVars → Bool)
    (g : IoStatLineVars → ℚ) (hinit : f IoStatLocals.init = 0)
    (hstep : ∀ (p : Partition) (acc : IoStatLocals) (n : String) (r : DiskReading) (now : Int),
      f (ioStatEntry p acc n r now).2
        = f acc + (if sel { partiName := n, parti := p, r := r, now := now } = true then
            g { partiName := n, parti := p, r := r, now := now } else 0))
    (d : DiskIO) (content : String) (clock : Nat → Int) :
    f (ioStatLoop clock (readLines content) 0 (d.PartiMap, IoStatLocals.init)).2
      = (((d.passVars content clock).filter sel).map g).sum := by
  rw [ioStatLoop_sum f (fun x => if sel x = true then g x else 0) hstep, hinit, zero_add,
    sum_map_ite]
  rfl

/-- C15 (amended). After `InitIoStat` on a history with at least one partition, each
aggregate average is the sum of that metric over the readings of this pass that compute
it (a reading of a partition with a baseline and positive elapsed time for the ten
rates, with a baseline and positive `diffio` for `ReqSz`, `ServeElapsed` and
`AwaitElapsed`) divided by the number of partitions recorded in the history, which the
pass does not change. -/
theorem disk_averages_over_history (d : DiskIO) (content : String) (clock : Nat → Int)
    (hlen : 0 < d.PartiMap.length) :
    (d.InitIoStat content clock).PartiMap.length = d.PartiMap.length ∧
    (d.InitIoStat content clock).QueueSzAvg
      = (((d.passVars content clock).filter fun x => x.ratesAdded).map
          fun x => x.stored.QueueSz).sum / ((d.PartiMap.length : Nat) : ℚ) ∧
    (d.InitIoStat content clock).ReqSzAvg
      = (((d.passVars content clock).filter fun x => x.compositeAdded).map
          fun x => x.stored.ReqSz).sum / ((d.PartiMap.length : Nat) : ℚ) ∧
    (d.InitIoStat content clock).ServeAvg
      = (((d.passVars content clock).filter fun x => x.compositeAdded).map
          fun x => x.stored.ServeElapsed).sum / ((d.PartiMap.length : Nat) : ℚ) ∧
    (d.InitIoStat content clock).AwaitAvg
      = (((d.passVars content clock).filter fun x => x.compositeAdded).map
          fun x => x.stored.AwaitElapsed).sum / ((d.PartiMap.length : Nat) : ℚ) ∧
    (d.InitIoStat content clock).RkbAvg
      = (((d.passVars content clock).filter fun x => x.ratesAdded).map
          fun x => x.stored.RkbPerSecond).sum / ((d.PartiMap.length : Nat) : ℚ) ∧
    (d.InitIoStat content clock).WkbAvg
      = (((d.passVars content clock).filter fun x => x.ratesAdded).map
          fun x => x.stored.WkbPerSecond).sum / ((d.PartiMap.length : Nat) : ℚ) ∧
    (d.InitIoStat content clock).RmergeAvg
      = (((d.passVars content clock).filter fun x => x.ratesAdded).map
          fun x => x.stored.RmergePerSecond).sum / ((d.PartiMap.length : Nat) : ℚ) ∧
    (d.InitIoStat content clock).WmergeAvg
      = (((d.passVars content clock).filter fun x => x.ratesAdded).map
          fun x => x.stored.WmergePerSecond).sum / ((d.PartiMap.length : Nat) : ℚ) ∧
    (d.InitIoStat content clock).RioAvg
      = (((d.passVars content clock).filter fun x => x.ratesAdded).map
          fun x => x.stored.RioPerSecond).sum / ((d.PartiMap.length : Nat) : ℚ) ∧
    (d.InitIoStat content clock).WioAvg
      = (((d.passVars content clock).filter fun x => x.ratesAdded).map
          fun x => x.stored.WioPerSecond).sum / ((d.PartiMap.length : Nat) : ℚ) ∧
    (d.InitIoStat content clock).RsectAvg
      = (((d.passVars content clock).filter fun x => x.ratesAdded).map
          fun x => x.stored.RsectPerSecond).sum / ((d.PartiMap.length : Nat) : ℚ) ∧
    (d.InitIoStat content clock).WsectAvg
      = (((d.passVars content clock).filter fun x => x.ratesAdded).map
          fun x => x.stored.WsectPerSecond).sum / ((d.PartiMap.length : Nat) : ℚ) ∧
    (d.InitIoStat content clock).ReqRateAvg
      = (((d.passVars content clock).filter fun x => x.ratesAdded).map
          fun x => x.stored.ReqRate).sum / ((d.PartiMap.length : Nat) : ℚ) := by
  obtain ⟨a1, a2, a3, a4, a5, a6, a7, a8, a9, a10, a11, a12, a13⟩ :=
    InitIoStat_averages d content clock hlen
  refine ⟨?_, ?_, ?_, ?_, ?_, ?_, ?_, ?_, ?_, ?_, ?_, ?_, ?_, ?_⟩
  · rw [InitIoStat_PartiMap]; exact ioStatLoop_length _ _ _ _
  · rw [a1, ioStatLoop_metric_sum IoStatLocals.QueueSzSum (fun x => x.ratesAdded)
      (fun x => x.stored.QueueSz) rfl
      (fun p acc n r now => (ioStatEntry_sums p acc n r now).1)]
  · rw [a2, ioStatLoop_metric_sum IoStatLocals.ReqSzSum (fun x => x.compositeAdded)
      (fun x => x.stored.ReqSz) rfl
      (fun p acc n r now => (ioStatEntry_sums p acc n r now).2.2.2.2.2.2.2.2.2.2.1)]
  · rw [a3, ioStatLoop_metric_sum IoStatLocals.ServeSum (fun x => x.compositeAdded)
      (fun x => x.stored.ServeElapsed) rfl
      (fun p acc n r now => (ioStatEntry_sums p acc n r now).2.2.2.2.2.2.2.2.2.2.2.1)]
  · rw [a4, ioStatLoop_metric_sum IoStatLocals.AwaitSum (fun x => x.compositeAdded)
      (fun x => x.stored.AwaitElapsed) rfl
      (fun p acc n r now => (ioStatEntry_sums p acc n r now).2.2.2.2.2.2.2.2.2.2.2.2)]
  · rw [a5, ioStatLoop_metric_sum IoStatLocals.RkbSum (fun x => x.ratesAdded)
      (fun x => x.stored.RkbPerSecond) rfl
      (fun p acc n r now => (ioStatEntry_sums p acc n r now).2.1)]
  · rw [a6, ioStatLoop_metric_sum IoStatLocals.WkbSum (fun x => x.ratesAdded)
      (fun x => x.stored.WkbPerSecond) rfl
      (fun p acc n r now => (ioStatEntry_sums p acc n r now).2.2.1)]
  · rw [a7, ioStatLoop_metric_sum IoStatLocals.RmergeSum (fun x => x.ratesAdded)
      (fun x => x.stored.RmergePerSecond) rfl
      (fun p acc n r now => (ioStatEntry_sums p acc n r now).2.2.2.1)]
  · rw [a8, ioStatLoop_metric_sum IoStatLocals.WmergeSum (fun x => x.ratesAdded)
      (fun x => x.stored.WmergePerSecond) rfl
      (fun p acc n r now => (ioStatEntry_sums p acc n r now).2.2.2.2.1)]
  · rw [a9, ioStatLoop_metric_sum IoStatLocals.RioSum (fun x => x.ratesAdded)
      (fun x => x.stored.RioPerSecond) rfl
      (fun p acc n r now => (ioStatEntry_sums p acc n r now).2.2.2.2.2.1)]
  · rw [a10, ioStatLoop_metric_sum IoStatLocals.WioSum (fun x => x.ratesAdded)
      (fun x => x.stored.WioPerSecond) rfl
      (fun p acc n r now => (ioStatEntry_sums p acc n r now).2.2.2.2.2.2.1)]
  · rw [a11, ioStatLoop_metric_sum IoStatLocals.RsectSum (fun x => x.ratesAdded)
      (fun x => x.stored.RsectPerSecond) rfl
      (fun p acc n r now => (ioStatEntry_sums p acc n r now).2.2.2.2.2.2.2.1)]
  · rw [a12, ioStatLoop_metric_sum IoStatLocals.WsectSum (fun x => x.ratesAdded)
      (fun x => x.stored.WsectPerSecond) rfl
      (fun p acc n r now => (ioStatEntry_sums p acc n r now).2.2.2.2.2.2.2.2.1)]
  · rw [a13, ioStatLoop_metric_sum IoStatLocals.ReqRateSum (fun x => x.ratesAdded)
      (fun x => x.stored.ReqRate) rfl
      (fun p acc n r now => (ioStatEntry_sums p acc n r now).2.2.2.2.2.2.2.2.2.1)]

/-- C15, at a history with `sda` and `sda1`, both read at clock 100 and both read again
at clock 110 with 100 more reads on `sda1` only: the read rates are 0 and 10, and
`RioAvg` is `(0 + 10) / 2`. -/
theorem disk_averages_over_history_witness :
    0 < (diskEmpty.Collect partitionsSda diskstatsSdaA fun _ => 100).PartiMap.length ∧
    ((diskEmpty.Collect partitionsSda diskstatsSdaA fun _ => 100).InitIoStat diskstatsSdaB
        fun _ => 110).RioAvg = (0 + 10) / 2 := by
  refine ⟨by decide, ?_⟩
  rw [(disk_averages_over_history (diskEmpty.Collect partitionsSda diskstatsSdaA fun _ => 100)
    diskstatsSdaB (fun _ => 110) (by decide)).2.2.2.2.2.2.2.2.2.1]
  decide!

/-- C15 as stated fails: the history holds `sda` and `sda1`, both read at clock 100; the
pass at clock 110 reads `sda1` only, with 100 more reads.  One partition is observed in
the pass and its read rate is 10, but `RioAvg` is `10 / 2 = 5`: the sum is divided by
the two partitions of the history, not by the one partition of the pass. -/
theorem disk_average_divides_by_history :
    ((diskEmpty.Collect partitionsSda diskstatsSdaA fun _ => 100).passVars sda1LineB
        fun _ => 110).map (fun x => (x.partiName, x.stored.RioPerSecond)) = [("sda1", 10)] ∧
    ((diskEmpty.Collect partitionsSda diskstatsSdaA fun _ => 100).InitIoStat sda1LineB
        fun _ => 110).PartiMap.length = 2 ∧
    ((diskEmpty.Collect partitionsSda diskstatsSdaA fun _ => 100).InitIoStat sda1LineB
        fun _ => 110).RioAvg = 5 ∧
    (10 : ℚ) / 1 ≠ 5 := by
  refine ⟨by decide!, by decide!, by decide!, by norm_num⟩

/-- What one reading does to the pair `(maxReqRate, maxReqRateParti)`: a reading with a
baseline runs the scan step on the `ReqRate` it stores, a first reading leaves the pair. -/
theorem ioStatEntry_busiest (p : Partition) (acc : IoStatLocals) (n : String) (r : DiskReading)
    (now : Int) :
    ((ioStatEntry p acc n r now).2.maxReqRate, (ioStatEntry p acc n r now).2.maxReqRateParti)
      = (if ({ partiName := n, parti := p, r := r, now := now } : IoStatLineVars).hasBaseline
            = true then
          busiestStep (acc.maxReqRate, acc.maxReqRateParti)
            (n, ({ partiName := n, parti := p, r := r, now := now }
              : IoStatLineVars).stored.ReqRate)
        else (acc.maxReqRate, acc.maxReqRateParti)) := by
  by_cases hL : p.Last ≤ 0
  · have hL2 : ¬ 0 < p.Last := by omega
    simp [ioStatEntry, hL, hL2, IoStatLineVars.hasBaseline]
  · have hL2 : 0 < p.Last := by omega
    by_cases hd : (0 : ℚ) < ((subInt64 now p.Last : Int) : ℚ)
    · simp only [ioStatEntry, hL, hL2, IoStatLineVars.hasBaseline, IoStatLineVars.stored,
        ioStatRates, ioStatComposite, ioStatStore, hd, busiestStep, if_true, if_false,
        gt_iff_lt, decide_True]
      split_ifs <;> simp_all
    · simp only [ioStatEntry, hL, hL2, IoStatLineVars.hasBaseline, IoStatLineVars.stored,
        ioStatRates, ioStatComposite, ioStatStore, hd, busiestStep, if_true, if_false,
        gt_iff_lt, decide_True]
      split_ifs <;> simp_all

theorem foldl_busiest_filter (l : List IoStatLineVars) (s : ℚ × String) :
    l.foldl (fun s x => if x.hasBaseline = true then
        busiestStep s (x.partiName, x.stored.ReqRate) else s) s
      = ((l.filter fun x => x.hasBaseline).map
          fun x => (x.partiName, x.stored.ReqRate)).foldl busiestStep s := by
  induction l generalizing s with
  | nil => rfl
  | cons x t ih =>
    by_cases h : x.hasBaseline = true
    · simp [h, ih]
    · simp [h, ih]

/-- The pair `(MaxReqRate, MaxReqRateParti)` after `InitIoStat` is the scan of the
readings of the pass that have a baseline, from `(0, "")`. -/
theorem InitIoStat_busiest (d : DiskIO) (content : String) (clock : Nat → Int) :
    ((d.InitIoStat content clock).MaxReqRate, (d.InitIoStat content clock).MaxReqRateParti)
      = (((d.passVars content clock).filter fun x => x.hasBaseline).map
          fun x => (x.partiName, x.stored.ReqRate)).foldl busiestStep (0, "") := by
  have h := ioStatLoop_fold (fun acc => (acc.maxReqRate, acc.maxReqRateParti))
    (fun s x => if x.hasBaseline = true then
      busiestStep s (x.partiName, x.stored.ReqRate) else s)
    (fun p acc n r now => ioStatEntry_busiest p acc n r now)
    clock (readLines content) 0 (d.PartiMap, IoStatLocals.init)
  rw [foldl_busiest_filter] at h
  have hm : (d.InitIoStat content clock).MaxReqRate
      = (ioStatLoop clock (readLines content) 0 (d.PartiMap, IoStatLocals.init)).2.maxReqRate := by
    unfold DiskIO.InitIoStat
    simp only
  have hp : (d.InitIoStat content clock).MaxReqRateParti
      = (ioStatLoop clock (readLines content) 0
          (d.PartiMap, IoStatLocals.init)).2.maxReqRateParti := by
    unfold DiskIO.InitIoStat
    simp only
  rw [hm, hp]
  exact h

/-- The scan of `busiestStep` from `(m0, o0)`: the value is at least `m0` and at least
every rate; either nothing was replaced and every rate is below `m0`, or the owner is
the last entry whose rate equals the value. -/
theorem foldl_busiest_spec (l : List (String × ℚ)) (m0 : ℚ) (o0 : String) :
    m0 ≤ (l.foldl busiestStep (m0, o0)).1 ∧
    (∀ e ∈ l, e.2 ≤ (l.foldl busiestStep (m0, o0)).1) ∧
    ((l.foldl busiestStep (m0, o0) = (m0, o0) ∧ ∀ e ∈ l, e.2 < m0) ∨
      ∃ pre post n, l = pre ++ (n, (l.foldl busiestStep (m0, o0)).1) :: post ∧
        (l.foldl busiestStep (m0, o0)).2 = n ∧
        ∀ e ∈ post, e.2 < (l.foldl busiestStep (m0, o0)).1) := by
  induction l generalizing m0 o0 with
  | nil => simp
  | cons e t ih =>
    obtain ⟨n, q⟩ := e
    by_cases hq : q ≥ m0
    · have hs : busiestStep (m0, o0) (n, q) = (q, n) := by simp [busiestStep, hq]
      simp only [List.foldl_cons, hs]
      obtain ⟨h1, h2, h3⟩ := ih q n
      refine ⟨le_trans hq h1, ?_, ?_⟩
      · intro e he
        rcases List.mem_cons.mp he with rfl | he
        · exact h1
        · exact h2 e he
      · right
        rcases h3 with ⟨heq, hlt⟩ | ⟨pre, post, n1, hsplit, hown, hpost⟩
        · refine ⟨[], t, n, ?_, ?_, ?_⟩
          · simp [heq]
          · simp [heq]
          · rw [heq]; exact hlt
        · refine ⟨(n, q) :: pre, post, n1, ?_, hown, hpost⟩
          simp only [List.cons_append]
          exact congrArg _ hsplit
    · have hs : busiestStep (m0, o0) (n, q) = (m0, o0) := by simp [busiestStep, hq]
      have hq2 : q < m0 := lt_of_not_ge hq
      simp only [List.foldl_cons, hs]
      obtain ⟨h1, h2, h3⟩ := ih m0 o0
      refine ⟨h1, ?_, ?_⟩
      · intro e he
        rcases List.mem_cons.mp he with rfl | he
        · exact le_trans (le_of_lt hq2) h1
        · exact h2 e he
      · rcases h3 with ⟨heq, hlt⟩ | ⟨pre, post, n1, hsplit, hown, hpost⟩
        · left
          refine ⟨heq, ?_⟩
          intro e he
          rcases List.mem_cons.mp he with rfl | he
          · exact hq2
          · exact hlt e he
        · right
          refine ⟨(n, q) :: pre, post, n1, ?_, hown, hpost⟩
          simp only [List.cons_append]
          exact congrArg _ hsplit

/-- C16. After every `InitIoStat` pass, `MaxReqRate` is the maximum of 0 and the
`ReqRate` values stored by the readings of the pass that are not first readings.  When
one of these values is `>= 0`, `MaxReqRateParti` is the partition of the last such
reading, in read order, whose `ReqRate` equals `MaxReqRate`; so when all of them are 0
it is the partition read last.  When none of them is `>= 0`, `MaxReqRateParti` is the
empty string. -/
theorem disk_busiest_partition (d : DiskIO) (content : String) (clock : Nat → Int) :
    (0 ≤ (d.InitIoStat content clock).MaxReqRate ∧
      (∀ e ∈ d.passReqRates content clock, e.2 ≤ (d.InitIoStat content clock).MaxReqRate) ∧
      ((d.InitIoStat content clock).MaxReqRate = 0 ∨
        ∃ e ∈ d.passReqRates content clock, e.2 = (d.InitIoStat content clock).MaxReqRate)) ∧
    ((∃ e ∈ d.passReqRates content clock, 0 ≤ e.2) →
      ∃ pre post n,
        d.passReqRates content clock
          = pre ++ (n, (d.InitIoStat content clock).MaxReqRate) :: post ∧
        (d.InitIoStat content clock).MaxReqRateParti = n ∧
        ∀ e ∈ post, e.2 ≠ (d.InitIoStat content clock).MaxReqRate) ∧
    ((∀ e ∈ d.passReqRates content clock, e.2 = 0) →
      (d.InitIoStat content clock).MaxReqRateParti
        = (((d.passReqRates content clock).getLast?).map Prod.fst).getD "") ∧
    ((∀ e ∈ d.passReqRates content clock, e.2 < 0) →
      (d.InitIoStat content clock).MaxReqRateParti = "") := by
  have hfold := InitIoStat_busiest d content clock
  have hM : (d.InitIoStat content clock).MaxReqRate
      = ((d.passReqRates content clock).foldl busiestStep (0, "")).1 := by
    unfold DiskIO.passReqRates
    rw [← hfold]
  have hO : (d.InitIoStat content clock).MaxReqRateParti
      = ((d.passReqRates content clock).foldl busiestStep (0, "")).2 := by
    unfold DiskIO.passReqRates
    rw [← hfold]
  obtain ⟨h1, h2, h3⟩ := foldl_busiest_spec (d.passReqRates content clock) 0 ""
  rw [← hM] at h1 h2
  have hright : (∃ e ∈ d.passReqRates content clock, 0 ≤ e.2) →
      ∃ pre post n,
        d.passReqRates content clock
          = pre ++ (n, (d.InitIoStat content clock).MaxReqRate) :: post ∧
        (d.InitIoStat content clock).MaxReqRateParti = n ∧
        ∀ e ∈ post, e.2 < (d.InitIoStat content clock).MaxReqRate := by
    rintro ⟨e, he, he0⟩
    rcases h3 with ⟨-, hlt⟩ | ⟨pre, post, n, hsplit, hown, hpost⟩
    · exact absurd (hlt e he) (not_lt.mpr he0)
    · rw [← hM] at hsplit hpost
      rw [← hO] at hown
      exact ⟨pre, post, n, hsplit, hown, hpost⟩
  refine ⟨⟨h1, h2, ?_⟩, ?_, ?_, ?_⟩
  · rcases h3 with ⟨heq, -⟩ | ⟨pre, post, n, hsplit, -, -⟩
    · left
      rw [hM, heq]
    · right
      rw [← hM] at hsplit
      refine ⟨(n, (d.InitIoStat content clock).MaxReqRate), ?_, rfl⟩
      rw [hsplit]
      simp
  · intro hex
    obtain ⟨pre, post, n, hsplit, hown, hpost⟩ := hright hex
    exact ⟨pre, post, n, hsplit, hown, fun e he => ne_of_lt (hpost e he)⟩
  · intro hall
    by_cases hnil : d.passReqRates content clock = []
    · rw [hO, hnil]
      rfl
    · obtain ⟨e0, t, hcons⟩ := List.exists_cons_of_ne_nil hnil
      have he0 : e0 ∈ d.passReqRates content clock := by rw [hcons]; simp
      obtain ⟨pre, post, n, hsplit, hown, hpost⟩ :=
        hright ⟨e0, he0, le_of_eq (hall e0 he0).symm⟩
      have hmem : (n, (d.InitIoStat content clock).MaxReqRate)
          ∈ d.passReqRates content clock := by
        rw [hsplit]; simp
      have hM0 : (d.InitIoStat content clock).MaxReqRate = 0 := hall _ hmem
      have hpostnil : post = [] := by
        cases post with
        | nil => rfl
        | cons e1 t1 =>
          have hmem1 : e1 ∈ d.passReqRates content clock := by
            rw [hsplit]; simp
          have := hpost e1 (List.mem_cons_self _ _)
          rw [hM0, hall e1 hmem1] at this
          exact absurd this (lt_irrefl _)
      rw [hown, hsplit, hpostnil]
      simp
  · intro hall
    rcases h3 with ⟨heq, -⟩ | ⟨pre, post, n, hsplit, -, -⟩
    · rw [hO, heq]
    · rw [← hM] at hsplit
      have hmem : (n, (d.InitIoStat content clock).MaxReqRate)
          ∈ d.passReqRates content clock := by
        rw [hsplit]; simp
      exact absurd (hall _ hmem) (not_lt.mpr h1)

/-- C16, at a history with `sda` and `sda1` read at clock 100: a pass at clock 110 in
which only `sda1` has been busy (100 ms) gives `MaxReqRate = 1` with owner `sda1`; a
pass at clock 110 with unchanged counters gives `MaxReqRate = 0` with the partition read
last, `sda1`, as owner; a pass that reads nothing gives 0 and the empty string. -/
theorem disk_busiest_partition_witness :
    (diskEmpty.Collect partitionsSda diskstatsSdaA fun _ => 100).passReqRates diskstatsSdaB
        (fun _ => 110) = [("sda", 0), ("sda1", 1)] ∧
    (((diskEmpty.Collect partitionsSda diskstatsSdaA fun _ => 100).InitIoStat diskstatsSdaB
        fun _ => 110).MaxReqRate,
      ((diskEmpty.Collect partitionsSda diskstatsSdaA fun _ => 100).InitIoStat diskstatsSdaB
        fun _ => 110).MaxReqRateParti) = (1, "sda1") ∧
    ((diskEmpty.Collect partitionsSda diskstatsSdaA fun _ => 100).InitIoStat diskstatsSdaA
        fun _ => 110).MaxReqRateParti = "sda1" ∧
    ((diskEmpty.Collect partitionsSda diskstatsSdaA fun _ => 100).InitIoStat ""
        fun _ => 110).MaxReqRateParti = "" := by
  refine ⟨by decide!, by decide!, ?_, ?_⟩
  · rw [(disk_busiest_partition (diskEmpty.Collect partitionsSda diskstatsSdaA fun _ => 100)
      diskstatsSdaA (fun _ => 110)).2.2.1 (by decide!)]
    decide!
  · exact (disk_busiest_partition (diskEmpty.Collect partitionsSda diskstatsSdaA fun _ => 100)
      "" (fun _ => 110)).2.2.2 (by decide!)

/-! ## Network interfaces: the sums of a pass -/

theorem netSpeed_sums (parseFloat : String → Option ℚ) (st : NetLoop) (ethname : String)
    (ifi : Ifi) (v : IfiRates) (output : String) :
    (netSpeed parseFloat st ethname ifi v output).net.InSendErrRateSum
        = st.net.InSendErrRateSum ∧
    (netSpeed parseFloat st ethname ifi v output).net.OutSendErrRateSum
        = st.net.OutSendErrRateSum := by
  unfold netSpeed
  cases ethtoolSpeed parseFloat (Split output '\n') with
  | none => exact ⟨rfl, rfl⟩
  | some speed =>
    simp only
    split_ifs <;> exact ⟨rfl, rfl⟩

/-- In both classes `netSums` adds the send error rate to `InSendErrRateSum` and leaves
`OutSendErrRateSum` as it is. -/
theorem netSums_sendErr (this : NetWork) (ifi : Ifi) (v : IfiRates) :
    (netSums this ifi v).InSendErrRateSum = this.InSendErrRateSum + v.sendErrRate ∧
    (netSums this ifi v).OutSendErrRateSum = this.OutSendErrRateSum := by
  unfold netSums
  split_ifs <;> exact ⟨rfl, rfl⟩

theorem netLineApply_sendErr (parseFloat : String → Option ℚ) (st : NetLoop) (x : NetLineVars) :
    (netLineApply parseFloat st x).net.InSendErrRateSum
        = st.net.InSendErrRateSum + x.v.sendErrRate ∧
    (netLineApply parseFloat st x).net.OutSendErrRateSum = st.net.OutSendErrRateSum := by
  have h0 : ∀ (n : NetWork),
      (match n.IfiMap.get? x.ethname with
        | some _ => n
        | none => { n with IfiMap := n.IfiMap.set x.ethname Ifi.zero,
                           IfiNames := n.IfiNames ++ [x.ethname] }).InSendErrRateSum
        = n.InSendErrRateSum ∧
      (match n.IfiMap.get? x.ethname with
        | some _ => n
        | none => { n with IfiMap := n.IfiMap.set x.ethname Ifi.zero,
                           IfiNames := n.IfiNames ++ [x.ethname] }).OutSendErrRateSum
        = n.OutSendErrRateSum := by
    intro n
    cases n.IfiMap.get? x.ethname <;> exact ⟨rfl, rfl⟩
  unfold netLineApply
  cases hE : x.ethtool with
  | none =>
    simp only
    constructor
    · rw [(netSums_sendErr _ _ _).1]
      exact congrArg (· + x.v.sendErrRate) (h0 st.net).1
    · rw [(netSums_sendErr _ _ _).2]
      exact (h0 st.net).2
  | some output =>
    simp only
    constructor
    · rw [(netSpeed_sums _ _ _ _ _ _).1, (netSums_sendErr _ _ _).1]
      exact congrArg (· + x.v.sendErrRate) (h0 st.net).1
    · rw [(netSpeed_sums _ _ _ _ _ _).2, (netSums_sendErr _ _ _).2]
      exact (h0 st.net).2

/-- A quantity of the receiver that every handled line updates by `step` is, after the
loop, the fold of `step` over the handled lines of the pass. -/
theorem netDevLoop_fold {σ : Type} (parseFloat : String → Option ℚ) (g : NetWork → σ)
    (step : σ → NetLineVars → σ)
    (hstep : ∀ (st : NetLoop) (x : NetLineVars),
      g (netLineApply parseFloat st x).net = step (g st.net) x)
    (probe : Nat → NetProbe) (lines : List String) (i : Nat) (st : NetLoop) :
    g (netDevLoop parseFloat probe lines i st).net
      = (netDevVars parseFloat probe lines i st).foldl step (g st.net) := by
  induction lines generalizing i st with
  | nil => rfl
  | cons line rest ih =>
    simp only [netDevLoop, netDevVars, List.foldl_append]
    rw [ih]
    congr 1
    unfold netDevLine
    cases hV : netLineVars st.net line (probe i) with
    | none => rfl
    | some x =>
      simp only [Option.toList, List.foldl_cons, List.foldl_nil]
      exact hstep st x

theorem foldl_add_eq_sum {α : Type} (l : List α) (c : α → ℚ) (a : ℚ) :
    l.foldl (fun s x => s + c x) a = a + (l.map c).sum := by
  induction l generalizing a with
  | nil => simp
  | cons x t ih =>
    simp only [List.foldl_cons, List.map_cons, List.sum_cons]
    rw [ih]
    ring

/-- C18. In `InitNetWorkInfo` an interface classified as external (as one classified as
internal) adds its send error rate to `InSendErrRateSum` and nothing to
`OutSendErrRateSum`; every handled line stores the send error rate it adds; so after
every `Collect` pass `OutSendErrRateSum` is 0 and `InSendErrRateSum` is the sum of the
send error rates of all the interfaces of the pass. -/
theorem net_send_error_bucket (parseFloat : String → Option ℚ) :
    (∀ (this : NetWork) (ifi : Ifi) (v : IfiRates), ifi.IsInEth = false →
      (netSums this ifi v).InSendErrRateSum = this.InSendErrRateSum + v.sendErrRate ∧
      (netSums this ifi v).OutSendErrRateSum = this.OutSendErrRateSum) ∧
    (∀ (st : NetLoop) (x : NetLineVars),
      ∃ q, (netLineApply parseFloat st x).net.IfiMap.get? x.ethname = some q ∧
        q.SendErrRate = x.v.sendErrRate) ∧
    (∀ (this : NetWork) (content : String) (probe : Nat → NetProbe),
      (this.Collect parseFloat content probe).OutSendErrRateSum = 0 ∧
      (this.Collect parseFloat content probe).InSendErrRateSum
        = ((this.passVars parseFloat content probe).map fun x => x.v.sendErrRate).sum) := by
  refine ⟨fun this ifi v _ => netSums_sendErr this ifi v, ?_, ?_⟩
  · intro st x
    refine ⟨_, netLineApply_get? parseFloat st x, ?_⟩
    cases x.speed parseFloat <;> simp [ifiStore]
  · intro this content probe
    have hout := netDevLoop_fold parseFloat NetWork.OutSendErrRateSum (fun s _ => s)
      (fun st x => (netLineApply_sendErr parseFloat st x).2) probe (readLines content) 0
      { net := this.ResetIfiData, divisors := [] }
    have hin := netDevLoop_fold parseFloat NetWork.InSendErrRateSum
      (fun s x => s + x.v.sendErrRate)
      (fun st x => (netLineApply_sendErr parseFloat st x).1) probe (readLines content) 0
      { net := this.ResetIfiData, divisors := [] }
    rw [foldl_add_eq_sum] at hin
    constructor
    · have hconst : ∀ (l : List NetLineVars) (a : ℚ),
          l.foldl (fun s _ => s) a = a := by
        intro l
        induction l with
        | nil => intro a; rfl
        | cons x t ih => intro a; exact ih a
      rw [hconst] at hout
      simpa [NetWork.Collect, NetWork.InitNetWorkInfo, NetWork.ResetIfiData] using hout
    · simpa [NetWork.Collect, NetWork.InitNetWorkInfo, NetWork.passVars,
        NetWork.ResetIfiData] using hin

/-- C18, at `eth0` with the public address `8.8.4.4/24`, read with zero counters at clock
100 and with 200 packets and 4 errors sent at clock 101: the interface is external, and
after the pass `OutSendErrRateSum` is 0 and `InSendErrRateSum` is `4 / 200`. -/
theorem net_send_error_bucket_witness :
    ((netEmpty.Collect parseFloatDigits eth0LineZero fun _ => probePublic 100).Collect
        parseFloatDigits eth0LineErr fun _ => probePublic 101).OutSendErrRateSum = 0 ∧
    ((netEmpty.Collect parseFloatDigits eth0LineZero fun _ => probePublic 100).Collect
        parseFloatDigits eth0LineErr fun _ => probePublic 101).InSendErrRateSum = 4 / 200 := by
  obtain ⟨-, -, hpass⟩ := net_send_error_bucket parseFloatDigits
  obtain ⟨hout, hin⟩ := hpass
    (netEmpty.Collect parseFloatDigits eth0LineZero fun _ => probePublic 100) eth0LineErr
    (fun _ => probePublic 101)
  refine ⟨hout, ?_⟩
  rw [hin]
  decide!

/-- C17 fails on the send side: `eth0` has the public address `8.8.4.4/24`, so it is
classified as external; it is read with zero counters at clock 100 and with 100 packets
and 1 error received, 200 packets and 4 errors sent at clock 101.  Its send error rate
`4 / 200` goes to `InSendErrRateSum` and `OutSendErrRateSum` stays 0, while its receive
error rate `1 / 100` goes to `OutRecvErrRateSum`. -/
theorem net_external_send_error_sum :
    (((netEmpty.Collect parseFloatDigits eth0LineZero fun _ => probePublic 100).Collect
        parseFloatDigits eth0LineErr fun _ => probePublic 101).IfiMap.get? "eth0").map
      (fun q => (q.IsInEth, q.RecvErrRate, q.SendErrRate)) = some (false, 1 / 100, 4 / 200) ∧
    ((netEmpty.Collect parseFloatDigits eth0LineZero fun _ => probePublic 100).Collect
        parseFloatDigits eth0LineErr fun _ => probePublic 101).OutSendErrRateSum = 0 ∧
    ((netEmpty.Collect parseFloatDigits eth0LineZero fun _ => probePublic 100).Collect
        parseFloatDigits eth0LineErr fun _ => probePublic 101).InSendErrRateSum = 4 / 200 ∧
    ((netEmpty.Collect parseFloatDigits eth0LineZero fun _ => probePublic 100).Collect
        parseFloatDigits eth0LineErr fun _ => probePublic 101).OutRecvErrRateSum = 1 / 100 ∧
    ((netEmpty.Collect parseFloatDigits eth0LineZero fun _ => probePublic 100).Collect
        parseFloatDigits eth0LineErr fun _ => probePublic 101).InRecvErrRateSum = 0 := by
  refine ⟨by decide!, by decide!, by decide!, by decide!, by decide!⟩

/-! ## Internal and external interfaces -/

/-- `IsInEth` is false for an empty address and for one that does not split into four
fields at dots. -/
theorem IsInEth_false_of_fields (this : Ifi)
    (h : this.Ip = "" ∨ (Split this.Ip '.').length ≠ 4) : this.IsInEth = false := by
  unfold Ifi.IsInEth
  rcases h with h | h
  · simp [h]
  · by_cases h0 : this.Ip = ""
    · simp [h0]
    · simp [h0, h]

/-- C19 fails for first octets that contain `10`, `127`, `172` or `192` as a substring:
`IsInEth` tests `strings.Contains(field1, "10")`, so the addresses `210.1.2.3` and
`110.0.0.1` (also in the form `210.1.2.3/24` stored by `InitNetWorkInfo`) are
classified as internal.  The other part of the claim holds: the result is false for an
empty address and for one that does not split into four fields, and for `8.8.4.4`. -/
theorem IsInEth_substring_match :
    ({ Ifi.zero with Ip := "210.1.2.3" } : Ifi).IsInEth = true ∧
    ({ Ifi.zero with Ip := "110.0.0.1" } : Ifi).IsInEth = true ∧
    ({ Ifi.zero with Ip := "210.1.2.3/24" } : Ifi).IsInEth = true ∧
    ({ Ifi.zero with Ip := "8.8.4.4" } : Ifi).IsInEth = false ∧
    ({ Ifi.zero with Ip := "" } : Ifi).IsInEth = false ∧
    ({ Ifi.zero with Ip := "10.0.1" } : Ifi).IsInEth = false ∧
    (∀ this : Ifi, this.Ip = "" ∨ (Split this.Ip '.').length ≠ 4 → this.IsInEth = false) := by
  refine ⟨by decide, by decide, by decide, by decide, by decide, by decide, ?_⟩
  exact fun this h => IsInEth_false_of_fields this h

/-! ## The history store of the partitions -/

theorem GoMap.mem_keys_iff {β : Type} (m : GoMap β) (k : String) :
    k ∈ m.keys ↔ (m.get? k).isSome = true := by
  induction m with
  | nil => simp [GoMap.keys, GoMap.get?]
  | cons hd tl ih =>
    obtain ⟨k1, v1⟩ := hd
    by_cases h : k1 = k
    · simp [GoMap.keys, GoMap.get?, h]
    · have h2 : ¬ k = k1 := fun e => h e.symm
      simp only [GoMap.keys, List.map_cons, List.mem_cons, GoMap.get?, h, if_false, h2,
        false_or]
      exact ih

theorem GoMap.keys_set_new {β : Type} (m : GoMap β) (k : String) (v : β)
    (h : m.get? k = none) : (m.set k v).keys = m.keys ++ [k] := by
  induction m with
  | nil => rfl
  | cons hd tl ih =>
    obtain ⟨k1, v1⟩ := hd
    by_cases hk : k1 = k
    · simp [GoMap.get?, hk] at h
    · simp only [GoMap.get?, hk, if_false] at h
      have := ih h
      simp only [GoMap.keys] at this
      simp [GoMap.set, hk, GoMap.keys, this]

/-- One line of `/proc/partitions`: either nothing changes, or the line shows a name
that is not a key of the map, and that name is appended to both. -/
theorem initPartitionsLine_cases (d : DiskIO) (line : String) :
    (initPartitionsLine d line = d ∧
      ((Fields line).length ≠ 4 ∨ (Fields line).getD 3 "" ∈ d.PartiMap.keys)) ∨
    ((Fields line).length = 4 ∧ (Fields line).getD 3 "" ∉ d.PartiMap.keys ∧
      (initPartitionsLine d line).PartiNames = d.PartiNames ++ [(Fields line).getD 3 ""] ∧
      (initPartitionsLine d line).PartiMap.keys
        = d.PartiMap.keys ++ [(Fields line).getD 3 ""]) := by
  by_cases hlen : (Fields line).length = 4
  · cases hG : d.PartiMap.get? ((Fields line).getD 3 "") with
    | some p =>
      left
      refine ⟨?_, Or.inr ?_⟩
      · unfold initPartitionsLine
        simp only [hlen, ne_eq, not_true_eq_false, if_false, hG]
      · rw [GoMap.mem_keys_iff, hG]; rfl
    | none =>
      right
      refine ⟨hlen, ?_, ?_, ?_⟩
      · rw [GoMap.mem_keys_iff, hG]; simp
      · unfold initPartitionsLine
        simp only [hlen, ne_eq, not_true_eq_false, if_false, hG]
      · unfold initPartitionsLine
        simp only [hlen, ne_eq, not_true_eq_false, if_false, hG]
        exact GoMap.keys_set_new _ _ _ hG
  · left
    refine ⟨?_, Or.inl hlen⟩
    unfold initPartitionsLine
    simp only [ne_eq, hlen, not_false_eq_true, if_true]

/-- The loop of `InitPartitions` keeps the invariant and appends, once each, the names
shown by the lines that are not yet in the history. -/
theorem initPartitions_fold (lines : List String) (d : DiskIO) (hinv : d.HistoryInv) :
    (lines.foldl initPartitionsLine d).HistoryInv ∧
    ∃ added, (lines.foldl initPartitionsLine d).PartiNames = d.PartiNames ++ added ∧
      added.Nodup ∧
      ∀ k, k ∈ added ↔ (k ∉ d.PartiNames ∧
        k ∈ (lines.filter fun line => (Fields line).length = 4).map
          fun line => (Fields line).getD 3 "") := by
  induction lines generalizing d with
  | nil =>
    exact ⟨hinv, [], by simp, List.nodup_nil, by simp⟩
  | cons line rest ih =>
    simp only [List.foldl_cons]
    rcases initPartitionsLine_cases d line with ⟨hsame, hwhy⟩ | ⟨hlen, hnew, hnames, hkeys⟩
    · rw [hsame]
      obtain ⟨hinv2, added, hadd, hnodup, hmem⟩ := ih d hinv
      refine ⟨hinv2, added, hadd, hnodup, ?_⟩
      intro k
      rw [hmem k]
      constructor
      · rintro ⟨h1, h2⟩
        refine ⟨h1, ?_⟩
        by_cases hlen : (Fields line).length = 4
        · simp only [List.filter_cons, hlen, decide_True, if_true, List.map_cons,
            List.mem_cons]
          exact Or.inr h2
        · simp only [List.filter_cons, hlen, decide_False, Bool.false_eq_true, if_false]
          exact h2
      · rintro ⟨h1, h2⟩
        refine ⟨h1, ?_⟩
        by_cases hlen : (Fields line).length = 4
        · simp only [List.filter_cons, hlen, decide_True, if_true, List.map_cons,
            List.mem_cons] at h2
          rcases h2 with h2 | h2
          · rcases hwhy with hwhy | hwhy
            · exact absurd hlen hwhy
            · rw [← h2] at hwhy
              exact absurd ((hinv.2 k).mpr hwhy) h1
          · exact h2
        · simp only [List.filter_cons, hlen, decide_False, Bool.false_eq_true, if_false]
            at h2
          exact h2
    · have hnotin : (Fields line).getD 3 "" ∉ d.PartiNames :=
        fun h => hnew ((hinv.2 _).mp h)
      have hinv1 : (initPartitionsLine d line).HistoryInv := by
        refine ⟨?_, ?_⟩
        · rw [hnames]
          exact List.Nodup.append hinv.1 (List.nodup_singleton _)
            (by
              intro a ha hb
              rw [List.mem_singleton] at hb
              subst hb
              exact hnotin ha)
        · intro k
          rw [hnames, hkeys, List.mem_append, List.mem_append, hinv.2 k]
      obtain ⟨hinv2, added, hadd, hnodup, hmem⟩ := ih (initPartitionsLine d line) hinv1
      refine ⟨hinv2, (Fields line).getD 3 "" :: added, ?_, ?_, ?_⟩
      · rw [hadd, hnames]; simp
      · refine List.nodup_cons.mpr ⟨?_, hnodup⟩
        intro h
        have := ((hmem _).mp h).1
        rw [hnames] at this
        exact this (by simp)
      · intro k
        simp only [List.mem_cons, List.filter_cons, hlen, decide_True, if_true, List.map_cons]
        rw [hmem k, hnames]
        constructor
        · rintro (h | ⟨h1, h2⟩)
          · subst h
            exact ⟨hnotin, Or.inl rfl⟩
          · refine ⟨fun h => h1 (by simp [h]), Or.inr h2⟩
        · rintro ⟨h1, h2 | h2⟩
          · exact Or.inl h2
          · by_cases hk : k = (Fields line).getD 3 ""
            · exact Or.inl hk
            · refine Or.inr ⟨?_, h2⟩
              simp only [List.mem_append, List.mem_singleton, not_or]
              exact ⟨h1, hk⟩

/-- C20. If `PartiNames` has no duplicates and its elements are exactly the keys of
`PartiMap`, then after `InitPartitions`, on any content of `/proc/partitions`, this
still holds; the new `PartiNames` is the old one followed by the names the content
shows that were not in the history, each of them once however many lines show it. -/
theorem partitions_history_invariant (d : DiskIO) (content : String) (hinv : d.HistoryInv) :
    (d.InitPartitions content).HistoryInv ∧
    d.PartiNames <+: (d.InitPartitions content).PartiNames ∧
    ∃ added, (d.InitPartitions content).PartiNames = d.PartiNames ++ added ∧
      added.Nodup ∧
      (∀ k, k ∈ added ↔ (k ∉ d.PartiNames ∧ k ∈ partitionNames content)) ∧
      ∀ k ∈ partitionNames content, k ∉ d.PartiNames →
        (d.InitPartitions content).PartiNames.count k = 1 := by
  obtain ⟨hinv2, added, hadd, hnodup, hmem⟩ :=
    initPartitions_fold ((readLines content).drop 1) d hinv
  refine ⟨hinv2, ⟨added, hadd.symm⟩, added, hadd, hnodup, hmem, ?_⟩
  intro k hk hnot
  have hin : k ∈ (d.InitPartitions content).PartiNames := by
    show k ∈ (((readLines content).drop 1).foldl initPartitionsLine d).PartiNames
    rw [hadd, List.mem_append]
    exact Or.inr ((hmem k).mpr ⟨hnot, hk⟩)
  exact List.count_eq_one_of_mem hinv2.1 hin

/-- C20, at the empty history and a `/proc/partitions` that shows `sda`, `sda1` and
`sda` again: the names are `sda`, `sda1`, and `sda` is there once. -/
theorem partitions_history_invariant_witness :
    diskEmpty.HistoryInv ∧
    (diskEmpty.InitPartitions partitionsSdaTwice).HistoryInv ∧
    (diskEmpty.InitPartitions partitionsSdaTwice).PartiNames = ["sda", "sda1"] ∧
    partitionNames partitionsSdaTwice = ["sda", "sda1", "sda"] ∧
    (diskEmpty.InitPartitions partitionsSdaTwice).PartiNames.count "sda" = 1 := by
  have hinv : diskEmpty.HistoryInv :=
    ⟨List.nodup_nil, fun k => by simp [diskEmpty, GoMap.keys]⟩
  obtain ⟨hinv2, -, added, -, -, -, hcount⟩ :=
    partitions_history_invariant diskEmpty partitionsSdaTwice hinv
  exact ⟨hinv, hinv2, by decide, by decide,
    hcount "sda" (by decide) (by simp [diskEmpty])⟩

/-! ## The rendering of a value -/

/-- With two decimals `FormatFloat` is the sign, the integer part, a point and the
hundredths of the value rounded to hundredths. -/
theorem FormatFloat_two (f : ℚ) :
    FormatFloat f 2
      = (if f < 0 then "-" else "") ++ padDigits 1 (roundHalfEven (|f| * 100) / 100) ++ "."
          ++ padDigits 2 (roundHalfEven (|f| * 100) % 100) := by
  unfold FormatFloat
  norm_num

theorem digitChar_isDigit (n : Nat) (h : n < 10) : (Nat.digitChar n).isDigit = true := by
  interval_cases n <;> decide

theorem toDigitsCore_isDigit (fuel n : Nat) (ds : List Char)
    (h : ∀ c ∈ ds, c.isDigit = true) : ∀ c ∈ Nat.toDigitsCore 10 fuel n ds, c.isDigit = true := by
  induction fuel generalizing n ds with
  | zero => simpa [Nat.toDigitsCore] using h
  | succ fuel ih =>
    have hd : (Nat.digitChar (n % 10)).isDigit = true :=
      digitChar_isDigit _ (Nat.mod_lt _ (by decide))
    have h2 : ∀ c ∈ Nat.digitChar (n % 10) :: ds, c.isDigit = true := by
      intro c hc
      rcases List.mem_cons.mp hc with hc | hc
      · rw [hc]; exact hd
      · exact h c hc
    unfold Nat.toDigitsCore
    by_cases h0 : n / 10 = 0
    · simp only [h0, if_true]
      exact h2
    · simp only [h0, if_false]
      exact ih _ _ h2

theorem toDigitsCore_length (fuel n : Nat) (ds : List Char) :
    ds.length ≤ (Nat.toDigitsCore 10 fuel n ds).length := by
  induction fuel generalizing n ds with
  | zero => simp [Nat.toDigitsCore]
  | succ fuel ih =>
    unfold Nat.toDigitsCore
    by_cases h0 : n / 10 = 0
    · simp [h0]
    · simp only [h0, if_false]
      exact le_trans (by simp) (ih _ _)

/-- The digits `padDigits` writes are decimal digits, and there are at least `width`
of them and at least one. -/
theorem padDigits_spec (width n : Nat) :
    (∀ c ∈ (padDigits width n).toList, c.isDigit = true) ∧
    width ≤ (padDigits width n).length ∧ 1 ≤ (padDigits width n).length := by
  have hdig : ∀ c ∈ Nat.toDigits 10 n, c.isDigit = true :=
    toDigitsCore_isDigit _ _ [] (by simp)
  have hlen : 1 ≤ (Nat.toDigits 10 n).length := by
    unfold Nat.toDigits Nat.toDigitsCore
    by_cases h0 : n / 10 = 0
    · simp [h0]
    · simp only [h0, if_false]
      exact le_trans (by simp) (toDigitsCore_length _ _ _)
  unfold padDigits
  refine ⟨?_, ?_, ?_⟩
  · intro c hc
    have hc2 : c ∈ List.replicate (width - (Nat.toDigits 10 n).length) '0'
        ++ Nat.toDigits 10 n := hc
    rcases List.mem_append.mp hc2 with hc | hc
    · rw [(List.mem_replicate.mp hc).2]; decide
    · exact hdig c hc
  · simp only [String.length, List.length_append, List.length_replicate]
    omega
  · simp only [String.length, List.length_append, List.length_replicate]
    omega

/-- The hundredths are written with exactly two digits. -/
theorem padDigits_two (m : Nat) (h : m < 100) : (padDigits 2 m).length = 2 := by
  interval_cases m <;> decide

/-- `FloatToString` never returns the empty string, and returns `"0"` for zero only. -/
theorem FloatToString_ne (f : ℚ) :
    FloatToString f ≠ "" ∧ (FloatToString f = "0" ↔ f = 0) := by
  have hlen : 3 ≤ (FormatFloat f 2).length := by
    rw [FormatFloat_two]
    simp only [String.length_append]
    have := padDigits_two (roundHalfEven (|f| * 100) % 100) (Nat.mod_lt _ (by decide))
    have h1 : ".".length = 1 := rfl
    omega
  unfold FloatToString
  by_cases h0 : f = 0
  · simp [h0]
  · simp only [h0, if_false, iff_false]
    constructor
    · intro h
      rw [h] at hlen
      exact absurd hlen (by decide)
    · intro h
      rw [h] at hlen
      exact absurd hlen (by decide)
/-- C22. `FloatToString f` is `"0"` exactly when `f` is zero.  For a non-zero `f` it is
`FormatFloat f 2`: the sign, the integer part of `|f|` rounded to hundredths (at least
one digit), a point, and the hundredths written with exactly two digits; so `1 / 1000`
is rendered `0.00`. -/
theorem float_zero_rendering (f : ℚ) :
    (FloatToString f = "0" ↔ f = 0) ∧
    (f ≠ 0 →
      FloatToString f = FormatFloat f 2 ∧
      ∃ sign whole frac : String,
        FloatToString f = sign ++ whole ++ "." ++ frac ∧
        sign = (if f < 0 then "-" else "") ∧
        whole = padDigits 1 (roundHalfEven (|f| * 100) / 100) ∧
        frac = padDigits 2 (roundHalfEven (|f| * 100) % 100) ∧
        1 ≤ whole.length ∧ (∀ c ∈ whole.toList, c.isDigit = true) ∧
        frac.length = 2 ∧ (∀ c ∈ frac.toList, c.isDigit = true)) ∧
    FloatToString (1 / 1000) = "0.00" ∧ FloatToString (-1 / 1000) = "-0.00" ∧
    FloatToString (1 / 8) = "0.12" ∧ FloatToString (3 / 8) = "0.38" ∧
    FloatToString (-5 / 2) = "-2.50" ∧ FloatToString 0 = "0" := by
  refine ⟨(FloatToString_ne f).2, ?_, by decide!, by decide!, by decide!, by decide!,
    by decide!, by decide!⟩
  intro h0
  have hF : FloatToString f = FormatFloat f 2 := by
    unfold FloatToString
    simp only [h0, if_false]
  refine ⟨hF, _, _, _, ?_, rfl, rfl, rfl, (padDigits_spec 1 _).2.2, (padDigits_spec 1 _).1,
    padDigits_two _ (Nat.mod_lt _ (by decide)), (padDigits_spec 2 _).1⟩
  rw [hF, FormatFloat_two]

/-- C22, at `1 / 1000`: a non-zero value that rounds to zero is rendered `0.00`, and
not `0`. -/
theorem float_zero_rendering_witness :
    (1 / 1000 : ℚ) ≠ 0 ∧ FloatToString (1 / 1000) = FormatFloat (1 / 1000) 2 ∧
    FloatToString (1 / 1000) = "0.00" ∧ FloatToString (1 / 1000) ≠ "0" := by
  have h := float_zero_rendering (1 / 1000)
  have h0 : (1 / 1000 : ℚ) ≠ 0 := by norm_num
  exact ⟨h0, (h.2.1 h0).1, h.2.2.1, fun e => h0 (h.1.mp e)⟩

/-! ## The lookup of a partition by its index -/

theorem GetKeyByIndex_eq (d : DiskIO) (args k : String) :
    d.GetKeyByIndex args = some k ↔
      ∃ i : Nat, Atoi args = some (i : Int) ∧ i < d.PartiNames.length ∧
        d.PartiNames[i]? = some k := by
  unfold DiskIO.GetKeyByIndex
  cases hA : Atoi args with
  | none => simp
  | some index =>
    simp only
    by_cases hneg : index < 0
    · simp only [hneg, if_true]
      constructor
      · intro h; cases h
      · rintro ⟨i, hi, -, -⟩
        injection hi with hi
        omega
    · simp only [hneg, if_false]
      by_cases hbig : index > (d.PartiNames.length : Int) - 1
      · simp only [hbig, if_true]
        constructor
        · intro h; cases h
        · rintro ⟨i, hi, hlt, -⟩
          injection hi with hi
          omega
      · simp only [hbig, if_false]
        have hlt : index.toNat < d.PartiNames.length := by omega
        have hcast : ((index.toNat : Nat) : Int) = index := Int.toNat_of_nonneg (by omega)
        constructor
        · intro h
          injection h with h
          refine ⟨index.toNat, by rw [hcast], hlt, ?_⟩
          rw [← h, List.getD_eq_getElem?_getD, List.getElem?_eq_getElem hlt]
          rfl
        · rintro ⟨i, hi, hi2, hk⟩
          injection hi with hi
          have hidx : index.toNat = i := by omega
          rw [hidx, List.getD_eq_getElem?_getD, hk]
          rfl

theorem GetKeyByIndex_none (d : DiskIO) (args : String) :
    d.GetKeyByIndex args = none ↔
      ¬ ∃ i : Nat, Atoi args = some (i : Int) ∧ i < d.PartiNames.length := by
  constructor
  · rintro h ⟨i, hi, hlt⟩
    have := (GetKeyByIndex_eq d args (d.PartiNames.get ⟨i, hlt⟩)).mpr
      ⟨i, hi, hlt, List.getElem?_eq_getElem hlt⟩
    rw [h] at this
    cases this
  · intro h
    cases hG : d.GetKeyByIndex args with
    | none => rfl
    | some k =>
      obtain ⟨i, hi, hlt, -⟩ := (GetKeyByIndex_eq d args k).mp hG
      exact absurd ⟨i, hi, hlt⟩ h

/-- C21. `GetKeyByIndex args` returns a name without error exactly when `Atoi` parses
`args` as an integer `i` with `0 ≤ i < len(PartiNames)`, and the name is then
`PartiNames[i]`; otherwise it returns an error.  Under the history invariant
`DiskQueueSzAvgFunc args` is the empty string exactly when `GetKeyByIndex` returns an
error; for a valid index it is the rendering of the `QueueSz` of the partition, which
is `"0"` when `QueueSz` is 0. -/
theorem index_lookup_miss (d : DiskIO) (args : String) :
    (∀ k, d.GetKeyByIndex args = some k ↔
      ∃ i : Nat, Atoi args = some (i : Int) ∧ i < d.PartiNames.length ∧
        d.PartiNames[i]? = some k) ∧
    (d.GetKeyByIndex args = none ↔
      ¬ ∃ i : Nat, Atoi args = some (i : Int) ∧ i < d.PartiNames.length) ∧
    (d.HistoryInv →
      (d.DiskQueueSzAvgFunc args = "" ↔ d.GetKeyByIndex args = none) ∧
      ∀ k, d.GetKeyByIndex args = some k →
        ∃ p, d.PartiMap.get? k = some p ∧
          d.DiskQueueSzAvgFunc args = FloatToString p.QueueSz ∧
          d.DiskQueueSzAvgFunc args ≠ "" ∧
          (p.QueueSz = 0 → d.DiskQueueSzAvgFunc args = "0")) := by
  refine ⟨fun k => GetKeyByIndex_eq d args k, GetKeyByIndex_none d args, ?_⟩
  intro hinv
  have hsome : ∀ k, d.GetKeyByIndex args = some k →
      ∃ p, d.PartiMap.get? k = some p ∧
        d.DiskQueueSzAvgFunc args = FloatToString p.QueueSz := by
    intro k hk
    obtain ⟨i, -, hlt, hi⟩ := (GetKeyByIndex_eq d args k).mp hk
    have hmem : k ∈ d.PartiNames := List.mem_iff_getElem?.mpr ⟨i, hi⟩
    have hkey := (GoMap.mem_keys_iff _ _).mp ((hinv.2 k).mp hmem)
    obtain ⟨p, hp⟩ := Option.isSome_iff_exists.mp hkey
    refine ⟨p, hp, ?_⟩
    unfold DiskIO.DiskQueueSzAvgFunc
    simp only [hk, hp]
  constructor
  · constructor
    · intro hempty
      cases hG : d.GetKeyByIndex args with
      | none => rfl
      | some k =>
        obtain ⟨p, -, hval⟩ := hsome k hG
        rw [hval] at hempty
        exact absurd hempty (FloatToString_ne _).1
    · intro hnone
      unfold DiskIO.DiskQueueSzAvgFunc
      simp only [hnone]
  · intro k hk
    obtain ⟨p, hp, hval⟩ := hsome k hk
    refine ⟨p, hp, hval, ?_, ?_⟩
    · rw [hval]; exact (FloatToString_ne _).1
    · intro hz
      rw [hval]
      exact (FloatToString_ne _).2.mpr hz

/-- C21, at the history `sda`, `sda1` registered from `/proc/partitions` and not read
yet: index 1 is `sda1` and its queue length is rendered `0`; the indices 2 and -1 and
the argument `x` give an error and the empty string. -/
theorem index_lookup_miss_witness :
    (diskEmpty.InitPartitions partitionsSda).HistoryInv ∧
    (diskEmpty.InitPartitions partitionsSda).GetKeyByIndex "1" = some "sda1" ∧
    (diskEmpty.InitPartitions partitionsSda).DiskQueueSzAvgFunc "1" = "0" ∧
    (diskEmpty.InitPartitions partitionsSda).GetKeyByIndex "2" = none ∧
    (diskEmpty.InitPartitions partitionsSda).DiskQueueSzAvgFunc "2" = "" ∧
    (diskEmpty.InitPartitions partitionsSda).DiskQueueSzAvgFunc "-1" = "" ∧
    (diskEmpty.InitPartitions partitionsSda).DiskQueueSzAvgFunc "x" = "" := by
  have hN : (diskEmpty.InitPartitions partitionsSda).PartiNames = ["sda", "sda1"] := by decide
  have hK : (diskEmpty.InitPartitions partitionsSda).PartiMap.keys = ["sda", "sda1"] := by
    decide
  have hinv : (diskEmpty.InitPartitions partitionsSda).HistoryInv :=
    ⟨by rw [hN]; decide, fun k => by rw [hN, hK]⟩
  have h1 : (diskEmpty.InitPartitions partitionsSda).GetKeyByIndex "1" = some "sda1" := by
    decide
  obtain ⟨p, hp, -, -, hzero⟩ :=
    ((index_lookup_miss (diskEmpty.InitPartitions partitionsSda) "1").2.2 hinv).2 "sda1" h1
  have hp0 : p.QueueSz = 0 := by
    have hreg : (diskEmpty.InitPartitions partitionsSda).PartiMap.get? "sda1"
        = some (Partition.new "sda1") := rfl
    rw [hreg] at hp
    injection hp with hp
    rw [← hp]
    rfl
  refine ⟨hinv, h1, hzero hp0, by decide, ?_, ?_, ?_⟩
  · exact ((index_lookup_miss (diskEmpty.InitPartitions partitionsSda) "2").2.2 hinv).1.mpr
      (by decide)
  · exact ((index_lookup_miss (diskEmpty.InitPartitions partitionsSda) "-1").2.2 hinv).1.mpr
      (by decide)
  · exact ((index_lookup_miss (diskEmpty.InitPartitions partitionsSda) "x").2.2 hinv).1.mpr
      (by decide)

/-! ## Partitions that a pass does not read -/

/-- A line read as a reading of `name` has fourteen fields, the third of which is `name`. -/
theorem parseDiskstatsLine_name (line name : String) (r : DiskReading)
    (h : parseDiskstatsLine line = some (name, r)) :
    (Fields line).length = 14 ∧ (Fields line).getD 2 "" = name := by
  unfold parseDiskstatsLine at h
  by_cases hlen : (Fields line).length = 14
  · simp only [hlen, ne_eq, not_true_eq_false, if_false, Option.some.injEq, Prod.mk.injEq] at h
    exact ⟨hlen, h.1⟩
  · simp only [ne_eq, hlen, not_false_eq_true, if_true] at h
    cases h

theorem InitIoStat_PartiNames (d : DiskIO) (content : String) (clock : Nat → Int) :
    (d.InitIoStat content clock).PartiNames = d.PartiNames := by
  unfold DiskIO.InitIoStat
  simp only
  split_ifs <;> rfl

/-- C23. A partition of `PartiMap` whose name is the third field of no line of fourteen
fields of the content is, after the `InitIoStat` pass, the same entry with every field
as it was (counters, derived metrics and `Last`); its name is still a key of `PartiMap`,
and `PartiNames` is unchanged. -/
theorem disk_stale_untouched (d : DiskIO) (content : String) (clock : Nat → Int)
    (name : String) (p : Partition) (hp : d.PartiMap.get? name = some p)
    (hstale : ∀ line ∈ readLines content, (Fields line).length = 14 →
      (Fields line).getD 2 "" ≠ name) :
    (d.InitIoStat content clock).PartiMap.get? name = some p ∧
    name ∈ (d.InitIoStat content clock).PartiMap.keys ∧
    (d.InitIoStat content clock).PartiNames = d.PartiNames := by
  have hget : (d.InitIoStat content clock).PartiMap.get? name = some p := by
    rw [InitIoStat_PartiMap, ioStatLoop_get?_frame clock _ 0 _ name ?_]
    · exact hp
    · intro l hl r hr
      obtain ⟨h14, hname⟩ := parseDiskstatsLine_name l name r hr
      exact hstale l hl h14 hname
  refine ⟨hget, ?_, InitIoStat_PartiNames d content clock⟩
  rw [GoMap.mem_keys_iff, hget]
  rfl

/-- C23, at the history `sda`, `sda1` read at clock 100, and a pass at clock 110 whose
content has a line for `sda1` only: the entry of `sda` keeps its counters and its
`Last` of 100, while `sda1` is read. -/
theorem disk_stale_untouched_witness :
    ∃ p, (diskEmpty.Collect partitionsSda diskstatsSdaA fun _ => 100).PartiMap.get? "sda"
        = some p ∧
      ((diskEmpty.Collect partitionsSda diskstatsSdaA fun _ => 100).InitIoStat sda1LineB
        fun _ => 110).PartiMap.get? "sda" = some p ∧
      p.Rio = 5000 ∧ p.Last = 100 ∧
      ((diskEmpty.Collect partitionsSda diskstatsSdaA fun _ => 100).InitIoStat sda1LineB
        fun _ => 110).PartiNames = ["sda", "sda1"] ∧
      (((diskEmpty.Collect partitionsSda diskstatsSdaA fun _ => 100).InitIoStat sda1LineB
        fun _ => 110).PartiMap.get? "sda1").map (fun q => (q.Rio, q.Last)) = some (1100, 110) := by
  have hstale : ∀ line ∈ readLines sda1LineB, (Fields line).length = 14 →
      (Fields line).getD 2 "" ≠ "sda" := by decide
  obtain ⟨p, hp⟩ : ∃ p, (diskEmpty.Collect partitionsSda diskstatsSdaA
      fun _ => 100).PartiMap.get? "sda" = some p := ⟨_, rfl⟩
  have h := disk_stale_untouched (diskEmpty.Collect partitionsSda diskstatsSdaA fun _ => 100)
    sda1LineB (fun _ => 110) "sda" p hp hstale
  have hp2 : ((diskEmpty.Collect partitionsSda diskstatsSdaA fun _ => 100).PartiMap.get?
      "sda").map (fun q => (q.Rio, q.Last)) = some (5000, 100) := by decide
  rw [hp] at hp2
  simp only [Option.map_some', Option.some.injEq, Prod.mk.injEq] at hp2
  refine ⟨p, hp, h.1, hp2.1, hp2.2, ?_, by decide⟩
  rw [h.2.2]
  decide

/-! ## The stored value that stands for "no baseline" -/

/-- A reading of a partition whose stored `Last` is not positive only replaces the
baseline: the locals of the pass and the thirteen derived metrics are left as they are. -/
theorem ioStatEntry_no_baseline (p : Partition) (acc : IoStatLocals) (name : String)
    (r : DiskReading) (now : Int) (hL : p.Last ≤ 0) :
    (ioStatEntry p acc name r now).2 = acc ∧
    (ioStatEntry p acc name r now).1 = ioStatStore p r now ∧
    (ioStatEntry p acc name r now).1.derived = p.derived ∧
    (ioStatEntry p acc name r now).1.Last = now := by
  unfold ioStatEntry
  rw [if_pos hL]
  exact ⟨rfl, rfl, rfl, rfl⟩

/-- C25. The disk pass treats a stored `Last ≤ 0` as no baseline.  A line that reads a
partition whose stored `Last` is not positive changes none of its thirteen derived
metrics and none of the locals of the pass (no sum, no division), whatever the stored
counters, the reading and the clock, and stores the clock as the new `Last`; so does a
whole `InitIoStat` pass that reads the partition on one line.  The network pass handles
a stored `Last = 0` as a first reading too: nothing is divided and the six rates stored
are 0.  The CPU pass leaves the four percentages as they are when the stored `Total`
is 0. -/
theorem baseline_sentinel :
    (∀ (m : GoMap Partition) (acc : IoStatLocals) (line : String) (now : Int) (name : String)
        (r : DiskReading) (p : Partition),
      parseDiskstatsLine line = some (name, r) → m.get? name = some p → p.Last ≤ 0 →
      (ioStatLine (m, acc) line now).2 = acc ∧
      ∃ q, (ioStatLine (m, acc) line now).1.get? name = some q ∧
        q.derived = p.derived ∧ q.Last = now) ∧
    (∀ (d : DiskIO) (content : String) (clock : Nat → Int) (pre post : List String)
        (line name : String) (r : DiskReading) (p : Partition),
      readLines content = pre ++ line :: post →
      (∀ l ∈ pre ++ post, ∀ r1, parseDiskstatsLine l ≠ some (name, r1)) →
      parseDiskstatsLine line = some (name, r) → d.PartiMap.get? name = some p →
      p.Last ≤ 0 →
      ∃ q, (d.InitIoStat content clock).PartiMap.get? name = some q ∧
        q.derived = p.derived ∧ q.Last = clock pre.length) ∧
    (∀ (parseFloat : String → Option ℚ) (st : NetLoop) (line : String) (w : NetProbe)
        (ethname : String) (r : NetReading) (addrs : List String) (ifi : Ifi),
      parseNetDevLine line = some (ethname, r) → w.addrs = some addrs → addrs ≠ [] →
      moniTag addrs = true → st.net.IfiMap.get? ethname = some ifi → ifi.Last = 0 →
      (ifiRates ifi r w.now).divisors = [] ∧
      ∃ q, (netDevLine parseFloat st line w).net.IfiMap.get? ethname = some q ∧
        q.RecvByteAvg = 0 ∧ q.SendByteAvg = 0 ∧ q.RecvPkgAvg = 0 ∧ q.SendPkgAvg = 0 ∧
        q.RecvErrRate = 0 ∧ q.SendErrRate = 0) ∧
    (∀ (c : Cpu) (ds : List ℚ) (line : String) (r : CpuReading),
      Contains line "cpu" = true → parseCpuLine line = some r → c.Total = 0 →
      ∃ st, cpuStatLine { cpu := c, readCpuTag := false, divisors := ds } line = some st ∧
        st.cpu.IoWaitRate = c.IoWaitRate ∧ st.cpu.SystemRate = c.SystemRate ∧
        st.cpu.UserRate = c.UserRate ∧ st.cpu.IdleRate = c.IdleRate ∧ st.divisors = ds) := by
  refine ⟨?_, ?_, ?_, ?_⟩
  · intro m acc line now name r p hline hp hL
    obtain ⟨hacc, -, hder, hlast⟩ := ioStatEntry_no_baseline p acc name r now hL
    refine ⟨?_, _, ioStatLine_get? m acc line now name r p hline hp, hder, hlast⟩
    simp only [ioStatLine, hline, hp]
    exact hacc
  · intro d content clock pre post line name r p hsplit hother hline hp hL
    have hpre : (ioStatLoop clock pre 0 (d.PartiMap, IoStatLocals.init)).1.get? name
        = some p := by
      rw [ioStatLoop_get?_frame clock pre 0 _ name
        (fun l hl => hother l (List.mem_append_left _ hl))]
      exact hp
    obtain ⟨-, -, hder, hlast⟩ :=
      ioStatEntry_no_baseline p (ioStatLoop clock pre 0 (d.PartiMap, IoStatLocals.init)).2
        name r (clock pre.length) hL
    refine ⟨_, ?_, hder, hlast⟩
    rw [InitIoStat_get?_last d content clock pre post line name hsplit
      (fun l hl => hother l (List.mem_append_right _ hl))]
    exact ioStatLine_get? _ _ line (clock pre.length) name r p hline hpre
  · intro parseFloat st line w ethname r addrs ifi hline haddrs hne hmoni hget hL
    obtain ⟨q, hq, h1, h2, h3, h4, h5, h6⟩ :=
      netDevLine_get? parseFloat st line w ethname r addrs ifi hline haddrs hne hmoni hget
    have hz : ifiRates ifi r w.now
        = { recvByteAvg := 0, recvPkgAvg := 0, recvErrRate := 0, sendByteAvg := 0,
            sendPkgAvg := 0, sendErrRate := 0, divisors := [] } := by
      simp only [ifiRates, hL, if_true]
    rw [hz] at h1 h2 h3 h4 h5 h6
    exact ⟨by rw [hz], q, hq, h1, h2, h3, h4, h5, h6⟩
  · intro c ds line r hcpu hparse hT
    refine ⟨_, cpuStatLine_first c ds line r hcpu hparse, ?_⟩
    simp [cpuSample, hT]

/-- C25, at `sda1` stored with counters, a read rate of 7 and `Last = 0` (a baseline
taken at clock 0), read at clock 10 with 100 more reads: the thirteen metrics stay as
they were (the read rate stays 7, no rate `100 / 10` is produced) and `Last` becomes 10.
Likewise `sda1` registered and first read at clock 0 has a read rate of 0 after a second
reading at clock 10. -/
theorem baseline_sentinel_witness :
    parseDiskstatsLine sda1LineB = some ("sda1", sda1ReadingB) ∧
    ({ sda1At 0 with RioPerSecond := 7 } : Partition).Last ≤ 0 ∧
    ∃ q, (ioStatLine ([("sda1", { sda1At 0 with RioPerSecond := 7 })], IoStatLocals.init)
        sda1LineB 10).1.get? "sda1" = some q ∧
      q.derived = [0, 0, 7, 0, 0, 0, 0, 0, 0, 0, 0, 0, 0] ∧ q.Last = 10 ∧
      (((diskEmpty.Collect partitionsSda sda1LineA fun _ => 0).Collect partitionsSda sda1LineB
        fun _ => 10).PartiMap.get? "sda1").map (fun q => (q.Last, q.RioPerSecond))
        = some (10, 0) := by
  obtain ⟨-, q, hq, hder, hlast⟩ :=
    baseline_sentinel.1 [("sda1", { sda1At 0 with RioPerSecond := 7 })] IoStatLocals.init
      sda1LineB 10 "sda1" sda1ReadingB { sda1At 0 with RioPerSecond := 7 } (by decide) rfl
      (by decide)
  exact ⟨by decide, by decide, q, hq, hder.trans (by decide!), hlast, by decide!⟩

/-! ## Network interfaces: the byte sums by class -/

/-- What `netSums` adds to the six byte sums: the rate to the overall sum and to the
sum of the class of the interface. -/
theorem netSums_byte (this : NetWork) (ifi : Ifi) (v : IfiRates) :
    (netSums this ifi v).RecvByteSum = this.RecvByteSum + v.recvByteAvg ∧
    (netSums this ifi v).InRecvByteSum
      = this.InRecvByteSum + (if ifi.IsInEth = true then v.recvByteAvg else 0) ∧
    (netSums this ifi v).OutRecvByteSum
      = this.OutRecvByteSum + (if (!ifi.IsInEth) = true then v.recvByteAvg else 0) ∧
    (netSums this ifi v).SendByteSum = this.SendByteSum + v.sendByteAvg ∧
    (netSums this ifi v).InSendByteSum
      = this.InSendByteSum + (if ifi.IsInEth = true then v.sendByteAvg else 0) ∧
    (netSums this ifi v).OutSendByteSum
      = this.OutSendByteSum + (if (!ifi.IsInEth) = true then v.sendByteAvg else 0) := by
  unfold netSums
  by_cases h : ifi.IsInEth = true
  · simp [h]
  · simp [h]

theorem netSpeed_byte (parseFloat : String → Option ℚ) (st : NetLoop) (ethname : String)
    (ifi : Ifi) (v : IfiRates) (output : String) :
    (netSpeed parseFloat st ethname ifi v output).net.RecvByteSum = st.net.RecvByteSum ∧
    (netSpeed parseFloat st ethname ifi v output).net.InRecvByteSum = st.net.InRecvByteSum ∧
    (netSpeed parseFloat st ethname ifi v output).net.OutRecvByteSum
      = st.net.OutRecvByteSum ∧
    (netSpeed parseFloat st ethname ifi v output).net.SendByteSum = st.net.SendByteSum ∧
    (netSpeed parseFloat st ethname ifi v output).net.InSendByteSum = st.net.InSendByteSum ∧
    (netSpeed parseFloat st ethname ifi v output).net.OutSendByteSum
      = st.net.OutSendByteSum := by
  unfold netSpeed
  cases ethtoolSpeed parseFloat (Split output '\n') with
  | none => exact ⟨rfl, rfl, rfl, rfl, rfl, rfl⟩
  | some speed =>
    simp only
    split_ifs <;> exact ⟨rfl, rfl, rfl, rfl, rfl, rfl⟩

/-- What a handled line adds to the six byte sums. -/
theorem netLineApply_byte (parseFloat : String → Option ℚ) (st : NetLoop) (x : NetLineVars) :
    (netLineApply parseFloat st x).net.RecvByteSum = st.net.RecvByteSum + x.v.recvByteAvg ∧
    (netLineApply parseFloat st x).net.InRecvByteSum
      = st.net.InRecvByteSum + (if x.isInEth = true then x.v.recvByteAvg else 0) ∧
    (netLineApply parseFloat st x).net.OutRecvByteSum
      = st.net.OutRecvByteSum + (if (!x.isInEth) = true then x.v.recvByteAvg else 0) ∧
    (netLineApply parseFloat st x).net.SendByteSum = st.net.SendByteSum + x.v.sendByteAvg ∧
    (netLineApply parseFloat st x).net.InSendByteSum
      = st.net.InSendByteSum + (if x.isInEth = true then x.v.sendByteAvg else 0) ∧
    (netLineApply parseFloat st x).net.OutSendByteSum
      = st.net.OutSendByteSum + (if (!x.isInEth) = true then x.v.sendByteAvg else 0) := by
  have h0 : ∀ (n : NetWork) (f : NetWork → ℚ),
      (∀ (m : GoMap Ifi) (l : List String),
        f { n with IfiMap := m, IfiNames := l } = f n) →
      f (match n.IfiMap.get? x.ethname with
        | some _ => n
        | none => { n with IfiMap := n.IfiMap.set x.ethname Ifi.zero,
                           IfiNames := n.IfiNames ++ [x.ethname] }) = f n := by
    intro n f hf
    cases n.IfiMap.get? x.ethname with
    | some _ => rfl
    | none => exact hf _ _
  have e1 := h0 st.net NetWork.RecvByteSum (fun _ _ => rfl)
  have e2 := h0 st.net NetWork.InRecvByteSum (fun _ _ => rfl)
  have e3 := h0 st.net NetWork.OutRecvByteSum (fun _ _ => rfl)
  have e4 := h0 st.net NetWork.SendByteSum (fun _ _ => rfl)
  have e5 := h0 st.net NetWork.InSendByteSum (fun _ _ => rfl)
  have e6 := h0 st.net NetWork.OutSendByteSum (fun _ _ => rfl)
  unfold netLineApply NetLineVars.isInEth
  cases hE : x.ethtool with
  | none =>
    simp only
    refine ⟨?_, ?_, ?_, ?_, ?_, ?_⟩
    · rw [(netSums_byte _ _ _).1]
      exact congrArg (fun t => t + _) e1
    · rw [(netSums_byte _ _ _).2.1]
      exact congrArg (fun t => t + _) e2
    · rw [(netSums_byte _ _ _).2.2.1]
      exact congrArg (fun t => t + _) e3
    · rw [(netSums_byte _ _ _).2.2.2.1]
      exact congrArg (fun t => t + _) e4
    · rw [(netSums_byte _ _ _).2.2.2.2.1]
      exact congrArg (fun t => t + _) e5
    · rw [(netSums_byte _ _ _).2.2.2.2.2]
      exact congrArg (fun t => t + _) e6
  | some output =>
    simp only
    refine ⟨?_, ?_, ?_, ?_, ?_, ?_⟩
    · rw [(netSpeed_byte _ _ _ _ _ _).1, (netSums_byte _ _ _).1]
      exact congrArg (fun t => t + _) e1
    · rw [(netSpeed_byte _ _ _ _ _ _).2.1, (netSums_byte _ _ _).2.1]
      exact congrArg (fun t => t + _) e2
    · rw [(netSpeed_byte _ _ _ _ _ _).2.2.1, (netSums_byte _ _ _).2.2.1]
      exact congrArg (fun t => t + _) e3
    · rw [(netSpeed_byte _ _ _ _ _ _).2.2.2.1, (netSums_byte _ _ _).2.2.2.1]
      exact congrArg (fun t => t + _) e4
    · rw [(netSpeed_byte _ _ _ _ _ _).2.2.2.2.1, (netSums_byte _ _ _).2.2.2.2.1]
      exact congrArg (fun t => t + _) e5
    · rw [(netSpeed_byte _ _ _ _ _ _).2.2.2.2.2, (netSums_byte _ _ _).2.2.2.2.2]
      exact congrArg (fun t => t + _) e6

theorem foldl_keep {α β : Type} (l : List α) (a : β) : l.foldl (fun s _ => s) a = a := by
  induction l with
  | nil => rfl
  | cons x t ih => exact ih

/-- The result of `Collect` depends on the receiver through its history only: the sums,
the maxima and the detail strings are reset before the file is read. -/
theorem Collect_of_history (this that : NetWork) (parseFloat : String → Option ℚ)
    (content : String) (probe : Nat → NetProbe) (hmap : that.IfiMap = this.IfiMap)
    (hnames : that.IfiNames = this.IfiNames) :
    that.Collect parseFloat content probe = this.Collect parseFloat content probe := by
  have h : that.ResetIfiData = this.ResetIfiData := by
    simp only [NetWork.ResetIfiData, hmap, hnames]
  unfold NetWork.Collect
  rw [h]

/-- C26. After every `Collect` pass `RecvByteSum = InRecvByteSum + OutRecvByteSum` and
`SendByteSum = InSendByteSum + OutSendByteSum` (over exact arithmetic).  The overall sums
are the sums of the byte rates of the interface readings of the pass, the `In` sums those
of the readings classified as internal and the `Out` sums those of the others, so that
each reading is counted in exactly one class.  The sums do not depend on what the
receiver held in its sum fields before the pass: receivers with the same history give
the same result. -/
theorem net_class_sums_partition (parseFloat : String → Option ℚ) (this : NetWork)
    (content : String) (probe : Nat → NetProbe) :
    (this.Collect parseFloat content probe).RecvByteSum
      = (this.Collect parseFloat content probe).InRecvByteSum
        + (this.Collect parseFloat content probe).OutRecvByteSum ∧
    (this.Collect parseFloat content probe).SendByteSum
      = (this.Collect parseFloat content probe).InSendByteSum
        + (this.Collect parseFloat content probe).OutSendByteSum ∧
    (this.Collect parseFloat content probe).RecvByteSum
      = ((this.passVars parseFloat content probe).map fun x => x.v.recvByteAvg).sum ∧
    (this.Collect parseFloat content probe).InRecvByteSum
      = (((this.passVars parseFloat content probe).filter fun x => x.isInEth).map
          fun x => x.v.recvByteAvg).sum ∧
    (this.Collect parseFloat content probe).OutRecvByteSum
      = (((this.passVars parseFloat content probe).filter fun x => !x.isInEth).map
          fun x => x.v.recvByteAvg).sum ∧
    (this.Collect parseFloat content probe).SendByteSum
      = ((this.passVars parseFloat content probe).map fun x => x.v.sendByteAvg).sum ∧
    (this.Collect parseFloat content probe).InSendByteSum
      = (((this.passVars parseFloat content probe).filter fun x => x.isInEth).map
          fun x => x.v.sendByteAvg).sum ∧
    (this.Collect parseFloat content probe).OutSendByteSum
      = (((this.passVars parseFloat content probe).filter fun x => !x.isInEth).map
          fun x => x.v.sendByteAvg).sum ∧
    (∀ that : NetWork, that.IfiMap = this.IfiMap → that.IfiNames = this.IfiNames →
      that.Collect parseFloat content probe = this.Collect parseFloat content probe) := by
  have hfold : ∀ (g : NetWork → ℚ) (c : NetLineVars → ℚ),
      (∀ (st : NetLoop) (x : NetLineVars),
        g (netLineApply parseFloat st x).net = g st.net + c x) →
      g this.ResetIfiData = 0 →
      g (this.Collect parseFloat content probe)
        = ((this.passVars parseFloat content probe).map c).sum := by
    intro g c hstep hzero
    have h := netDevLoop_fold parseFloat g (fun s x => s + c x) hstep probe
      (readLines content) 0 { net := this.ResetIfiData, divisors := [] }
    rw [foldl_add_eq_sum, hzero, zero_add] at h
    exact h
  have hRecv := hfold NetWork.RecvByteSum (fun x => x.v.recvByteAvg)
    (fun st x => (netLineApply_byte parseFloat st x).1) rfl
  have hInRecv := hfold NetWork.InRecvByteSum
    (fun x => if x.isInEth = true then x.v.recvByteAvg else 0)
    (fun st x => (netLineApply_byte parseFloat st x).2.1) rfl
  have hOutRecv := hfold NetWork.OutRecvByteSum
    (fun x => if (!x.isInEth) = true then x.v.recvByteAvg else 0)
    (fun st x => (netLineApply_byte parseFloat st x).2.2.1) rfl
  have hSend := hfold NetWork.SendByteSum (fun x => x.v.sendByteAvg)
    (fun st x => (netLineApply_byte parseFloat st x).2.2.2.1) rfl
  have hInSend := hfold NetWork.InSendByteSum
    (fun x => if x.isInEth = true then x.v.sendByteAvg else 0)
    (fun st x => (netLineApply_byte parseFloat st x).2.2.2.2.1) rfl
  have hOutSend := hfold NetWork.OutSendByteSum
    (fun x => if (!x.isInEth) = true then x.v.sendByteAvg else 0)
    (fun st x => (netLineApply_byte parseFloat st x).2.2.2.2.2) rfl
  have hpartR := hfold (fun n => n.RecvByteSum - (n.InRecvByteSum + n.OutRecvByteSum))
    (fun _ => 0)
    (fun st x => by
      obtain ⟨a1, a2, a3, -, -, -⟩ := netLineApply_byte parseFloat st x
      simp only [a1, a2, a3]
      cases x.isInEth <;> simp <;> ring)
    (by simp [NetWork.ResetIfiData])
  have hpartS := hfold (fun n => n.SendByteSum - (n.InSendByteSum + n.OutSendByteSum))
    (fun _ => 0)
    (fun st x => by
      obtain ⟨-, -, -, a4, a5, a6⟩ := netLineApply_byte parseFloat st x
      simp only [a4, a5, a6]
      cases x.isInEth <;> simp <;> ring)
    (by simp [NetWork.ResetIfiData])
  simp only [List.map_const', List.sum_replicate, smul_zero] at hpartR hpartS
  rw [sum_map_ite] at hInRecv hOutRecv hInSend hOutSend
  refine ⟨by linarith, by linarith, hRecv, hInRecv, hOutRecv, hSend, hInSend, hOutSend,
    fun that h1 h2 => Collect_of_history this that parseFloat content probe h1 h2⟩

/-- C26, at the history `eth0` (address `192.168.1.5/24`, internal) and `eth1` (address
`8.8.4.4/24`, external) read with zero counters at clock 100, and a pass at clock 101
with 125000 bytes received on `eth0`, 5000 received and 9000 sent on `eth1`: the sums
are `130000 = 125000 + 5000` and `9000 = 0 + 9000`, also when the receiver held other
sums before the pass. -/
theorem net_class_sums_partition_witness :
    ((netEmpty.Collect parseFloatDigits netDevTwoZero (probeTwo 100)).Collect parseFloatDigits
        netDevTwoB (probeTwo 101)).RecvByteSum = 130000 ∧
    ((netEmpty.Collect parseFloatDigits netDevTwoZero (probeTwo 100)).Collect parseFloatDigits
        netDevTwoB (probeTwo 101)).InRecvByteSum = 125000 ∧
    ((netEmpty.Collect parseFloatDigits netDevTwoZero (probeTwo 100)).Collect parseFloatDigits
        netDevTwoB (probeTwo 101)).OutRecvByteSum = 5000 ∧
    ((netEmpty.Collect parseFloatDigits netDevTwoZero (probeTwo 100)).Collect parseFloatDigits
        netDevTwoB (probeTwo 101)).SendByteSum = 9000 ∧
    ({ netEmpty.Collect parseFloatDigits netDevTwoZero (probeTwo 100) with
        RecvByteSum := 77, OutRecvByteSum := 5 } : NetWork).Collect parseFloatDigits
        netDevTwoB (probeTwo 101)
      = (netEmpty.Collect parseFloatDigits netDevTwoZero (probeTwo 100)).Collect
          parseFloatDigits netDevTwoB (probeTwo 101) := by
  obtain ⟨hR, -, -, hIn, hOut, hS, -, -, hhist⟩ :=
    net_class_sums_partition parseFloatDigits
      (netEmpty.Collect parseFloatDigits netDevTwoZero (probeTwo 100)) netDevTwoB (probeTwo 101)
  have hIn2 : ((netEmpty.Collect parseFloatDigits netDevTwoZero (probeTwo 100)).Collect
      parseFloatDigits netDevTwoB (probeTwo 101)).InRecvByteSum = 125000 := by
    rw [hIn]; decide!
  have hOut2 : ((netEmpty.Collect parseFloatDigits netDevTwoZero (probeTwo 100)).Collect
      parseFloatDigits netDevTwoB (probeTwo 101)).OutRecvByteSum = 5000 := by
    rw [hOut]; decide!
  refine ⟨?_, hIn2, hOut2, ?_, hhist _ rfl rfl⟩
  · rw [hR, hIn2, hOut2]; norm_num
  · rw [hS]; decide!

/-! ## Mounted file systems: the totals -/

/-- What a row does to the three totals of the receiver: a row of six fields adds its
columns to them on `uint64`, another line leaves them. -/
theorem dfLine_totals (parseFloat : String → Option ℚ) (st : DiskLoop) (line : String) :
    (dfLine parseFloat st line).disk.Total
      = (if (Fields line).length = 6 then
          addUint64 st.disk.Total (ParseUint ((Fields line).getD 1 ""))
        else st.disk.Total) ∧
    (dfLine parseFloat st line).disk.Used
      = (if (Fields line).length = 6 then
          addUint64 st.disk.Used (ParseUint ((Fields line).getD 2 ""))
        else st.disk.Used) ∧
    (dfLine parseFloat st line).disk.Free
      = (if (Fields line).length = 6 then
          addUint64 st.disk.Free (ParseUint ((Fields line).getD 3 ""))
        else st.disk.Free) := by
  unfold dfLine
  by_cases h : (Fields line).length = 6
  · simp only [h, ne_eq, not_true_eq_false, if_false, if_true]
    split_ifs <;> exact ⟨rfl, rfl, rfl⟩
  · simp [h]

/-- The loop of `Disk.Collect` adds the columns of the rows of six fields to the totals
the receiver holds when the loop starts. -/
theorem dfLoop_totals (parseFloat : String → Option ℚ) (lines : List String) (st : DiskLoop) :
    (lines.foldl (dfLine parseFloat) st).disk.Total % 2 ^ 64
      = (st.disk.Total + (((lines.filter fun line => (Fields line).length = 6).map
          fun line => ParseUint ((Fields line).getD 1 "")).sum)) % 2 ^ 64 ∧
    (lines.foldl (dfLine parseFloat) st).disk.Used % 2 ^ 64
      = (st.disk.Used + (((lines.filter fun line => (Fields line).length = 6).map
          fun line => ParseUint ((Fields line).getD 2 "")).sum)) % 2 ^ 64 ∧
    (lines.foldl (dfLine parseFloat) st).disk.Free % 2 ^ 64
      = (st.disk.Free + (((lines.filter fun line => (Fields line).length = 6).map
          fun line => ParseUint ((Fields line).getD 3 "")).sum)) % 2 ^ 64 := by
  induction lines generalizing st with
  | nil => simp
  | cons line rest ih =>
    obtain ⟨i1, i2, i3⟩ := ih (dfLine parseFloat st line)
    obtain ⟨t1, t2, t3⟩ := dfLine_totals parseFloat st line
    simp only [List.foldl_cons]
    rw [i1, i2, i3, t1, t2, t3]
    by_cases h : (Fields line).length = 6
    · simp only [h, if_true, List.filter_cons, decide_True, List.map_cons, List.sum_cons,
        addUint64]
      refine ⟨?_, ?_, ?_⟩ <;> omega
    · simp only [h, if_false, List.filter_cons, decide_False, Bool.false_eq_true]
      exact ⟨trivial, trivial, trivial⟩

/-- The three totals after `Disk.Collect`: those the receiver held before the call plus
the columns of the rows of the output, on `uint64`. -/
theorem Disk_Collect_totals (this : Disk) (parseFloat : String → Option ℚ) (output : String) :
    (this.Collect parseFloat output).Total % 2 ^ 64
      = (this.Total + ((dfRows output).map
          fun line => ParseUint ((Fields line).getD 1 "")).sum) % 2 ^ 64 ∧
    (this.Collect parseFloat output).Used % 2 ^ 64
      = (this.Used + ((dfRows output).map
          fun line => ParseUint ((Fields line).getD 2 "")).sum) % 2 ^ 64 ∧
    (this.Collect parseFloat output).Free % 2 ^ 64
      = (this.Free + ((dfRows output).map
          fun line => ParseUint ((Fields line).getD 3 "")).sum) % 2 ^ 64 := by
  have h := dfLoop_totals parseFloat ((Split output '\n').drop 1)
    { disk := { this with FsMap := [], UsedRateSet := [] }, maxUseRate := 0,
      maxUseRateFs := "" }
  have hT : ∀ (st : DiskLoop) (this2 : Disk),
      this2 = (if addUint64 st.disk.Used st.disk.Free > 0 then
        { st.disk with
          UsedRate := ((st.disk.Used : Nat) : ℚ)
            / ((addUint64 st.disk.Used st.disk.Free : Nat) : ℚ) * 100 }
        else st.disk) →
      this2.Total = st.disk.Total ∧ this2.Used = st.disk.Used ∧ this2.Free = st.disk.Free := by
    intro st this2 e
    rw [e]
    split_ifs <;> exact ⟨rfl, rfl, rfl⟩
  obtain ⟨e1, e2, e3⟩ := hT _ _ (rfl : _ = (if addUint64
    ((List.drop 1 (Split output '\n')).foldl (dfLine parseFloat)
      { disk := { this with FsMap := [], UsedRateSet := [] }, maxUseRate := 0,
        maxUseRateFs := "" }).disk.Used
    ((List.drop 1 (Split output '\n')).foldl (dfLine parseFloat)
      { disk := { this with FsMap := [], UsedRateSet := [] }, maxUseRate := 0,
        maxUseRateFs := "" }).disk.Free > 0 then _ else _))
  exact ⟨(congrArg (· % 2 ^ 64) e1).trans h.1, (congrArg (· % 2 ^ 64) e2).trans h.2.1,
    (congrArg (· % 2 ^ 64) e3).trans h.2.2⟩

/-- C24 fails: `Disk.Collect` empties `FsMap` and `UsedRateSet` but does not reset
`Total`, `Used` and `Free` before it adds the rows up, so they are the values held
before the call plus the sums of the columns.  On a `df` output with the rows
(1000, 400, 600) and (500, 100, 400) a first call on a fresh `Disk` leaves
(1500, 500, 1000) and a second call on the same output leaves (3000, 1000, 2000), while
`FsMap` has two entries after each call. -/
theorem disk_totals_accumulate :
    (∀ (this : Disk) (parseFloat : String → Option ℚ) (output : String),
      (this.Collect parseFloat output).Total % 2 ^ 64
        = (this.Total + ((dfRows output).map
            fun line => ParseUint ((Fields line).getD 1 "")).sum) % 2 ^ 64 ∧
      (this.Collect parseFloat output).Used % 2 ^ 64
        = (this.Used + ((dfRows output).map
            fun line => ParseUint ((Fields line).getD 2 "")).sum) % 2 ^ 64 ∧
      (this.Collect parseFloat output).Free % 2 ^ 64
        = (this.Free + ((dfRows output).map
            fun line => ParseUint ((Fields line).getD 3 "")).sum) % 2 ^ 64) ∧
    (dfRows dfRootHome).map (fun line => (ParseUint ((Fields line).getD 1 ""),
        ParseUint ((Fields line).getD 2 ""), ParseUint ((Fields line).getD 3 "")))
      = [(1000, 400, 600), (500, 100, 400)] ∧
    ((diskZero.Collect parseFloatDigits dfRootHome).Total,
      (diskZero.Collect parseFloatDigits dfRootHome).Used,
      (diskZero.Collect parseFloatDigits dfRootHome).Free) = (1500, 500, 1000) ∧
    (((diskZero.Collect parseFloatDigits dfRootHome).Collect parseFloatDigits dfRootHome).Total,
      ((diskZero.Collect parseFloatDigits dfRootHome).Collect parseFloatDigits dfRootHome).Used,
      ((diskZero.Collect parseFloatDigits dfRootHome).Collect parseFloatDigits dfRootHome).Free)
      = (3000, 1000, 2000) ∧
    ((diskZero.Collect parseFloatDigits dfRootHome).Collect parseFloatDigits
      dfRootHome).FsMap.keys = ["/", "/home"] ∧
    ((diskZero.Collect parseFloatDigits dfRootHome).Collect parseFloatDigits
      dfRootHome).UsedRateSet = ["/dev/sda1=/=40", "/dev/sda2=/home=20"] := by
  refine ⟨fun this parseFloat output => Disk_Collect_totals this parseFloat output,
    by decide!, by decide!, by decide!, by decide!, by decide!⟩

/-! ## Processor time: the percentages in `float64` -/

theorem log2Fuel_spec (fuel n : Nat) (hn : 0 < n) (hf : n ≤ fuel) :
    2 ^ log2Fuel fuel n ≤ n ∧ n < 2 ^ (log2Fuel fuel n + 1) := by
  induction fuel generalizing n with
  | zero => omega
  | succ fuel ih =>
    unfold log2Fuel
    by_cases h2 : n < 2
    · simp only [h2, if_true]
      omega
    · simp only [h2, if_false]
      obtain ⟨h1, h3⟩ := ih (n / 2) (by omega) (by omega)
      constructor
      · rw [Nat.pow_succ]; omega
      · rw [Nat.pow_succ]; omega

theorem log2Nat_spec (n : Nat) (hn : 0 < n) :
    2 ^ log2Nat n ≤ n ∧ n < 2 ^ (log2Nat n + 1) :=
  log2Fuel_spec n n hn (le_refl n)

/-- The binade of a positive rational. -/
theorem float64Exp_spec (x : ℚ) (hx : 0 < x) :
    (2 : ℚ) ^ float64Exp x ≤ x ∧ x < (2 : ℚ) ^ (float64Exp x + 1) := by
  have hnum : 0 < x.num := Rat.num_pos.mpr hx
  have hden : 0 < x.den := x.den_pos
  obtain ⟨n1, n2⟩ := log2Nat_spec x.num.toNat (by omega)
  obtain ⟨d1, d2⟩ := log2Nat_spec x.den hden
  have hxq : x = ((x.num.toNat : Nat) : ℚ) / ((x.den : Nat) : ℚ) := by
    have h1 : ((x.num.toNat : Nat) : ℤ) = x.num := Int.toNat_of_nonneg (le_of_lt hnum)
    have h2 : ((x.num.toNat : Nat) : ℚ) = (x.num : ℚ) := by exact_mod_cast congrArg (Int.cast : ℤ → ℚ) h1
    rw [h2]
    exact (Rat.num_div_den x).symm
  have hN1 : ((2 : ℚ) ^ log2Nat x.num.toNat) ≤ ((x.num.toNat : Nat) : ℚ) := by exact_mod_cast n1
  have hN2 : ((x.num.toNat : Nat) : ℚ) < (2 : ℚ) ^ (log2Nat x.num.toNat + 1) := by
    exact_mod_cast n2
  have hD1 : ((2 : ℚ) ^ log2Nat x.den) ≤ ((x.den : Nat) : ℚ) := by exact_mod_cast d1
  have hD2 : ((x.den : Nat) : ℚ) < (2 : ℚ) ^ (log2Nat x.den + 1) := by exact_mod_cast d2
  have hDpos : (0 : ℚ) < ((x.den : Nat) : ℚ) := by exact_mod_cast hden
  have h2pos : ∀ k : ℤ, (0 : ℚ) < (2 : ℚ) ^ k := fun k => zpow_pos (by norm_num) k
  have hlow : (2 : ℚ) ^ ((log2Nat x.num.toNat : ℤ) - (log2Nat x.den : ℤ) - 1) < x := by
    refine lt_of_lt_of_eq ?_ hxq.symm
    rw [lt_div_iff₀ hDpos]
    have e : (2 : ℚ) ^ ((log2Nat x.num.toNat : ℤ) - (log2Nat x.den : ℤ) - 1)
        * (2 : ℚ) ^ (log2Nat x.den + 1) = (2 : ℚ) ^ log2Nat x.num.toNat := by
      rw [← zpow_natCast (2 : ℚ) (log2Nat x.den + 1), ← zpow_add₀ (by norm_num : (2 : ℚ) ≠ 0),
        ← zpow_natCast (2 : ℚ) (log2Nat x.num.toNat)]
      congr 1
      push_cast
      ring
    calc (2 : ℚ) ^ ((log2Nat x.num.toNat : ℤ) - (log2Nat x.den : ℤ) - 1) * ((x.den : Nat) : ℚ)
        < (2 : ℚ) ^ ((log2Nat x.num.toNat : ℤ) - (log2Nat x.den : ℤ) - 1)
            * (2 : ℚ) ^ (log2Nat x.den + 1) := mul_lt_mul_of_pos_left hD2 (h2pos _)
      _ = (2 : ℚ) ^ log2Nat x.num.toNat := e
      _ ≤ ((x.num.toNat : Nat) : ℚ) := hN1
  have hhigh : x < (2 : ℚ) ^ ((log2Nat x.num.toNat : ℤ) - (log2Nat x.den : ℤ) + 1) := by
    refine lt_of_eq_of_lt hxq ?_
    rw [div_lt_iff₀ hDpos]
    have e : (2 : ℚ) ^ ((log2Nat x.num.toNat : ℤ) - (log2Nat x.den : ℤ) + 1)
        * (2 : ℚ) ^ log2Nat x.den = (2 : ℚ) ^ (log2Nat x.num.toNat + 1) := by
      rw [← zpow_natCast (2 : ℚ) (log2Nat x.den), ← zpow_add₀ (by norm_num : (2 : ℚ) ≠ 0),
        ← zpow_natCast (2 : ℚ) (log2Nat x.num.toNat + 1)]
      congr 1
      push_cast
      ring
    calc ((x.num.toNat : Nat) : ℚ) < (2 : ℚ) ^ (log2Nat x.num.toNat + 1) := hN2
      _ = (2 : ℚ) ^ ((log2Nat x.num.toNat : ℤ) - (log2Nat x.den : ℤ) + 1)
            * (2 : ℚ) ^ log2Nat x.den := e.symm
      _ ≤ (2 : ℚ) ^ ((log2Nat x.num.toNat : ℤ) - (log2Nat x.den : ℤ) + 1)
            * ((x.den : Nat) : ℚ) := mul_le_mul_of_nonneg_left hD1 (le_of_lt (h2pos _))
  unfold float64Exp
  simp only
  by_cases hc : x < (2 : ℚ) ^ ((log2Nat x.num.toNat : ℤ) - (log2Nat x.den : ℤ))
  · simp only [hc, if_true]
    refine ⟨le_of_lt hlow, ?_⟩
    have : (log2Nat x.num.toNat : ℤ) - (log2Nat x.den : ℤ) - 1 + 1
        = (log2Nat x.num.toNat : ℤ) - (log2Nat x.den : ℤ) := by ring
    rw [this]
    exact hc
  · simp only [hc, if_false]
    exact ⟨not_lt.mp hc, hhigh⟩

/-- Rounding to the nearest integer moves a non-negative value by at most one half. -/
theorem roundHalfEven_err (y : ℚ) (hy : 0 ≤ y) :
    |((roundHalfEven y : Nat) : ℚ) - y| ≤ 1 / 2 := by
  have hfl0 : (0 : ℤ) ≤ y.floor := Rat.le_floor.mpr (by exact_mod_cast hy)
  have hcast : ((y.floor.toNat : Nat) : ℚ) = ((y.floor : ℤ) : ℚ) := by
    exact_mod_cast congrArg (Int.cast : ℤ → ℚ) (Int.toNat_of_nonneg hfl0)
  have hle : ((y.floor : ℤ) : ℚ) ≤ y := Rat.le_floor.mp (le_refl _)
  have hlt : y < ((y.floor : ℤ) : ℚ) + 1 := by
    by_contra h
    have h1 : ((y.floor + 1 : ℤ) : ℚ) ≤ y := by push_cast; exact not_lt.mp h
    have := Rat.le_floor.mpr h1
    omega
  unfold roundHalfEven
  simp only
  rw [abs_le]
  split_ifs with h1 h2 h3
  · constructor <;> linarith
  · constructor <;> push_cast <;> linarith
  · have h4 : y - ((y.floor.toNat : Nat) : ℚ) = 1 / 2 := le_antisymm (not_lt.mp h2) (not_lt.mp h1)
    constructor <;> linarith
  · have h4 : y - ((y.floor.toNat : Nat) : ℚ) = 1 / 2 := le_antisymm (not_lt.mp h2) (not_lt.mp h1)
    constructor <;> push_cast <;> linarith

/-- The relative error of `roundFloat64` is at most `2 ^ (-53)`. -/
theorem roundFloat64_err (x : ℚ) (hx : 0 ≤ x) : |roundFloat64 x - x| ≤ x / 2 ^ 53 := by
  by_cases h0 : x = 0
  · simp [roundFloat64, h0]
  · have hpos : 0 < x := lt_of_le_of_ne hx (Ne.symm h0)
    have habs : |x| = x := abs_of_pos hpos
    have hneg : ¬ x < 0 := not_lt.mpr hx
    have hE := (float64Exp_spec x hpos).1
    have hulp : (2 : ℚ) ^ (float64Exp x - 52) = (2 : ℚ) ^ float64Exp x / 2 ^ 52 := by
      rw [zpow_sub₀ (by norm_num : (2 : ℚ) ≠ 0)]
      norm_num
    have hupos : (0 : ℚ) < (2 : ℚ) ^ (float64Exp x - 52) := zpow_pos (by norm_num) _
    have hr := roundHalfEven_err (x / (2 : ℚ) ^ (float64Exp x - 52))
      (div_nonneg hx (le_of_lt hupos))
    unfold roundFloat64
    simp only [h0, if_false, habs, hneg]
    have e : ((roundHalfEven (x / (2 : ℚ) ^ (float64Exp x - 52)) : Nat) : ℚ)
          * (2 : ℚ) ^ (float64Exp x - 52) - x
        = (((roundHalfEven (x / (2 : ℚ) ^ (float64Exp x - 52)) : Nat) : ℚ)
            - x / (2 : ℚ) ^ (float64Exp x - 52)) * (2 : ℚ) ^ (float64Exp x - 52) := by
      field_simp
    rw [e, abs_mul, abs_of_pos hupos]
    calc |((roundHalfEven (x / (2 : ℚ) ^ (float64Exp x - 52)) : Nat) : ℚ)
            - x / (2 : ℚ) ^ (float64Exp x - 52)| * (2 : ℚ) ^ (float64Exp x - 52)
        ≤ 1 / 2 * (2 : ℚ) ^ (float64Exp x - 52) :=
          mul_le_mul_of_nonneg_right hr (le_of_lt hupos)
      _ = (2 : ℚ) ^ float64Exp x / 2 ^ 53 := by rw [hulp]; ring
      _ ≤ x / 2 ^ 53 := div_le_div_of_nonneg_right hE (by positivity)

/-- A non-negative value and its `float64`: the rounded value is between
`x * (1 - 2 ^ (-53))` and `x * (1 + 2 ^ (-53))`, and not negative. -/
theorem roundFloat64_bounds (x : ℚ) (hx : 0 ≤ x) :
    x * (1 - 1 / 2 ^ 53) ≤ roundFloat64 x ∧ roundFloat64 x ≤ x * (1 + 1 / 2 ^ 53) ∧
      0 ≤ roundFloat64 x := by
  have h := abs_le.mp (roundFloat64_err x hx)
  have h1 : x * (1 - 1 / 2 ^ 53) ≤ roundFloat64 x := by
    have : x * (1 - 1 / 2 ^ 53) = x - x / 2 ^ 53 := by ring
    rw [this]; linarith [h.1]
  refine ⟨h1, ?_, ?_⟩
  · have : x * (1 + 1 / 2 ^ 53) = x + x / 2 ^ 53 := by ring
    rw [this]; linarith [h.2]
  · exact le_trans (mul_nonneg hx (by norm_num)) h1

/-- A percentage as `Collect` computes it in `float64`, `float64(d) / diffTotal * 100`
with `diffTotal = float64(D)`: it is not negative and at most the exact percentage
times `(1 + 2 ^ (-53)) ^ 3 / (1 - 2 ^ (-53))`. -/
theorem float64_share_le (d D : ℚ) (hd : 0 ≤ d) (hD : 0 < D) :
    0 ≤ roundFloat64 (roundFloat64 (roundFloat64 d / roundFloat64 D) * 100) ∧
    roundFloat64 (roundFloat64 (roundFloat64 d / roundFloat64 D) * 100)
      ≤ d / D * 100 * ((1 + 1 / 2 ^ 53) ^ 3 / (1 - 1 / 2 ^ 53)) := by
  obtain ⟨-, a2, a0⟩ := roundFloat64_bounds d hd
  obtain ⟨b1, -, -⟩ := roundFloat64_bounds D (le_of_lt hD)
  have hu : (0 : ℚ) < 1 - 1 / 2 ^ 53 := by norm_num
  have hu1 : (0 : ℚ) ≤ 1 + 1 / 2 ^ 53 := by norm_num
  have hDu : 0 < D * (1 - 1 / 2 ^ 53) := mul_pos hD hu
  have hbpos : 0 < roundFloat64 D := lt_of_lt_of_le hDu b1
  have hq0 : 0 ≤ roundFloat64 d / roundFloat64 D := div_nonneg a0 (le_of_lt hbpos)
  have hq : roundFloat64 d / roundFloat64 D
      ≤ d * (1 + 1 / 2 ^ 53) / (D * (1 - 1 / 2 ^ 53)) :=
    div_le_div₀ (mul_nonneg hd hu1) a2 hDu b1
  obtain ⟨-, c2, c0⟩ := roundFloat64_bounds _ hq0
  have hp0 : 0 ≤ roundFloat64 (roundFloat64 d / roundFloat64 D) * 100 :=
    mul_nonneg c0 (by norm_num)
  obtain ⟨-, s2, s0⟩ := roundFloat64_bounds _ hp0
  refine ⟨s0, ?_⟩
  calc roundFloat64 (roundFloat64 (roundFloat64 d / roundFloat64 D) * 100)
      ≤ roundFloat64 (roundFloat64 d / roundFloat64 D) * 100 * (1 + 1 / 2 ^ 53) := s2
    _ ≤ roundFloat64 d / roundFloat64 D * (1 + 1 / 2 ^ 53) * 100 * (1 + 1 / 2 ^ 53) := by
        gcongr
    _ ≤ d * (1 + 1 / 2 ^ 53) / (D * (1 - 1 / 2 ^ 53)) * (1 + 1 / 2 ^ 53) * 100
          * (1 + 1 / 2 ^ 53) := by
        gcongr
    _ = d / D * 100 * ((1 + 1 / 2 ^ 53) ^ 3 / (1 - 1 / 2 ^ 53)) := by
        field_simp
        ring

theorem cpuStatLineF64_first (c : Cpu) (ds : List ℚ) (line : String) (r : CpuReading)
    (hcpu : Contains line "cpu" = true) (hparse : parseCpuLine line = some r) :
    cpuStatLineF64 { cpu := c, readCpuTag := false, divisors := ds } line
      = some { cpu := (cpuSampleF64 c r).1, readCpuTag := true,
               divisors := ds ++ (cpuSampleF64 c r).2 } := by
  simp [cpuStatLineF64, hcpu, hparse]

/-- The `float64` sum of four non-negative values is at most their sum times
`(1 + 2 ^ (-53)) ^ 3`. -/
theorem sumFloat64_le (a b c d : ℚ) (ha : 0 ≤ a) (hb : 0 ≤ b) (hc : 0 ≤ c) (hd : 0 ≤ d) :
    sumFloat64 a b c d ≤ (a + b + c + d) * (1 + 1 / 2 ^ 53) ^ 3 := by
  have hu : (1 : ℚ) ≤ 1 + 1 / 2 ^ 53 := by norm_num
  have hu0 : (0 : ℚ) ≤ 1 + 1 / 2 ^ 53 := by norm_num
  obtain ⟨-, s1, p1⟩ := roundFloat64_bounds (a + b) (by linarith)
  obtain ⟨-, s2, p2⟩ := roundFloat64_bounds (roundFloat64 (a + b) + c) (by linarith)
  obtain ⟨-, s3, -⟩ := roundFloat64_bounds (roundFloat64 (roundFloat64 (a + b) + c) + d)
    (by linarith)
  have hc1 : c ≤ c * (1 + 1 / 2 ^ 53) := le_mul_of_one_le_right hc hu
  have e2 : roundFloat64 (roundFloat64 (a + b) + c) ≤ (a + b + c) * (1 + 1 / 2 ^ 53) ^ 2 := by
    calc roundFloat64 (roundFloat64 (a + b) + c)
        ≤ (roundFloat64 (a + b) + c) * (1 + 1 / 2 ^ 53) := s2
      _ ≤ ((a + b) * (1 + 1 / 2 ^ 53) + c * (1 + 1 / 2 ^ 53)) * (1 + 1 / 2 ^ 53) := by
          gcongr
      _ = (a + b + c) * (1 + 1 / 2 ^ 53) ^ 2 := by ring
  have hd2 : d ≤ d * (1 + 1 / 2 ^ 53) ^ 2 :=
    le_mul_of_one_le_right hd (one_le_pow₀ hu)
  unfold sumFloat64
  calc roundFloat64 (roundFloat64 (roundFloat64 (a + b) + c) + d)
      ≤ (roundFloat64 (roundFloat64 (a + b) + c) + d) * (1 + 1 / 2 ^ 53) := s3
    _ ≤ ((a + b + c) * (1 + 1 / 2 ^ 53) ^ 2 + d * (1 + 1 / 2 ^ 53) ^ 2)
          * (1 + 1 / 2 ^ 53) := by
        gcongr
    _ = (a + b + c + d) * (1 + 1 / 2 ^ 53) ^ 3 := by ring

/-- C4 (amended). With the `float64` arithmetic of `Collect`: when the stored `Total` is
the sum of the five stored counters, the five counters of the reading are at least the
stored ones, their sum fits in `uint64` and is greater than the stored `Total > 0` (so
that the rates are recomputed), the four percentages `Collect` stores are not negative
and add up to at most `100 * (1 + 2 ^ (-53)) ^ 3 / (1 - 2 ^ (-53))`, which is less than
`100 + 10 ^ (-13)`; their sum evaluated in `float64` is less than `100 + 10 ^ (-13)`
too. -/
theorem cpu_percentage_bound (c : Cpu) (ds : List ℚ) (line : String) (r : CpuReading)
    (hcpu : Contains line "cpu" = true) (hparse : parseCpuLine line = some r)
    (hcons : c.Total = c.User + c.Nice + c.System + c.Idle + c.Iowait)
    (huser : c.User ≤ r.user) (hnice : c.Nice ≤ r.nice) (hsys : c.System ≤ r.system)
    (hidle : c.Idle ≤ r.idle) (hio : c.Iowait ≤ r.iowait)
    (hsum : r.user + r.nice + r.system + r.idle + r.iowait < 2 ^ 64)
    (hT : 0 < c.Total) (hlt : c.Total < r.user + r.nice + r.system + r.idle + r.iowait) :
    ∃ st, cpuStatLineF64 { cpu := c, readCpuTag := false, divisors := ds } line = some st ∧
      0 ≤ st.cpu.UserRate ∧ 0 ≤ st.cpu.SystemRate ∧ 0 ≤ st.cpu.IdleRate ∧
      0 ≤ st.cpu.IoWaitRate ∧
      st.cpu.UserRate + st.cpu.SystemRate + st.cpu.IdleRate + st.cpu.IoWaitRate
        ≤ 100 * ((1 + 1 / 2 ^ 53) ^ 3 / (1 - 1 / 2 ^ 53)) ∧
      st.cpu.UserRate + st.cpu.SystemRate + st.cpu.IdleRate + st.cpu.IoWaitRate
        < 100 + 1 / 10 ^ 13 ∧
      sumFloat64 st.cpu.UserRate st.cpu.SystemRate st.cpu.IdleRate st.cpu.IoWaitRate
        < 100 + 1 / 10 ^ 13 := by
  refine ⟨_, cpuStatLineF64_first c ds line r hcpu hparse, ?_⟩
  obtain ⟨hu, -, hs, hi, hw⟩ := parseCpuLine_lt hparse
  have htotal : cpuTotal r = r.user + r.nice + r.system + r.idle + r.iowait := by
    rw [cpuTotal_eq, Nat.mod_eq_of_lt hsum]
  have hlt2 : c.Total < cpuTotal r := by rw [htotal]; exact hlt
  have hTpos : ¬ c.Total ≤ 0 := by omega
  have hdT : ((subUint64 (cpuTotal r) c.Total : Nat) : ℚ)
      = (cpuTotal r : ℚ) - (c.Total : ℚ) := by
    rw [subUint64_of_le (le_of_lt hlt2) (cpuTotal_lt r), Nat.cast_sub (le_of_lt hlt2)]
  have hpos : (0 : ℚ) < (cpuTotal r : ℚ) - (c.Total : ℚ) := by
    have : (c.Total : ℚ) < (cpuTotal r : ℚ) := by exact_mod_cast hlt2
    linarith
  have e1 : ((subUint64 r.idle c.Idle : Nat) : ℚ) = (r.idle : ℚ) - (c.Idle : ℚ) := by
    rw [subUint64_of_le hidle hi, Nat.cast_sub hidle]
  have e2 : ((subUint64 r.user c.User : Nat) : ℚ) = (r.user : ℚ) - (c.User : ℚ) := by
    rw [subUint64_of_le huser hu, Nat.cast_sub huser]
  have e3 : ((subUint64 r.system c.System : Nat) : ℚ) = (r.system : ℚ) - (c.System : ℚ) := by
    rw [subUint64_of_le hsys hs, Nat.cast_sub hsys]
  have e4 : ((subUint64 r.iowait c.Iowait : Nat) : ℚ) = (r.iowait : ℚ) - (c.Iowait : ℚ) := by
    rw [subUint64_of_le hio hw, Nat.cast_sub hio]
  have n1 : (0 : ℚ) ≤ (r.idle : ℚ) - (c.Idle : ℚ) := by
    have : (c.Idle : ℚ) ≤ (r.idle : ℚ) := by exact_mod_cast hidle
    linarith
  have n2 : (0 : ℚ) ≤ (r.user : ℚ) - (c.User : ℚ) := by
    have : (c.User : ℚ) ≤ (r.user : ℚ) := by exact_mod_cast huser
    linarith
  have n3 : (0 : ℚ) ≤ (r.system : ℚ) - (c.System : ℚ) := by
    have : (c.System : ℚ) ≤ (r.system : ℚ) := by exact_mod_cast hsys
    linarith
  have n4 : (0 : ℚ) ≤ (r.iowait : ℚ) - (c.Iowait : ℚ) := by
    have : (c.Iowait : ℚ) ≤ (r.iowait : ℚ) := by exact_mod_cast hio
    linarith
  have hflpos : roundFloat64 ((cpuTotal r : ℚ) - (c.Total : ℚ)) > 0 :=
    lt_of_lt_of_le (mul_pos hpos (by norm_num))
      (roundFloat64_bounds _ (le_of_lt hpos)).1
  obtain ⟨pI, bI⟩ := float64_share_le _ _ n1 hpos
  obtain ⟨pU, bU⟩ := float64_share_le _ _ n2 hpos
  obtain ⟨pS, bS⟩ := float64_share_le _ _ n3 hpos
  obtain ⟨pW, bW⟩ := float64_share_le _ _ n4 hpos
  simp only [cpuSampleF64, hTpos, if_false, hdT, hflpos, if_true, e1, e2, e3, e4]
  have hnum : ((r.user : ℚ) - (c.User : ℚ)) + ((r.system : ℚ) - (c.System : ℚ))
      + ((r.idle : ℚ) - (c.Idle : ℚ)) + ((r.iowait : ℚ) - (c.Iowait : ℚ))
      ≤ (cpuTotal r : ℚ) - (c.Total : ℚ) := by
    have h1 : (c.Nice : ℚ) ≤ (r.nice : ℚ) := by exact_mod_cast hnice
    rw [htotal, hcons]; push_cast; linarith
  have hK : (0 : ℚ) ≤ (1 + 1 / 2 ^ 53) ^ 3 / (1 - 1 / 2 ^ 53) := by norm_num
  have hquot : (((r.user : ℚ) - (c.User : ℚ)) + ((r.system : ℚ) - (c.System : ℚ))
      + ((r.idle : ℚ) - (c.Idle : ℚ)) + ((r.iowait : ℚ) - (c.Iowait : ℚ)))
      / ((cpuTotal r : ℚ) - (c.Total : ℚ)) ≤ 1 := div_le_one_of_le₀ hnum (le_of_lt hpos)
  have hbound : roundFloat64 (roundFloat64 (roundFloat64 ((r.user : ℚ) - (c.User : ℚ))
          / roundFloat64 ((cpuTotal r : ℚ) - (c.Total : ℚ))) * 100)
        + roundFloat64 (roundFloat64 (roundFloat64 ((r.system : ℚ) - (c.System : ℚ))
          / roundFloat64 ((cpuTotal r : ℚ) - (c.Total : ℚ))) * 100)
        + roundFloat64 (roundFloat64 (roundFloat64 ((r.idle : ℚ) - (c.Idle : ℚ))
          / roundFloat64 ((cpuTotal r : ℚ) - (c.Total : ℚ))) * 100)
        + roundFloat64 (roundFloat64 (roundFloat64 ((r.iowait : ℚ) - (c.Iowait : ℚ))
          / roundFloat64 ((cpuTotal r : ℚ) - (c.Total : ℚ))) * 100)
      ≤ 100 * ((1 + 1 / 2 ^ 53) ^ 3 / (1 - 1 / 2 ^ 53)) := by
    calc _ ≤ ((r.user : ℚ) - (c.User : ℚ)) / ((cpuTotal r : ℚ) - (c.Total : ℚ)) * 100
              * ((1 + 1 / 2 ^ 53) ^ 3 / (1 - 1 / 2 ^ 53))
            + ((r.system : ℚ) - (c.System : ℚ)) / ((cpuTotal r : ℚ) - (c.Total : ℚ)) * 100
              * ((1 + 1 / 2 ^ 53) ^ 3 / (1 - 1 / 2 ^ 53))
            + ((r.idle : ℚ) - (c.Idle : ℚ)) / ((cpuTotal r : ℚ) - (c.Total : ℚ)) * 100
              * ((1 + 1 / 2 ^ 53) ^ 3 / (1 - 1 / 2 ^ 53))
            + ((r.iowait : ℚ) - (c.Iowait : ℚ)) / ((cpuTotal r : ℚ) - (c.Total : ℚ)) * 100
              * ((1 + 1 / 2 ^ 53) ^ 3 / (1 - 1 / 2 ^ 53)) := by linarith
      _ = ((((r.user : ℚ) - (c.User : ℚ)) + ((r.system : ℚ) - (c.System : ℚ))
            + ((r.idle : ℚ) - (c.Idle : ℚ)) + ((r.iowait : ℚ) - (c.Iowait : ℚ)))
            / ((cpuTotal r : ℚ) - (c.Total : ℚ)))
            * (100 * ((1 + 1 / 2 ^ 53) ^ 3 / (1 - 1 / 2 ^ 53))) := by ring
      _ ≤ 1 * (100 * ((1 + 1 / 2 ^ 53) ^ 3 / (1 - 1 / 2 ^ 53))) :=
          mul_le_mul_of_nonneg_right hquot (by norm_num)
      _ = 100 * ((1 + 1 / 2 ^ 53) ^ 3 / (1 - 1 / 2 ^ 53)) := one_mul _
  have hnumeric : (100 : ℚ) * ((1 + 1 / 2 ^ 53) ^ 3 / (1 - 1 / 2 ^ 53)) < 100 + 1 / 10 ^ 13 := by
    norm_num
  have hnumeric2 : (100 : ℚ) * ((1 + 1 / 2 ^ 53) ^ 3 / (1 - 1 / 2 ^ 53))
      * (1 + 1 / 2 ^ 53) ^ 3 < 100 + 1 / 10 ^ 13 := by
    norm_num
  refine ⟨pU, pS, pI, pW, hbound, lt_of_le_of_lt hbound hnumeric, ?_⟩
  refine lt_of_le_of_lt (sumFloat64_le _ _ _ _ pU pS pI pW) ?_
  refine lt_of_le_of_lt (mul_le_mul_of_nonneg_right hbound (by norm_num)) hnumeric2

/-- C4, at the stored counters (1, 0, 1, 1, 1) with total 4 and the line
`cpu  1 0 2 8 2`: the total difference is 9 and the shares are 0, 1/9, 7/9 and 1/9 of
100, each rounded; their sum is `100 + 2 ^ (-47)`, above 100 and within the bound. -/
theorem cpu_percentage_bound_witness :
    ∃ st, cpuStatLineF64
        { cpu := { cpuZero with User := 1, System := 1, Idle := 1, Iowait := 1, Total := 4 },
          readCpuTag := false, divisors := [] } "cpu  1 0 2 8 2 0 0 0 0 0\n" = some st ∧
      st.cpu.UserRate + st.cpu.SystemRate + st.cpu.IdleRate + st.cpu.IoWaitRate
        < 100 + 1 / 10 ^ 13 ∧
      sumFloat64 st.cpu.UserRate st.cpu.SystemRate st.cpu.IdleRate st.cpu.IoWaitRate
        < 100 + 1 / 10 ^ 13 ∧
      (cpuStatLineF64
        { cpu := { cpuZero with User := 1, System := 1, Idle := 1, Iowait := 1, Total := 4 },
          readCpuTag := false, divisors := [] } "cpu  1 0 2 8 2 0 0 0 0 0\n").map
        (fun s => s.cpu.UserRate + s.cpu.SystemRate + s.cpu.IdleRate + s.cpu.IoWaitRate)
        = some (100 + 1 / 2 ^ 47) := by
  obtain ⟨st, hst, -, -, -, -, -, h1, h2⟩ :=
    cpu_percentage_bound
      { cpuZero with User := 1, System := 1, Idle := 1, Iowait := 1, Total := 4 } []
      "cpu  1 0 2 8 2 0 0 0 0 0\n"
      { user := 1, nice := 0, system := 2, idle := 8, iowait := 2, irq := 0, softIrq := 0 }
      (by decide) (by decide) (by decide) (by decide) (by decide) (by decide) (by decide)
      (by decide) (by decide) (by decide) (by decide)
  exact ⟨st, hst, h1, h2, by decide!⟩

/-- C4 as stated fails.  With consistent counters: after a first collection of
`cpu  1 0 1 1 1` (total 4), the line `cpu  1 0 2 8 2` gives the shares 0,
11.11111111111111, 77.77777777777779 and 11.11111111111111 in `float64`; their sum is
`100 + 2 ^ (-47)`, and evaluated in `float64` it is `100 + 2 ^ (-46)`, the `float64`
after 100.  With a decreasing counter: after `cpu  10 0 0 0 10` (total 20), the line
`cpu  100 0 0 0 5` has total 105, the `uint64` difference `5 - 10` of `iowait` wraps to
`2 ^ 64 - 5`, and the sum of the shares is above `10 ^ 19`. -/
theorem cpu_percentage_sum_exceeds :
    (cpuZero.CollectF64 "cpu  1 0 1 1 1 0 0 0 0 0\n").map
      (fun c => (c.User, c.System, c.Idle, c.Iowait, c.Total)) = some (1, 1, 1, 1, 4) ∧
    ((cpuZero.CollectF64 "cpu  1 0 1 1 1 0 0 0 0 0\n").bind
      (fun c => c.CollectF64 "cpu  1 0 2 8 2 0 0 0 0 0\n")).map
      (fun c => (c.UserRate, c.SystemRate, c.IdleRate, c.IoWaitRate))
      = some (0, 3127499741229511 / 2 ^ 48, 5473124547151645 / 2 ^ 46,
          3127499741229511 / 2 ^ 48) ∧
    ((cpuZero.CollectF64 "cpu  1 0 1 1 1 0 0 0 0 0\n").bind
      (fun c => c.CollectF64 "cpu  1 0 2 8 2 0 0 0 0 0\n")).map
      (fun c => (c.UserRate + c.SystemRate + c.IdleRate + c.IoWaitRate,
        sumFloat64 c.UserRate c.SystemRate c.IdleRate c.IoWaitRate))
      = some (100 + 1 / 2 ^ 47, 100 + 1 / 2 ^ 46) ∧
    ((cpuZero.CollectF64 "cpu  10 0 0 0 10 0 0 0 0 0\n").bind
      (fun c => c.CollectF64 "cpu  100 0 0 0 5 0 0 0 0 0\n")).map
      (fun c => (c.Total, decide (10 ^ 19 < c.UserRate + c.SystemRate + c.IdleRate
        + c.IoWaitRate))) = some (105, true) := by
  refine ⟨by decide!, by decide!, by decide!, by decide!⟩

end Sysmon
